import Mathlib

/-!
A verification development for the BPMN-to-text renderer (`bpmn_to_text.py`).

The Python source is shallowly embedded: XML element trees become the
inductive `XElem`, Python `dict`s (which preserve insertion order and
update keys in place) become ordered association lists with operations
`aget?` / `agetD` / `aset`, exceptions become `Except PyErr`, and the
mutually recursive depth-first walker becomes a well-founded mutual
recursion (`walk` / `walkBranches`) threading its two mutable maps
(`number_map`, `branch_state`) as explicit state.

Machine reals from the diagram-interchange section are embedded as `ℚ`:
the source only compares and multiplies the parsed coordinates, and every
claim about them concerns the comparison logic, not rounding.
-/

namespace Bpmn2Text

/-! ### Ordered association lists (Python `dict` semantics) -/

/-- First value bound to `k`, as Python `d.get(k)`. -/
def aget? {K V : Type} [DecidableEq K] : List (K × V) → K → Option V
  | [], _ => none
  | (k', v) :: rest, k => if k' = k then some v else aget? rest k

/-- `d.get(k, dflt)`. -/
def agetD {K V : Type} [DecidableEq K] (m : List (K × V)) (k : K) (d : V) : V :=
  (aget? m k).getD d

/-- `d[k] = v`: replace in place if the key exists, else append at the end
(insertion order, as Python dicts preserve it). -/
def aset {K V : Type} [DecidableEq K] : List (K × V) → K → V → List (K × V)
  | [], k, v => [(k, v)]
  | (k', v') :: rest, k, v =>
      if k' = k then (k', v) :: rest else (k', v') :: aset rest k v

/-- `d[k].append(x)` on a `defaultdict(list)`. -/
def apush {K V : Type} [DecidableEq K] (m : List (K × List V)) (k : K) (x : V) :
    List (K × List V) :=
  aset m k (agetD m k [] ++ [x])

/-! ### Shallow XML model

`xml.etree.ElementTree` stores an element's tag as `"{namespace-uri}local"`.
We keep the two halves as separate fields `ns` and `tag` (the local name);
`child.tag.split(the-closing-brace)[-1]` in the source is then just `tag`.
An element also carries its attribute list (document order), child list
(document order) and optional text. -/

inductive XElem where
  | mk (ns : String) (tag : String) (attrib : List (String × String))
       (children : List XElem) (text : Option String)

def XElem.ns : XElem → String
  | .mk n _ _ _ _ => n

def XElem.tag : XElem → String
  | .mk _ t _ _ _ => t

def XElem.attrib : XElem → List (String × String)
  | .mk _ _ a _ _ => a

def XElem.children : XElem → List XElem
  | .mk _ _ _ c _ => c

def XElem.text : XElem → Option String
  | .mk _ _ _ _ t => t

/-- `elem.attrib.get(k, d)`. -/
def XElem.aget (e : XElem) (k : String) (d : String) : String :=
  agetD e.attrib k d

/-- `elem.attrib.get(k)` (may be absent). -/
def XElem.aget? (e : XElem) (k : String) : Option String :=
  Bpmn2Text.aget? e.attrib k

/-- `elem.attrib[k]`: raises `KeyError(k)` when absent; errors are threaded
by the callers through `Except`. -/
def XElem.aidx (e : XElem) (k : String) : Option String :=
  Bpmn2Text.aget? e.attrib k

/-- The three BPMN namespaces of the source's `NS` table. -/
def nsBpmn : String := "http://www.omg.org/spec/BPMN/20100524/MODEL"

def nsDi : String := "http://www.omg.org/spec/BPMN/20100524/DI"

def nsDc : String := "http://www.omg.org/spec/DD/20100524/DC"

/-- `elem.findall("pfx:tag", NS)` — direct children with the given
namespace and local tag, in document order. -/
def findall (e : XElem) (ns tag : String) : List XElem :=
  e.children.filter (fun c => c.ns = ns ∧ c.tag = tag)

mutual
/-- All proper descendants in document (pre-)order. -/
def XElem.descendants : XElem → List XElem
  | .mk _ _ _ cs _ => descList cs

def descList : List XElem → List XElem
  | [] => []
  | c :: cs => c :: c.descendants ++ descList cs
end

/-- `elem.findall(".//pfx:tag", NS)` — all descendants matching. -/
def findallDesc (e : XElem) (ns tag : String) : List XElem :=
  e.descendants.filter (fun c => c.ns = ns ∧ c.tag = tag)

/-- `elem.findtext("pfx:tag", default="", namespaces=NS)`: text of the
first matching child, with a found-but-textless element giving `""`. -/
def findtext (e : XElem) (ns tag : String) : String :=
  match findall e ns tag with
  | [] => ""
  | c :: _ => c.text.getD ""

/-! ### Small string helpers -/

/-- Kernel-computable character-list helpers standing in for Python string
methods (Lean core's `Substring`-based versions do not reduce inside
`decide`). -/
def listPrefix : List Char → List Char → Bool
  | [], _ => true
  | _ :: _, [] => false
  | n :: ns, h :: hs => n == h && listPrefix ns hs

/-- Python `s.startswith(pre)`. -/
def pyStartsWith (s pre : String) : Bool :=
  listPrefix pre.data s.data

/-- Python `s.endswith(suf)`. -/
def pyEndsWith (s suf : String) : Bool :=
  listPrefix suf.data.reverse s.data.reverse

def containsSubAux : List Char → List Char → Bool
  | [], needle => needle.isEmpty
  | h :: hs, needle => listPrefix needle (h :: hs) || containsSubAux hs needle

/-- Python's `sub in s` substring test. -/
def strContains (s sub : String) : Bool :=
  containsSubAux s.data sub.data

/-- Python `s.strip()`. -/
def pyTrim (s : String) : String :=
  String.mk (((s.data.dropWhile Char.isWhitespace).reverse.dropWhile
    Char.isWhitespace).reverse)

def replaceAux : Nat → List Char → List Char → List Char → List Char
  | 0, _, _, hay => hay
  | _ + 1, _, _, [] => []
  | fuel + 1, needle, rep, h :: hs =>
      if needle ≠ [] ∧ listPrefix needle (h :: hs) then
        rep ++ replaceAux fuel needle rep ((h :: hs).drop needle.length)
      else h :: replaceAux fuel needle rep hs

/-- Python `s.replace(pat, rep)` for a non-empty `pat` (the only pattern
the source uses is `"EventDefinition"`). -/
def pyReplace (s pat rep : String) : String :=
  String.mk (replaceAux s.data.length pat.data rep.data s.data)

/-- Python `sep.join(parts)`. -/
def pyJoin (sep : String) : List String → String
  | [] => ""
  | x :: xs => xs.foldl (fun acc y => acc ++ sep ++ y) x

/-- `text.split()`: whitespace-run tokens, empties dropped; the second
argument accumulates the current token reversed. -/
def wsTokens : List Char → List Char → List String
  | [], cur => if cur = [] then [] else [String.mk cur.reverse]
  | c :: cs, cur =>
      if c.isWhitespace then
        if cur = [] then wsTokens cs []
        else String.mk cur.reverse :: wsTokens cs []
      else wsTokens cs (c :: cur)

/-- `" ".join(text.split())` — whitespace-normalise to a single line. -/
def cleanNote (text : String) : String :=
  pyJoin " " (wsTokens text.data [])

/-- Code-point lexicographic order (Python's string `<`). -/
def charListLt : List Char → List Char → Bool
  | [], [] => false
  | [], _ :: _ => true
  | _ :: _, [] => false
  | a :: as', b :: bs' => a.toNat < b.toNat || (a == b && charListLt as' bs')

/-- `"    " * k`. -/
def spaces4 (k : Nat) : String :=
  String.join (List.replicate k "    ")

/-- `f"Caminho {i:02d}"`-style zero padding. -/
def pad2 (n : Nat) : String :=
  if n < 10 then "0" ++ toString n else toString n

/-- Python exceptions the renderer can raise. -/
inductive PyErr where
  | valueError (msg : String)
  | keyError (key : String)
deriving DecidableEq, Repr

/-- A left fold that stops at the first raised exception (the semantics of
a Python `for` loop whose body may raise). -/
def exFoldlM {α β : Type} (f : β → α → Except PyErr β) : β → List α → Except PyErr β
  | b, [] => .ok b
  | b, x :: xs =>
      match f b x with
      | .error e => .error e
      | .ok b' => exFoldlM f b' xs

/-- A left-to-right effectful map (a Python list comprehension whose body
may raise). -/
def exMapM {α β : Type} (f : α → Except PyErr β) : List α → Except PyErr (List β)
  | [] => .ok []
  | x :: xs =>
      match f x with
      | .error e => .error e
      | .ok y =>
          match exMapM f xs with
          | .error e => .error e
          | .ok ys => .ok (y :: ys)

/-- `float(s)`'s failure message. -/
def floatErrMsg (s : String) : String :=
  "could not convert string to float: '" ++ s ++ "'"

/-- A decimal-fraction reader standing in for Python's `float()`: optional
sign, digits, optional fractional part.  The renderer only ever compares
and multiplies the parsed values, so `ℚ` is the embedding of the float. -/
def parseDigits : List Char → Option (Nat × Nat)
  | [] => none
  | cs =>
      cs.foldl (fun acc c =>
        match acc with
        | none => none
        | some (v, n) => if c.isDigit then some (v * 10 + (c.toNat - '0'.toNat), n + 1) else none)
        (some (0, 0))

def parseFrac (cs : List Char) : Option ℚ :=
  match parseDigits cs with
  | some (v, n) => some ((v : ℚ) / ((10 : ℚ) ^ n))
  | none => none

def parseFloatCore (s : String) : Option ℚ :=
  let cs := (pyTrim s).data
  let (sign, rest) :=
    match cs with
    | '-' :: r => ((-1 : ℚ), r)
    | '+' :: r => ((1 : ℚ), r)
    | r => ((1 : ℚ), r)
  match rest.splitOn '.' with
  | [intPart] =>
      match parseDigits intPart with
      | some (v, _) => some (sign * (v : ℚ))
      | none => none
  | [intPart, fracPart] =>
      if intPart = [] ∧ fracPart = [] then none
      else
        let iv : Option ℚ :=
          if intPart = [] then some 0 else
            match parseDigits intPart with
            | some (v, _) => some (v : ℚ)
            | none => none
        let fv : Option ℚ :=
          if fracPart = [] then some 0 else parseFrac fracPart
        match iv, fv with
        | some a, some b => some (sign * (a + b))
        | _, _ => none
  | _ => none

/-- `float(s)` with Python's error message on failure. -/
def pyFloat (s : String) : Except PyErr ℚ :=
  match parseFloatCore s with
  | some q => .ok q
  | none => .error (.valueError (floatErrMsg s))

/-- `float(attrib.get(k, 0))`: the integer default needs no parsing. -/
def pyFloatAttr (e : XElem) (k : String) : Except PyErr ℚ :=
  match e.aget? k with
  | none => .ok 0
  | some s => pyFloat s

/-! ### A stable sort (Python's `list.sort`)

Python's sort is stable; so is insertion sort when each element is placed
after every earlier element that compares less-or-equal to it. -/

def sortedInsert {α : Type} (le : α → α → Bool) (x : α) : List α → List α
  | [] => [x]
  | y :: ys => if le y x then y :: sortedInsert le x ys else x :: y :: ys

def stableSort {α : Type} (le : α → α → Bool) (l : List α) : List α :=
  l.foldl (fun acc x => sortedInsert le x acc) []

/-! ### Data model (`collect_elements`) -/

/-- A flow node as the source builds it: the `'type'`/`'name'`/`'kind'`/
`'event_flavor'`/`'link_name'`/`'catch_throw'` entries of the per-node dict.
The mojibake labels (`"Evento de in?cio"` and friends) are byte-for-byte
the literals of the source file. -/
structure BNode where
  type : String
  name : String
  kind : String
  event_flavor : String
  link_name : String
  catch_throw : String
deriving DecidableEq, Repr

/-- A sequence flow: `'name'`, `'source'`, `'target'`, with absent
`sourceRef`/`targetRef` attributes giving `none`, and the `'is_link'`
flag of flows synthesised during graph repair. -/
structure BFlow where
  name : String
  source : Option String
  target : Option String
  is_link : Bool := false
deriving DecidableEq, Repr

/-- `link_by_name[nm]`'s `{'catch': [...], 'throw': [...]}`. -/
structure LinkGroup where
  catches : List String
  throws : List String
deriving DecidableEq, Repr

/-- The source's `tag_map` literal, in its dict-literal order. -/
def tag_map : List (String × String) :=
  [("task", "Atividade"),
   ("userTask", "Atividade (usu?rio)"),
   ("serviceTask", "Atividade (servi?o)"),
   ("sendTask", "Atividade (envio)"),
   ("receiveTask", "Atividade (recebimento)"),
   ("manualTask", "Atividade (manual)"),
   ("subProcess", "Subprocesso"),
   ("callActivity", "Subprocesso (call activity)"),
   ("exclusiveGateway", "Gateway exclusivo"),
   ("parallelGateway", "Gateway paralelo"),
   ("inclusiveGateway", "Gateway inclusivo"),
   ("eventBasedGateway", "Gateway baseado em evento"),
   ("startEvent", "Evento de in?cio"),
   ("endEvent", "Evento de fim"),
   ("intermediateThrowEvent", "Evento intermedi?rio"),
   ("intermediateCatchEvent", "Evento intermedi?rio"),
   ("boundaryEvent", "Evento intermedi?rio (fronteira)")]

/-- `event_flavor(elem)`: first child whose local tag ends in
`EventDefinition` gives the flavor (tag minus that suffix) and the link
name (`name` attribute, stripped). -/
def event_flavor (elem : XElem) : String × String :=
  match elem.children.find? (fun c => pyEndsWith c.tag "EventDefinition") with
  | some child =>
      (pyReplace child.tag "EventDefinition" "", pyTrim (child.aget "name" ""))
  | none => ("", "")

def pushCatch (m : List (String × LinkGroup)) (nm id : String) :
    List (String × LinkGroup) :=
  let g := agetD m nm ⟨[], []⟩
  aset m nm { g with catches := g.catches ++ [id] }

def pushThrow (m : List (String × LinkGroup)) (nm id : String) :
    List (String × LinkGroup) :=
  let g := agetD m nm ⟨[], []⟩
  aset m nm { g with throws := g.throws ++ [id] }

/-- The node-collection pass of `collect_elements` (its first `for` loop):
iterates `tag_map` in dict order, each tag's matches in document order;
`elem.attrib['id']` raises `KeyError('id')` when absent. -/
def collectNodes (proc : XElem) :
    Except PyErr (List (String × BNode) × List (String × LinkGroup)) :=
  exFoldlM (fun acc tk =>
    exFoldlM (fun acc elem =>
      match elem.aidx "id" with
      | none => .error (.keyError "id")
      | some id =>
          let fl := if strContains tk.1 "Event" then event_flavor elem else ("", "")
          let nodes := aset acc.1 id
            ⟨tk.2, elem.aget "name" "", tk.1, fl.1, fl.2, ""⟩
          let links :=
            if tk.1 = "intermediateCatchEvent" ∧ fl.2 ≠ "" then
              pushCatch acc.2 fl.2 id
            else acc.2
          let links :=
            if tk.1 = "intermediateThrowEvent" ∧ fl.2 ≠ "" then
              pushThrow links fl.2 id
            else links
          .ok (nodes, links)) acc (findall proc nsBpmn tk.1)) ([], []) tag_map

/-- `nodes[nid]['catch_throw'] = marker` for each listed id present. -/
def markNodes (marker : String) (ids : List String)
    (ns : List (String × BNode)) : List (String × BNode) :=
  ids.foldl (fun ns nid =>
    match aget? ns nid with
    | some n => aset ns nid { n with catch_throw := marker }
    | none => ns) ns

/-- One name group of the marking loop. -/
def markGroup (nodes : List (String × BNode)) (nmg : String × LinkGroup) :
    List (String × BNode) :=
  if nmg.2.catches ≠ [] ∧ nmg.2.throws ≠ [] then
    markNodes "disparo" nmg.2.throws (markNodes "captura" nmg.2.catches nodes)
  else nodes

/-- Mark `captura`/`disparo` only for names having both sides. -/
def markCatchThrow (nodes : List (String × BNode))
    (links : List (String × LinkGroup)) : List (String × BNode) :=
  links.foldl markGroup nodes

/-- Flow collection: `sequenceFlow` children in document order;
`sf.attrib['id']` raises `KeyError('id')` when absent. -/
def collectFlows (proc : XElem) :
    Except PyErr (List (String × BFlow) ×
      List (Option String × List String) × List (Option String × List String)) :=
  exFoldlM (fun acc sf =>
    match sf.aidx "id" with
    | none => .error (.keyError "id")
    | some fid =>
        let f : BFlow :=
          ⟨pyTrim (sf.aget "name" ""), sf.aget? "sourceRef", sf.aget? "targetRef", false⟩
        .ok (aset acc.1 fid f, apush acc.2.1 f.source fid, apush acc.2.2 f.target fid))
    ([], [], []) (findall proc nsBpmn "sequenceFlow")

/-- The mutable triple the two repair loops work on. -/
structure RState where
  flows : List (String × BFlow)
  outgoing : List (Option String × List String)
  incoming : List (Option String × List String)
deriving DecidableEq, Repr

def defaultFlow : BFlow := ⟨"", none, none, false⟩

/-- `f"Link: {nm}" if nm else 'Link'`. -/
def linkLabel (nm : String) : String :=
  if nm ≠ "" then "Link: " ++ nm else "Link"

/-- Python's `str(x)` on an optional string (`str(None) == "None"`),
used for the synthetic flow id built by an f-string. -/
def optStr : Option String → String
  | some s => s
  | none => "None"

/-- One redirect step: `flows[inc_id]['target'] = cid`, plus appending
`inc_id` to the catch's incoming list and removing it from `tgt`'s.
`flows[inc_id]` cannot miss: adjacency lists only hold registered flow ids. -/
def redirectEdge (cid : String) (tgt : Option String) (st : RState)
    (inc_id : String) : RState :=
  let f := agetD st.flows inc_id defaultFlow
  { flows := aset st.flows inc_id { f with target := some cid },
    outgoing := st.outgoing,
    incoming :=
      let inc := apush st.incoming (some cid) inc_id
      aset inc tgt ((agetD inc tgt []).erase inc_id) }

/-- After the redirects: create the `catch → tgt` flow unless one of the
catch's outgoing flows already targets `tgt` (with the catch's outgoing
empty, the guard is vacuously false, but it is kept as written). -/
def spliceFinish (nm cid : String) (tgt : Option String) (st : RState) : RState :=
  if (agetD st.outgoing (some cid) []).any
      (fun fid => (agetD st.flows fid defaultFlow).target == tgt) then st
  else
    let flow_id := "_linkcatch_" ++ cid ++ "_" ++ optStr tgt
    { flows := aset st.flows flow_id ⟨linkLabel nm, some cid, tgt, true⟩,
      outgoing := apush st.outgoing (some cid) flow_id,
      incoming := apush st.incoming tgt flow_id }

/-- The splice body: redirect every present in-edge of `tgt` to the catch
(over a snapshot of `tgt`'s incoming list, as `list(...)` does), then add
the synthetic flow. -/
def spliceDo (nm cid : String) (tgt : Option String) (st : RState) : RState :=
  spliceFinish nm cid tgt ((agetD st.incoming tgt []).foldl (redirectEdge cid tgt) st)

/-- The `for tid in group['throw']` loop with its `break`: splice against
the first throw whose outgoing list is non-empty. -/
def spliceFirstThrow (nm : String) (tids : List String) (cid : String)
    (st : RState) : RState :=
  match tids with
  | [] => st
  | tid :: rest =>
      match agetD st.outgoing (some tid) [] with
      | [] => spliceFirstThrow nm rest cid st
      | first_out :: _ =>
          spliceDo nm cid ((agetD st.flows first_out defaultFlow).target) st

/-- One orphan catch: skipped when it has incoming or outgoing flows. -/
def spliceCatch (nm : String) (tids : List String) (cid : String)
    (st : RState) : RState :=
  if agetD st.incoming (some cid) [] ≠ [] then st
  else if agetD st.outgoing (some cid) [] ≠ [] then st
  else spliceFirstThrow nm tids cid st

/-- One name group of the orphan-catch splicing loop. -/
def repairCatchesGroup (st : RState) (nmg : String × LinkGroup) : RState :=
  if nmg.2.catches ≠ [] ∧ nmg.2.throws ≠ [] then
    nmg.2.catches.foldl (fun st cid => spliceCatch nmg.1 nmg.2.throws cid st) st
  else st

/-- First repair loop: orphan-catch splicing, per name with both sides. -/
def repairCatches (links : List (String × LinkGroup)) (st : RState) : RState :=
  links.foldl repairCatchesGroup st

def addLinkFlow (nm tid cid : String) (st : RState) : RState :=
  let flow_id := "_link_" ++ tid ++ "_" ++ cid
  { flows := aset st.flows flow_id ⟨linkLabel nm, some tid, some cid, true⟩,
    outgoing := apush st.outgoing (some tid) flow_id,
    incoming := apush st.incoming (some cid) flow_id }

/-- Wiring for one throw: if it still has no outgoing flow, add one
synthetic flow to every catch of the group. -/
def wireThrow (nm : String) (catches : List String) (st : RState)
    (tid : String) : RState :=
  if agetD st.outgoing (some tid) [] ≠ [] then st
  else catches.foldl (fun st cid => addLinkFlow nm tid cid st) st

/-- One name group of the dead-throw wiring loop. -/
def repairThrowsGroup (st : RState) (nmg : String × LinkGroup) : RState :=
  if nmg.2.catches ≠ [] ∧ nmg.2.throws ≠ [] then
    nmg.2.throws.foldl (wireThrow nmg.1 nmg.2.catches) st
  else st

/-- Second repair loop: a throw with no outgoing gets one synthetic flow
to every catch of its name. -/
def repairThrows (links : List (String × LinkGroup)) (st : RState) : RState :=
  links.foldl repairThrowsGroup st

/-- The result quadruple of `collect_elements`. -/
structure CollectResult where
  nodes : List (String × BNode)
  flows : List (String × BFlow)
  outgoing : List (Option String × List String)
  incoming : List (Option String × List String)
deriving DecidableEq, Repr

/-- `collect_elements(proc)`. -/
def collect_elements (proc : XElem) : Except PyErr CollectResult := do
  let nl ← collectNodes proc
  let nodes := markCatchThrow nl.1 nl.2
  let foi ← collectFlows proc
  let st := repairThrows nl.2 (repairCatches nl.2 ⟨foi.1, foi.2.1, foi.2.2⟩)
  .ok ⟨nodes, st.flows, st.outgoing, st.incoming⟩

/-! ### Lanes, diagram-interchange bounds, artifacts -/

/-- `collect_lanes(proc)`: explicit lane membership via `flowNodeRef`
(text treated as Python truthiness: present and non-empty), plus the
lane-id → display-name map (`""` name giving `"(sem ator)"`;
a falsy lane id records no name). -/
def collect_lanes (proc : XElem) :
    List (String × String) × List (String × String) :=
  (findallDesc proc nsBpmn "lane").foldl (fun acc lane =>
    let lname := match lane.aget "name" "" with
      | "" => "(sem ator)"
      | s => s
    let laneName := match lane.aget? "id" with
      | some lid => if lid ≠ "" then aset acc.2 lid lname else acc.2
      | none => acc.2
    let nodeLane := (findall lane nsBpmn "flowNodeRef").foldl (fun nl ref =>
      match ref.text with
      | some t => if t ≠ "" then aset nl (pyTrim t) lname else nl
      | none => nl) acc.1
    (nodeLane, laneName)) ([], [])

/-- A `Bounds` rectangle `(x, y, width, height)`. -/
structure Rect where
  x : ℚ
  y : ℚ
  w : ℚ
  h : ℚ
deriving DecidableEq, Repr

/-- `shape.find("dc:Bounds", NS)` — first matching direct child. -/
def findFirst (e : XElem) (ns tag : String) : Option XElem :=
  (findall e ns tag).head?

/-- `collect_di_bounds(defs, node_ids, lane_ids)`: shape rectangles keyed
by `bpmnElement`, split between node ids and lane ids; a malformed
coordinate aborts like Python's `float()`. -/
def collect_di_bounds (defs : XElem) (node_ids lane_ids : List String) :
    Except PyErr (List (String × Rect) × List (String × Rect)) :=
  exFoldlM (fun acc shape =>
    match shape.aget? "bpmnElement", findFirst shape nsDc "Bounds" with
    | some elem_id, some bounds =>
        if elem_id = "" then .ok acc
        else do
          let x ← pyFloatAttr bounds "x"
          let y ← pyFloatAttr bounds "y"
          let w ← pyFloatAttr bounds "width"
          let h ← pyFloatAttr bounds "height"
          let rect : Rect := ⟨x, y, w, h⟩
          let nb := if elem_id ∈ node_ids then aset acc.1 elem_id rect else acc.1
          let lb := if elem_id ∈ lane_ids then aset acc.2 elem_id rect else acc.2
          .ok (nb, lb)
    | _, _ => .ok acc) ([], []) (findallDesc defs nsDi "BPMNShape")

/-- An artifact value `(label, text)`; the text is `none` exactly when the
Python value is `None` (a reference with neither a usable name nor an id). -/
abbrev Artifact := String × Option String

/-- `collect_artifacts(defs, node_ids)`: annotations, documents and
systems merged into one id-keyed map (ids may be absent, hence
`Option String` keys), then attached to nodes through the three
association forms; unattached annotations end up under the
`"_orphan_annotations_"` key. -/
def collectAnnotations (defs : XElem) : List (Option String × Artifact) :=
  (findallDesc defs nsBpmn "textAnnotation").foldl (fun acc ta =>
    match findFirst ta nsBpmn "text" with
    | some text_el =>
        let text_val := pyTrim (text_el.text.getD "")
        if text_val ≠ "" then aset acc (ta.aget? "id") ("Anotação", some text_val)
        else acc
    | none => acc) []

def collectDataObjectDefs (defs : XElem) : List (Option String × String) :=
  (findallDesc defs nsBpmn "dataObject").foldl (fun acc dobj =>
    aset acc (dobj.aget? "id") (pyTrim (dobj.aget "name" ""))) []

def collectDataStoreDefs (defs : XElem) : List (Option String × String) :=
  (findallDesc defs nsBpmn "dataStore").foldl (fun acc ds =>
    aset acc (ds.aget? "id") (pyTrim (ds.aget "name" ""))) []

/-- `name or fallback-id`: the empty string falls through to the element's
(optional) id. -/
def nameOrId (name : String) (e : XElem) : Option String :=
  if name ≠ "" then some name else e.aget? "id"

def collectDataObjects (defs : XElem) : List (Option String × Artifact) :=
  let defsMap := collectDataObjectDefs defs
  let m := (findallDesc defs nsBpmn "dataObjectReference").foldl (fun acc dobj =>
    let ref := dobj.aget? "dataObjectRef"
    let name := pyTrim (dobj.aget "name" "")
    let name :=
      if name = "" ∧ (aget? defsMap ref).isSome then agetD defsMap ref ""
      else name
    aset acc (dobj.aget? "id") ("Documento", nameOrId name dobj)) []
  (findallDesc defs nsBpmn "dataObject").foldl (fun acc dobj =>
    let name := pyTrim (dobj.aget "name" "")
    aset acc (dobj.aget? "id") ("Documento", nameOrId name dobj)) m

def collectDataStores (defs : XElem) : List (Option String × Artifact) :=
  let defsMap := collectDataStoreDefs defs
  (findallDesc defs nsBpmn "dataStoreReference").foldl (fun acc dstore =>
    let ref := dstore.aget? "dataStoreRef"
    let name := pyTrim (dstore.aget "name" "")
    let name :=
      if name = "" ∧ (aget? defsMap ref).isSome then agetD defsMap ref ""
      else name
    aset acc (dstore.aget? "id") ("Sistema", nameOrId name dstore)) []

/-- `{**annotations, **data_objects, **data_stores}`. -/
def mergeArtifacts (a b c : List (Option String × Artifact)) :
    List (Option String × Artifact) :=
  (c.foldl (fun m kv => aset m kv.1 kv.2)
    (b.foldl (fun m kv => aset m kv.1 kv.2) a))

/-- Attachment state: `by_node` plus the set of attached annotation ids. -/
structure AttachState where
  by_node : List (String × List Artifact)
  attached_notes : List (Option String)
deriving Repr

def attach (artifacts : List (Option String × Artifact))
    (node_ids : List String) (src tgt : Option String)
    (st : AttachState) : AttachState :=
  let st :=
    match aget? artifacts src, tgt with
    | some art, some t =>
        if t ∈ node_ids then
          { by_node := apush st.by_node t art,
            attached_notes :=
              if art.1 = "Anotação" then st.attached_notes ++ [src]
              else st.attached_notes }
        else st
    | _, _ => st
  match aget? artifacts tgt, src with
  | some art, some s =>
      if s ∈ node_ids then
        { by_node := apush st.by_node s art,
          attached_notes :=
            if art.1 = "Anotação" then st.attached_notes ++ [tgt]
            else st.attached_notes }
      else st
  | _, _ => st

def collect_artifacts (defs : XElem) (node_ids : List String) :
    List (String × List Artifact) :=
  let annotations := collectAnnotations defs
  let artifacts := mergeArtifacts annotations
    (collectDataObjects defs) (collectDataStores defs)
  let st : AttachState := ⟨[], []⟩
  let st := (findallDesc defs nsBpmn "association").foldl (fun st assoc =>
    attach artifacts node_ids (assoc.aget? "sourceRef") (assoc.aget? "targetRef") st) st
  let st := (findallDesc defs nsBpmn "dataInputAssociation").foldl (fun st dia =>
    let srcs := ((findall dia nsBpmn "sourceRef").filterMap (fun el =>
      match el.text with
      | some t => if t ≠ "" then some t else none
      | none => none))
    let tgt := findtext dia nsBpmn "targetRef"
    srcs.foldl (fun st src => attach artifacts node_ids (some src) (some tgt) st) st) st
  let st := (findallDesc defs nsBpmn "dataOutputAssociation").foldl (fun st doa =>
    let srcs := ((findall doa nsBpmn "sourceRef").filterMap (fun el =>
      match el.text with
      | some t => if t ≠ "" then some t else none
      | none => none))
    let tgt := findtext doa nsBpmn "targetRef"
    srcs.foldl (fun st src => attach artifacts node_ids (some src) (some tgt) st) st) st
  let orphan_notes := (annotations.map Prod.fst).filterMap (fun nid =>
    if nid ∈ st.attached_notes then none else aget? artifacts nid)
  if orphan_notes ≠ [] then aset st.by_node "_orphan_annotations_" orphan_notes
  else st.by_node

/-! ### Geometric lane inference -/

def rect_contains (rect : Rect) (px py : ℚ) : Bool :=
  decide (rect.x ≤ px ∧ px ≤ rect.x + rect.w ∧ rect.y ≤ py ∧ py ≤ rect.y + rect.h)

def rect_intersection_area (a b : Rect) : ℚ :=
  let x_overlap := max 0 (min (a.x + a.w) (b.x + b.w) - max a.x b.x)
  let y_overlap := max 0 (min (a.y + a.h) (b.y + b.h) - max a.y b.y)
  x_overlap * y_overlap

/-- The sort key `(-intersection, lane-area)` ordering on overlap entries
`(intersection, lane-area, lane-id)`. -/
def overlapLe (a b : ℚ × ℚ × String) : Bool :=
  decide (-a.1 < -b.1 ∨ (-a.1 = -b.1 ∧ a.2.1 ≤ b.2.1))

/-- Ascending-area ordering on containment candidates `(area, lane-id)`. -/
def areaLe (a b : ℚ × String) : Bool :=
  decide (a.1 ≤ b.1)

/-- One tuple `(inter, lane_area, lane_id)` appended to `overlaps`. -/
def overlapEntry (rect : Rect) (lb : String × Rect) : ℚ × ℚ × String :=
  (rect_intersection_area rect lb.2, lb.2.w * lb.2.h, lb.1)

/-- The `overlaps` accumulation loop over `lane_bounds.items()`. -/
def overlapsOf (rect : Rect) (lane_bounds : List (String × Rect)) :
    List (ℚ × ℚ × String) :=
  lane_bounds.foldl (fun ov lb =>
    if rect_intersection_area rect lb.2 > 0 then ov ++ [overlapEntry rect lb]
    else ov) []

def centreX (rect : Rect) : ℚ := rect.x + rect.w / 2

def centreY (rect : Rect) : ℚ := rect.y + rect.h / 2

/-- One `(area, lane_id)` containment candidate. -/
def candEntry (lb : String × Rect) : ℚ × String :=
  (lb.2.w * lb.2.h, lb.1)

/-- The `candidates` accumulation loop (lanes containing the centre). -/
def candidatesOf (rect : Rect) (lane_bounds : List (String × Rect)) :
    List (ℚ × String) :=
  lane_bounds.foldl (fun cs lb =>
    if rect_contains lb.2 (centreX rect) (centreY rect) then cs ++ [candEntry lb]
    else cs) []

/-- The per-node body of `infer_lane_by_di` once the node is known to lack
an explicit lane: returns the inferred display name, if any. -/
def inferOne (lane_name : List (String × String))
    (lane_bounds : List (String × Rect)) (rect : Rect) : Option String :=
  match stableSort overlapLe (overlapsOf rect lane_bounds) with
  | o₀ :: _ =>
      some (if ((stableSort overlapLe (overlapsOf rect lane_bounds)).filter
            (fun o => o.1 = o₀.1)).length > 1 then
          agetD lane_name o₀.2.2 "(ator nao identificado)" ++ " (ambiguo)"
        else agetD lane_name o₀.2.2 "(ator nao identificado)")
  | [] =>
      match stableSort areaLe (candidatesOf rect lane_bounds) with
      | c₀ :: _ =>
          some (if (stableSort areaLe (candidatesOf rect lane_bounds)).length > 1 then
              agetD lane_name c₀.2 "(ator nao identificado)" ++ " (ambiguo)"
            else agetD lane_name c₀.2 "(ator nao identificado)")
      | [] => none

/-- One step of the `for node_id, rect in node_bounds.items()` loop:
skip nodes already mapped (by `flowNodeRef` or earlier inference). -/
def inferStep (lane_name : List (String × String))
    (lane_bounds : List (String × Rect))
    (result : List (String × String)) (nb : String × Rect) :
    List (String × String) :=
  if (aget? result nb.1).isSome then result
  else
    match inferOne lane_name lane_bounds nb.2 with
    | some name => aset result nb.1 name
    | none => result

/-- `infer_lane_by_di(nodes, node_lane, lane_name, node_bounds,
lane_bounds)`; the `nodes` parameter is unused in the source too. -/
def infer_lane_by_di (nodes : List (String × BNode))
    (node_lane lane_name : List (String × String))
    (node_bounds lane_bounds : List (String × Rect)) : List (String × String) :=
  node_bounds.foldl (inferStep lane_name lane_bounds) node_lane

/-! ### Numbering and node description -/

/-- `format_number(parts)`. -/
def format_number (parts : List Nat) : String :=
  pyJoin "." (parts.map toString)

/-- `compare_parts(a, b)`: lexicographic comparison returning -1/0/1. -/
def compare_parts : List Nat → List Nat → Int
  | [], [] => 0
  | [], _ :: _ => -1
  | _ :: _, [] => 1
  | a :: as', b :: bs' =>
      if a < b then -1 else if a > b then 1 else compare_parts as' bs'

def task_kinds : List String :=
  ["task", "userTask", "serviceTask", "sendTask", "receiveTask", "manualTask"]

/-- `describe_node(node)`.  Note that the catch/throw marker here is
derived from the element kind alone, not from the node's `catch_throw`
field. -/
def describe_node (node : BNode) : String :=
  let name := node.name
  if node.kind ∈ task_kinds then
    "Atividade: " ++ (if name = "" then "(sem nome)" else name)
  else
    let is_gateway := pyStartsWith node.type "Gateway"
    let is_event := strContains node.kind "Event"
    let catch_throw : Option String :=
      if node.kind = "intermediateCatchEvent" then some "captura"
      else if node.kind = "intermediateThrowEvent" then some "disparo"
      else none
    if is_gateway ∧ name = "" then node.type
    else
      let display := if name = "" then "(sem nome)" else name
      if is_event then
        let flavor := node.event_flavor
        let type_label :=
          match catch_throw with
          | some ct =>
              if flavor = "link" then "Evento intermediário (link, " ++ ct ++ ")"
              else
                let parts := ([flavor, ct].filter (· ≠ ""))
                if parts = [] then node.type
                else node.type ++ " (" ++ pyJoin ", " parts ++ ")"
          | none =>
              let parts := ([flavor].filter (· ≠ ""))
              if parts = [] then node.type
              else node.type ++ " (" ++ pyJoin ", " parts ++ ")"
        type_label ++ ": " ++ display
      else node.type ++ ": " ++ display

/-! ### The narrative walker -/

/-- A `number_map` entry: `{"num_str": ..., "parts": ...}`. -/
structure NumEntry where
  num_str : String
  parts : List Nat
deriving DecidableEq, Repr

/-- The read-only context a walk runs over (Python passes these as six
separate arguments). -/
structure Graph where
  nodes : List (String × BNode)
  flows : List (String × BFlow)
  outgoing : List (Option String × List String)
  incoming : List (Option String × List String)
  node_lane : List (String × String)
  artifacts : List (String × List Artifact)

/-- A walk's result: emitted lines, the `last_used` numbering, and the two
mutable maps (`number_map`, `branch_state`) threaded as state. -/
structure WalkRes where
  lines : List String
  last : List Nat
  nmap : List (String × NumEntry)
  bstate : List (String × Nat)

/-- The walker's `task_kinds` label dict. -/
def task_kind_labels : List (String × String) :=
  [("task", "Sem tipo"),
   ("userTask", "Atividade de Usuário"),
   ("serviceTask", "Atividade de Serviço"),
   ("sendTask", "Atividade de Envio"),
   ("receiveTask", "Atividade de Recebimento"),
   ("manualTask", "Atividade Manual")]

/-- String order for Python's `sorted` (code-point lexicographic). -/
def strLe (a b : String) : Bool :=
  a == b || charListLt a.data b.data

/-- `sorted({...})` on strings: deduplicate, then sort. -/
def sortedDedup (l : List String) : List String :=
  stableSort strLe l.eraseDups

/-- The header and detail lines a committed node emits (walk lines
742–827): numbered description, actor line for tasks and subprocesses,
one systems/documents line, then annotation lines. -/
def nodeLines (g : Graph) (id : String) (node : BNode) (numbering : List Nat)
    (is_par_conv : Bool) : List String :=
  let indent := spaces4 (numbering.length - 1)
  let detail_indent := indent ++ "    "
  let num_str := format_number numbering
  let desc :=
    if is_par_conv then "Fim do Gateway Paralelo (convergência)"
    else describe_node node
  let l1 := [indent ++ num_str ++ ". " ++ desc]
  let l2 :=
    match aget? task_kind_labels node.kind with
    | some tl =>
        [detail_indent ++ "Ator: " ++ agetD g.node_lane id "(ator nao identificado)"
          ++ " | Tipo: " ++ tl]
    | none =>
        if node.kind = "subProcess" ∨ node.kind = "callActivity" then
          [detail_indent ++ "Ator: " ++ agetD g.node_lane id "(ator nao identificado)"]
        else []
  let arts := agetD g.artifacts id []
  let docs := sortedDedup ((arts.filter (fun a => a.1 = "Documento")).map (fun a => optStr a.2))
  let systems := sortedDedup ((arts.filter (fun a => a.1 = "Sistema")).map (fun a => optStr a.2))
  let notes := arts.foldl (fun (acc : List String) a =>
    if a.1 = "Anotação" then
      let key := cleanNote (optStr a.2)
      if key ≠ "" ∧ key ∉ acc then acc ++ [key] else acc
    else acc) []
  let l3 :=
    if docs ≠ [] ∨ systems ≠ [] then
      let ps := (if systems ≠ [] then ["Sistema: " ++ pyJoin ", " systems] else [])
        ++ (if docs ≠ [] then ["Documento: " ++ pyJoin ", " docs] else [])
      [detail_indent ++ pyJoin " | " ps]
    else []
  let l4 := notes.map (fun t => detail_indent ++ "Anotação: \"" ++ t ++ "\"")
  l1 ++ l2 ++ l3 ++ l4

/-- The sequential successor's numbering: `numbering[:-1] + [last + 1]`. -/
def nextNumber (numbering : List Nat) : List Nat :=
  numbering.dropLast ++ [numbering.getLastD 0 + 1]

/-- Nodes of the graph not yet on the DFS path — the walker's termination
measure. -/
def remaining (g : Graph) (path : List String) : Nat :=
  ((g.nodes.map Prod.fst).filter (fun k => k ∉ path)).length

/-- The branch loop of `walk` for a diverging gateway (source lines
841–901), abstracted over the child walk (`wchild child numbering nmap
bstate`); `branch_state[gwId]` plays the loop's `state["next"]`. -/
def walkBranches
    (wchild : Option String → List Nat → List (String × NumEntry) →
      List (String × Nat) → WalkRes)
    (g : Graph) (gwId : String) (node : BNode) (numbering : List Nat)
    (indent : String) :
    List String → Nat → List (String × NumEntry) → List (String × Nat) →
      List Nat → WalkRes
  | [], _, nmap, bstate, lastUsed => ⟨[], lastUsed, nmap, bstate⟩
  | flow_id :: rest, bidx, nmap, bstate, lastUsed =>
      let child_num := agetD bstate gwId 1
      let bstate1 := aset bstate gwId (child_num + 1)
      let flow := agetD g.flows flow_id defaultFlow
      let child := flow.target
      let branch :=
        if flow.name = "" ∧ node.kind = "parallelGateway" then "Caminho " ++ pad2 bidx
        else if flow.name ≠ "" then flow.name
        else "Caminho " ++ toString child_num
      let caseLine := indent ++ "    " ++ "Caso " ++ branch ++ ":"
      let res := wchild child (numbering ++ [child_num, 1]) nmap bstate1
      let bstate2 :=
        if numbering.length < res.last.length then
          let suffix := res.last.getD numbering.length 0
          let cur := agetD res.bstate gwId 1
          aset res.bstate gwId (max cur (suffix + 1))
        else res.bstate
      let rest_res := walkBranches wchild g gwId node numbering indent rest (bidx + 1)
        res.nmap bstate2 res.last
      ⟨caseLine :: res.lines ++ rest_res.lines, rest_res.last, rest_res.nmap,
        rest_res.bstate⟩

/-- The node's outgoing flow-id list, `outgoing.get(node_id, [])`. -/
def outsOf (g : Graph) (id : String) : List String :=
  agetD g.outgoing (some id) []

/-- The diverging-gateway test of `walk`. -/
def is_div (g : Graph) (id : String) (node : BNode) : Bool :=
  pyStartsWith node.type "Gateway" && decide ((outsOf g id).length > 1)

/-- The converging-gateway test of `walk`. -/
def is_conv (g : Graph) (id : String) (node : BNode) : Bool :=
  pyStartsWith node.type "Gateway"
    && decide ((agetD g.incoming (some id) []).length > 1)
    && decide ((outsOf g id).length = 1) && !(is_div g id node)

/-- The parallel-convergence test of `walk`. -/
def is_par_conv (g : Graph) (id : String) (node : BNode) : Bool :=
  is_conv g id node && decide (node.kind = "parallelGateway")

/-- The guard of the silent skip over a non-parallel convergence. -/
def silentCond (g : Graph) (id : String) (node : BNode) : Bool :=
  is_conv g id node && decide (outsOf g id ≠ []) && !(is_par_conv g id node)

/-- The target of the node's first outgoing flow. -/
def seqNext (g : Graph) (id : String) : Option String :=
  (agetD g.flows ((outsOf g id).headD "") defaultFlow).target

/-- `branch_state.setdefault(node_id, 1)` before the branch loop. -/
def divBstate (bstate : List (String × Nat)) (id : String) : List (String × Nat) :=
  if (aget? bstate id).isSome then bstate else aset bstate id 1

/-- The body of `walk` once the node is committed (not an early return):
the silent convergence skip, the branch loop, the sequential step or the
dead end, with the child walk abstracted as in `walkBranches`. -/
def walkCommit (wchild : Option String → List Nat → List (String × NumEntry) →
    List (String × Nat) → WalkRes) (g : Graph) (id : String) (node : BNode)
    (numbering : List Nat) (nmap : List (String × NumEntry))
    (bstate : List (String × Nat)) : WalkRes :=
  if silentCond g id node then
    wchild (seqNext g id) numbering
      (aset nmap id ⟨format_number numbering, numbering⟩) bstate
  else if is_div g id node then
    (fun res => ⟨nodeLines g id node numbering (is_par_conv g id node) ++ res.lines,
        res.last, res.nmap, res.bstate⟩)
      (walkBranches wchild g id node numbering (spaces4 (numbering.length - 1))
        (outsOf g id) 1 (aset nmap id ⟨format_number numbering, numbering⟩)
        (divBstate bstate id) numbering)
  else if (outsOf g id).length = 1 then
    (fun res => ⟨nodeLines g id node numbering (is_par_conv g id node) ++ res.lines,
        res.last, res.nmap, res.bstate⟩)
      (wchild (seqNext g id) (nextNumber numbering)
        (aset nmap id ⟨format_number numbering, numbering⟩) bstate)
  else
    ⟨nodeLines g id node numbering (is_par_conv g id node), numbering,
      aset nmap id ⟨format_number numbering, numbering⟩, bstate⟩

/-- `walk(node_id, numbering, …)` (source lines 636–941), with an explicit
recursion budget.  Every entry through `walk` supplies more fuel than the
recursion can consume, so the fuel-zero branch is unreachable and the
function agrees with the unbounded Python recursion.  `flows[fid]` lookups
use a default flow: adjacency lists only ever hold registered flow ids, so
Python's `KeyError` path is unreachable there. -/
def walkF : Nat → Graph → Option String → List Nat → List String →
    List (String × NumEntry) → List (String × Nat) → WalkRes
  | 0, _, _, numbering, _, nmap, bstate => ⟨[], numbering, nmap, bstate⟩
  | fuel + 1, g, nid, numbering, path, nmap, bstate =>
    match nid with
    | none => ⟨[], numbering, nmap, bstate⟩
    | some id =>
      match aget? g.nodes id with
      | none => ⟨[], numbering, nmap, bstate⟩
      | some node =>
        if node.type = "Elemento" then ⟨[], numbering, nmap, bstate⟩
        else
          match aget? nmap id with
          | some prev =>
              ⟨[spaces4 (numbering.length - 1) ++ "(" ++
                  (if compare_parts prev.parts numbering < 0 then "retorna para"
                   else if compare_parts prev.parts numbering > 0 then "avança para"
                   else "referência") ++ " " ++ prev.num_str ++ ")"],
                numbering, nmap, bstate⟩
          | none =>
            if id ∈ path then
              ⟨[spaces4 (numbering.length - 1) ++ "(loop em " ++
                  format_number numbering ++ ")"], numbering, nmap, bstate⟩
            else
              walkCommit (fun c n m b => walkF fuel g c n (path ++ [id]) m b)
                g id node numbering nmap bstate

/-- The fuel `walk` hands to `walkF`: one more than the number of nodes not
yet on the path, which strictly bounds the recursion depth. -/
def fuelFor (g : Graph) (path : List String) : Nat :=
  remaining g path + 1

/-- `walk(node_id, numbering, nodes, flows, outgoing, incoming, node_lane,
path_set, number_map, branch_state, artifacts)`. -/
def walk (g : Graph) (nid : Option String) (numbering : List Nat)
    (path : List String) (nmap : List (String × NumEntry))
    (bstate : List (String × Nat)) : WalkRes :=
  walkF (fuelFor g path) g nid numbering path nmap bstate

/-! ### `render_bpmn` and `render_bpmn_bytes` -/

/-- Delete a key (Python `dict.pop` side). -/
def adel {K V : Type} [DecidableEq K] (m : List (K × V)) (k : K) : List (K × V) :=
  m.filter (fun kv => kv.1 ≠ k)

/-- Python `str.rstrip()`. -/
def pyRstrip (s : String) : String :=
  String.mk ((s.toList.reverse.dropWhile Char.isWhitespace).reverse)

/-- The exact no-process abort message. -/
def noProcessMsg : String := "Nenhum processo encontrado no BPMN."

/-- Participant maps from the collaborations (render lines 971–985):
`processRef → name` and `participant id → name or already-bound name`. -/
def collectParticipants (defs : XElem) :
    List (String × String) × List (String × String) :=
  (findall defs nsBpmn "collaboration").foldl (fun acc collab =>
    (findall collab nsBpmn "participant").foldl (fun acc part =>
      let pref := part.aget? "processRef"
      let byProc := match pref with
        | some p => aset acc.1 p (pyTrim (part.aget "name" ""))
        | none => acc.1
      let byId := match part.aget? "id" with
        | some i =>
            let nm := pyTrim (part.aget "name" "")
            let v := if nm ≠ "" then nm
              else match pref with
                | some p => agetD byProc p ""
                | none => ""
            aset acc.2 i v
        | none => acc.2
      (byProc, byId)) acc) ([], [])

/-- Accumulated render state for the per-process loop. -/
structure RenderAcc where
  node_to_pool : List (String × String)
  node_meta : List (String × (String × BNode))
  all_lines : List String

/-- The title chain `proc name or participant name or path.stem`
(render line 1039); `stem` is the stem of the `Path` handed to
`render_bpmn` — for the bytes entry point that is the random temporary
file's stem, not the caller's filename. -/
def titleOf (participant_by_proc : List (String × String)) (stem : String)
    (proc : XElem) : String :=
  let t1 := proc.aget "name" ""
  if t1 ≠ "" then t1
  else
    let t2 := match proc.aget? "id" with
      | some i => agetD participant_by_proc i ""
      | none => ""
    if t2 ≠ "" then t2 else stem

/-- The walk lines of one process: one fresh walk (empty `path_set`,
`number_map`, `branch_state`) per start event, numbered from 1. -/
def startWalkLines (g : Graph) (start_events : List String) : List String :=
  ((start_events.enumFrom 1).map (fun si => (walk g (some si.2) [si.1] [] [] []).lines)).flatten

/-- One iteration of the per-process render loop (lines 1013–1079). -/
def renderProcess (defs : XElem)
    (participant_by_proc : List (String × String))
    (artifacts_global : List (String × List Artifact)) (stem : String)
    (acc : RenderAcc) (proc : XElem) (cr : CollectResult) :
    Except PyErr RenderAcc := do
  let node_to_pool := cr.nodes.foldl (fun m kv =>
    aset m kv.1 (proc.aget "id" "")) acc.node_to_pool
  let node_meta := cr.nodes.foldl (fun m kv =>
    aset m kv.1 ("", kv.2)) acc.node_meta
  let lanes := collect_lanes proc
  let bounds ← collect_di_bounds defs (cr.nodes.map Prod.fst) (lanes.2.map Prod.fst)
  let node_lane :=
    infer_lane_by_di cr.nodes lanes.1 lanes.2 bounds.1 bounds.2
  let start_events ← exMapM (fun e =>
    match e.aidx "id" with
    | some i => .ok i
    | none => .error (.keyError "id")) (findall proc nsBpmn "startEvent")
  if start_events = [] then
    .ok ⟨node_to_pool, node_meta, acc.all_lines⟩
  else
    let title := titleOf participant_by_proc stem proc
    let node_meta := cr.nodes.foldl (fun m kv =>
      aset m kv.1 (title, kv.2)) node_meta
    let g : Graph :=
      ⟨cr.nodes, cr.flows, cr.outgoing, cr.incoming, node_lane, artifacts_global⟩
    let lines := ("Titulo: " ++ title) :: startWalkLines g start_events
    .ok ⟨node_to_pool, node_meta, acc.all_lines ++ lines ++ [""]⟩

/-- One message-flow tuple (render lines 1085–1133); the dead
`src_label`/`tgt_label` computations of the source are omitted. -/
def messageFlowEntry (node_to_pool : List (String × String))
    (node_meta : List (String × (String × BNode)))
    (participant_by_proc participant_by_id : List (String × String))
    (mf : XElem) : Option (String × String × String × String × String) :=
  match mf.aget? "sourceRef", mf.aget? "targetRef" with
  | some src, some tgt =>
      if src = "" ∨ tgt = "" then none
      else
        let src_proc := agetD node_to_pool src ""
        let tgt_proc := agetD node_to_pool tgt ""
        let src_pool_name0 :=
          let a := agetD participant_by_id src ""
          if a ≠ "" then a else agetD participant_by_proc src_proc src_proc
        let tgt_pool_name0 :=
          let a := agetD participant_by_id tgt ""
          if a ≠ "" then a else agetD participant_by_proc tgt_proc tgt_proc
        let (src_pool_name, src_elem) :=
          match aget? node_meta src with
          | some (pool_title, meta) =>
              (if src_pool_name0 ≠ "" then src_pool_name0 else pool_title,
               if meta.name ≠ "" then meta.name else meta.type)
          | none => (src_pool_name0, src)
        let (tgt_pool_name, tgt_elem) :=
          match aget? node_meta tgt with
          | some (pool_title, meta) =>
              (if tgt_pool_name0 ≠ "" then tgt_pool_name0 else pool_title,
               if meta.name ≠ "" then meta.name else meta.type)
          | none => (tgt_pool_name0, tgt)
        let mf_name := match pyTrim (mf.aget "name" "") with
          | "" => "(sem nome)"
          | s => s
        some (src_pool_name, src_elem, tgt_pool_name, tgt_elem, mf_name)
  | _, _ => none

/-- `render_bpmn` up to the final join: the `all_lines` list. -/
def render_lines (defs : XElem) (stem : String) : Except PyErr (List String) := do
  let processes := findall defs nsBpmn "process"
  if processes.isEmpty then
    .error (.valueError noProcessMsg)
  else do
    let participants := collectParticipants defs
    let proc_info ← exMapM (fun proc => do
      let cr ← collect_elements proc
      .ok (proc, cr)) processes
    let all_node_ids := proc_info.foldl (fun acc pi =>
      acc ++ pi.2.nodes.map Prod.fst) []
    let artifacts_global0 := collect_artifacts defs all_node_ids
    let orphan_annotations := agetD artifacts_global0 "_orphan_annotations_" []
    let artifacts_global := adel artifacts_global0 "_orphan_annotations_"
    let acc ← exFoldlM (fun acc pi =>
      renderProcess defs participants.1 artifacts_global stem acc pi.1 pi.2)
      (⟨[], [], []⟩ : RenderAcc) proc_info
    let msg_lines := (findall defs nsBpmn "collaboration").foldl (fun ml collab =>
      (findall collab nsBpmn "messageFlow").foldl (fun ml mf =>
        match messageFlowEntry acc.node_to_pool acc.node_meta
            participants.1 participants.2 mf with
        | some entry => ml ++ [entry]
        | none => ml) ml) []
    let all_lines := acc.all_lines
    let all_lines :=
      if msg_lines ≠ [] then
        all_lines
          ++ ["Interações entre processos (message flows):",
              "- Origem (Processo / Elemento) | Destino (Processo / Elemento) | Mensagem"]
          ++ msg_lines.map (fun e =>
              "- " ++ e.1 ++ " / " ++ e.2.1 ++ " | " ++ e.2.2.1 ++ " / "
                ++ e.2.2.2.1 ++ " | " ++ e.2.2.2.2)
      else all_lines
    let all_lines :=
      if orphan_annotations ≠ [] then
        all_lines ++ ["", "Anotações não ligadas a elementos:"]
          ++ (orphan_annotations.foldl (fun (acc : List String) a =>
                let key := cleanNote (optStr a.2)
                if key ≠ "" ∧ ("- \"" ++ key ++ "\"") ∉ acc then
                  acc ++ ["- \"" ++ key ++ "\""]
                else acc) [])
      else all_lines
    .ok all_lines

/-- `render_bpmn(path)`: the parsed document plus the path's stem. -/
def render_bpmn (defs : XElem) (stem : String) : Except PyErr String :=
  (render_lines defs stem).map (fun lines => pyRstrip (pyJoin "\n" lines))

/-- The error surface of the bytes entry point: either the XML parser's
own failure or an exception from `render_bpmn`. -/
inductive RenderError where
  | parseError
  | err (e : PyErr)
deriving DecidableEq, Repr

/-- `render_bpmn_bytes(content, filename)`: the bytes are written to a
`NamedTemporaryFile` whose randomly generated name carries over the
caller's suffix only, and `render_bpmn` runs on that temporary path.  The
embedding abstracts the byte buffer into its parse outcome (`none` = the
parser raises) and makes the operating-system-chosen temporary stem an
explicit argument; `filename` contributes nothing beyond its suffix. -/
def render_bpmn_bytes (parsed : Option XElem) (filename : String)
    (tmpStem : String) : Except RenderError String :=
  match parsed with
  | none => .error .parseError
  | some defs =>
      match render_bpmn defs tmpStem with
      | .ok s => .ok s
      | .error e => .error (.err e)

/-! ### Example documents

Concrete BPMN documents (already in parsed `XElem` form) used by the
counterexample and witness theorems, together with total projections out
of `Except` for stating decidable facts about them. -/

/-- An element with no text, the common case. -/
def mkE (ns tag : String) (attrib : List (String × String))
    (children : List XElem) : XElem :=
  .mk ns tag attrib children none

/-- One process with no `name` attribute and a single anonymous start
event: the rendered title falls back to the path stem. -/
def exDocNoName : XElem :=
  mkE nsBpmn "definitions" []
    [mkE nsBpmn "process" [("id", "P1")]
      [mkE nsBpmn "startEvent" [("id", "s1")] []]]

/-- A parseable document whose process holds a task without an `id`
attribute. -/
def exDocC2 : XElem :=
  mkE nsBpmn "definitions" []
    [mkE nsBpmn "process" [("id", "P1")] [mkE nsBpmn "task" [] []]]

/-- A named process with a task but no start event. -/
def exDocC3 : XElem :=
  mkE nsBpmn "definitions" []
    [mkE nsBpmn "process" [("id", "P1"), ("name", "Proc")]
      [mkE nsBpmn "task" [("id", "A"), ("name", "At")] []]]

/-- Two processes: `Alpha` with a start event, `Beta` without. -/
def exDocC3b : XElem :=
  mkE nsBpmn "definitions" []
    [mkE nsBpmn "process" [("id", "P1"), ("name", "Alpha")]
      [mkE nsBpmn "startEvent" [("id", "s1")] []],
     mkE nsBpmn "process" [("id", "P2"), ("name", "Beta")]
      [mkE nsBpmn "task" [("id", "B"), ("name", "Bt")] []]]

/-- A link throw wired to task `T`, plus two orphan link catches of the
same name `L`. -/
def exProcC4 : XElem :=
  mkE nsBpmn "process" [("id", "P1")]
    [mkE nsBpmn "task" [("id", "T"), ("name", "Tt")] [],
     mkE nsBpmn "intermediateThrowEvent" [("id", "thr")]
       [mkE nsBpmn "linkEventDefinition" [("name", "L")] []],
     mkE nsBpmn "intermediateCatchEvent" [("id", "c1")]
       [mkE nsBpmn "linkEventDefinition" [("name", "L")] []],
     mkE nsBpmn "intermediateCatchEvent" [("id", "c2")]
       [mkE nsBpmn "linkEventDefinition" [("name", "L")] []],
     mkE nsBpmn "sequenceFlow"
       [("id", "f1"), ("sourceRef", "thr"), ("targetRef", "T")] []]

/-- A named link throw with no matching catch and no flows. -/
def exProcC5 : XElem :=
  mkE nsBpmn "process" [("id", "P1")]
    [mkE nsBpmn "intermediateThrowEvent" [("id", "thr")]
      [mkE nsBpmn "linkEventDefinition" [("name", "L")] []]]

/-- A named link catch with no matching throw. -/
def exProcC6 : XElem :=
  mkE nsBpmn "process" [("id", "P1")]
    [mkE nsBpmn "intermediateCatchEvent" [("id", "c1"), ("name", "Volta")]
      [mkE nsBpmn "linkEventDefinition" [("name", "L")] []]]

/-- `start → G → T` with a second edge `X → G`, making `G` an exclusive
gateway with two incoming and one outgoing flow (a silent convergence). -/
def exProcC7 : XElem :=
  mkE nsBpmn "process" [("id", "P1")]
    [mkE nsBpmn "startEvent" [("id", "s1")] [],
     mkE nsBpmn "task" [("id", "X"), ("name", "Xt")] [],
     mkE nsBpmn "exclusiveGateway" [("id", "G")] [],
     mkE nsBpmn "task" [("id", "T"), ("name", "Tt")] [],
     mkE nsBpmn "sequenceFlow"
       [("id", "f1"), ("sourceRef", "s1"), ("targetRef", "G")] [],
     mkE nsBpmn "sequenceFlow"
       [("id", "f2"), ("sourceRef", "X"), ("targetRef", "G")] [],
     mkE nsBpmn "sequenceFlow"
       [("id", "f3"), ("sourceRef", "G"), ("targetRef", "T")] []]

/-- Two start events whose flows join on one shared task. -/
def exDoc10 : XElem :=
  mkE nsBpmn "definitions" []
    [mkE nsBpmn "process" [("id", "P1"), ("name", "Dois")]
      [mkE nsBpmn "startEvent" [("id", "s1")] [],
       mkE nsBpmn "startEvent" [("id", "s2")] [],
       mkE nsBpmn "task" [("id", "A"), ("name", "Comum")] [],
       mkE nsBpmn "sequenceFlow"
         [("id", "f1"), ("sourceRef", "s1"), ("targetRef", "A")] [],
       mkE nsBpmn "sequenceFlow"
         [("id", "f2"), ("sourceRef", "s2"), ("targetRef", "A")] []]]

/-- Total projection of `collect_elements` for stating decidable facts. -/
def crOf (proc : XElem) : CollectResult :=
  match collect_elements proc with
  | .ok cr => cr
  | .error _ => ⟨[], [], [], []⟩

/-- Total projection of the link groups built by `collectNodes`. -/
def linksOf (proc : XElem) : List (String × LinkGroup) :=
  match collectNodes proc with
  | .ok p => p.2
  | .error _ => []

/-- Total projection of the pre-repair flow state. -/
def flowStateOf (proc : XElem) : RState :=
  match collectFlows proc with
  | .ok foi => ⟨foi.1, foi.2.1, foi.2.2⟩
  | .error _ => ⟨[], [], []⟩

/-- Total projection of `render_lines`. -/
def linesOf (defs : XElem) (stem : String) : List String :=
  match render_lines defs stem with
  | .ok L => L
  | .error _ => []

/-- The walker result on the graph collected from `exProcC7`, walking from
its start event. -/
def exWalk7 : WalkRes :=
  let cr := crOf exProcC7
  walk ⟨cr.nodes, cr.flows, cr.outgoing, cr.incoming, [], []⟩ (some "s1") [1] [] [] []

/-- The static silent-convergence test: the gateway shape that `walk`
records in `number_map` but never prints (>1 incoming, exactly 1 outgoing,
not parallel). -/
def silent_convergence (g : Graph) (id : String) : Bool :=
  match aget? g.nodes id with
  | some node =>
      pyStartsWith node.type "Gateway"
        && decide ((agetD g.incoming (some id) []).length > 1)
        && decide ((agetD g.outgoing (some id) []).length = 1)
        && !(decide (node.kind = "parallelGateway"))
  | none => false

deriving instance DecidableEq for Except

/-- The abort shapes anything after the no-process check can take. -/
def BenignErr (e : PyErr) : Prop :=
  e = .keyError "id" ∨ ∃ s, e = .valueError (floatErrMsg s)

/-- C5 witness: a throw of link name `L` with no flows and one matching
catch is wired by collect_elements. -/
def exProcC5b : XElem :=
  mkE nsBpmn "process" [("id", "P1")]
    [mkE nsBpmn "intermediateThrowEvent" [("id", "thr")]
      [mkE nsBpmn "linkEventDefinition" [("name", "L")] []],
     mkE nsBpmn "intermediateCatchEvent" [("id", "c1")]
      [mkE nsBpmn "linkEventDefinition" [("name", "L")] []]]

/-- The synthetic-flow provenance invariant: every `is_link` flow was
created while processing some both-sided group and carries its label. -/
def FlowsP (links : List (String × LinkGroup)) (st : RState) : Prop :=
  ∀ p ∈ st.flows, (p : String × BFlow).2.is_link = true →
    ∃ nm' g', (nm', g') ∈ links ∧ g'.catches ≠ [] ∧ g'.throws ≠ [] ∧
      p.2.name = linkLabel nm'

/-- The pre-splice state of the C4 witness: one flow `thr → T`. -/
def exState4 : RState :=
  ⟨[("f1", ⟨"", some "thr", some "T", false⟩)],
   [(some "thr", ["f1"])],
   [(some "T", ["f1"])]⟩

def rect8 : Rect := ⟨10, 10, 20, 20⟩

def exNodeLane8 : List (String × String) := [("a", "Lane A")]

def exLaneName8 : List (String × String) := [("L1", "Alice"), ("L2", "Bob")]

def exLaneBounds8 : List (String × Rect) :=
  [("L1", ⟨0, 0, 100, 100⟩), ("L2", ⟨100, 0, 50, 100⟩)]

def exNodeBounds8 : List (String × Rect) := [("n1", rect8)]

/-! ### C7: numbering uniqueness -/

/-- The numberings reachable from a walk entered at `v`: same prefix, last
component at least `v`'s, anything below. -/
def inRegion (v w : List Nat) : Prop :=
  ∃ k rest, w = v.dropLast ++ (v.getLastD 0 + k) :: rest

/-- The numberings reachable from the branch loop of a gateway numbered
`v` once `branch_state` is at least `c0`. -/
def branchRegion (v : List Nat) (c0 : Nat) (w : List Nat) : Prop :=
  ∃ c rest, c0 ≤ c ∧ rest ≠ [] ∧ w = v ++ c :: rest

/-- Two `number_map` entries of one traversal: distinct node ids, and
distinct recorded numberings unless one of the nodes is a silently skipped
convergence. -/
def goodPair (g : Graph) (e1 e2 : String × NumEntry) : Prop :=
  e1.1 ≠ e2.1 ∧ (silent_convergence g e1.1 = false →
    silent_convergence g e2.1 = false → e1.2.parts ≠ e2.2.parts)

/-- The walker's `number_map`/`branch_state` invariant: the call only
appends fresh entries, all numbered inside the region of its entry
numbering and pairwise `goodPair`, and it leaves the branch state of every
already-numbered node alone. -/
def WalkNew (g : Graph) (v : List Nat) (nmap : List (String × NumEntry))
    (res : WalkRes) (bstate : List (String × Nat)) : Prop :=
  ∃ new, res.nmap = nmap ++ new ∧
    (∀ e ∈ new, inRegion v e.2.parts ∧ e.1 ∉ nmap.map Prod.fst) ∧
    List.Pairwise (goodPair g) new ∧
    ((nmap ++ new).map Prod.fst).Nodup ∧
    (∀ k ∈ nmap.map Prod.fst, aget? res.bstate k = aget? bstate k)

/-- The branch-state update after one branch returns. -/
def branchBstate2 (gwId : String) (numbering : List Nat) (res : WalkRes) :
    List (String × Nat) :=
  if numbering.length < res.last.length then
    aset res.bstate gwId
      (max (agetD res.bstate gwId 1) (res.last.getD numbering.length 0 + 1))
  else res.bstate

/-! ### C3: every process with a start event is rendered, others skipped -/

/-- A string whose first character (if any) is not `T` — hence it cannot
carry the renderer's `"Titulo: "` prefix. -/
def firstCharNotT (s : String) : Prop :=
  ∀ c, s.data.head? = some c → c ≠ 'T'

/-- The successful render of `exDocC3b` (one process with a start event,
one without). -/
def c3L : List String :=
  match render_lines exDocC3b "diagrama" with
  | .ok l => l
  | .error _ => []

theorem aget?_aset_self {K V : Type} [DecidableEq K]
    (m : List (K × V)) (k : K) (v : V) : aget? (aset m k v) k = some v := by
  induction m with
  | nil => simp [aset, aget?]
  | cons hd tl ih =>
      obtain ⟨k', v'⟩ := hd
      by_cases h : k' = k <;> simp [aset, aget?, h, ih]

theorem aget?_aset_ne {K V : Type} [DecidableEq K]
    (m : List (K × V)) (k k' : K) (v : V) (h : k ≠ k') :
    aget? (aset m k v) k' = aget? m k' := by
  induction m with
  | nil => simp [aset, aget?, h]
  | cons hd tl ih =>
      obtain ⟨k₀, v₀⟩ := hd
      by_cases h₀ : k₀ = k
      · subst h₀; simp [aset, aget?, h]
      · simp only [aset, if_neg h₀, aget?]
        by_cases h₁ : k₀ = k' <;> simp [h₁, ih]

/-- `aset` on a fresh key appends at the end. -/
theorem aset_fresh_append {K V : Type} [DecidableEq K]
    (m : List (K × V)) (k : K) (v : V) (h : aget? m k = none) :
    aset m k v = m ++ [(k, v)] := by
  induction m with
  | nil => simp [aset]
  | cons hd tl ih =>
      obtain ⟨k', v'⟩ := hd
      by_cases hk : k' = k
      · simp [aget?, hk] at h
      · simp [aget?, hk] at h
        simp [aset, hk, ih h]

theorem aget?_append_left {K V : Type} [DecidableEq K]
    (m₁ m₂ : List (K × V)) (k : K) (h : aget? m₁ k ≠ none) :
    aget? (m₁ ++ m₂) k = aget? m₁ k := by
  induction m₁ with
  | nil => simp [aget?] at h
  | cons hd tl ih =>
      obtain ⟨k', v'⟩ := hd
      by_cases hk : k' = k
      · simp [aget?, hk]
      · simp [aget?, hk] at h ⊢
        exact ih h

theorem aget?_append_right {K V : Type} [DecidableEq K]
    (m₁ m₂ : List (K × V)) (k : K) (h : aget? m₁ k = none) :
    aget? (m₁ ++ m₂) k = aget? m₂ k := by
  induction m₁ with
  | nil => simp
  | cons hd tl ih =>
      obtain ⟨k', v'⟩ := hd
      by_cases hk : k' = k
      · simp [aget?, hk] at h
      · simp [aget?, hk] at h ⊢
        exact ih h

theorem aget?_eq_none_iff {K V : Type} [DecidableEq K]
    (m : List (K × V)) (k : K) :
    aget? m k = none ↔ ∀ v, (k, v) ∉ m := by
  induction m with
  | nil => simp [aget?]
  | cons hd tl ih =>
      obtain ⟨k', v'⟩ := hd
      by_cases hk : k' = k
      · subst hk
        simp only [aget?, if_pos rfl]
        constructor
        · intro h; exact absurd h (by simp)
        · intro h
          exact absurd (List.mem_cons_self _ _) (h v')
      · simp only [aget?, if_neg hk, List.mem_cons, ih]
        constructor
        · intro h v hc
          rcases hc with hc | hc
          · exact hk (congrArg Prod.fst hc).symm
          · exact h v hc
        · intro h v hc
          exact h v (Or.inr hc)

theorem aget?_isSome_of_mem {K V : Type} [DecidableEq K]
    {m : List (K × V)} {k : K} {v : V} (h : (k, v) ∈ m) :
    aget? m k ≠ none := by
  intro hn
  exact (aget?_eq_none_iff m k).1 hn v h

theorem sortedInsert_perm {α : Type} (le : α → α → Bool) (x : α) (l : List α) :
    List.Perm (sortedInsert le x l) (x :: l) := by
  induction l with
  | nil => simp [sortedInsert]
  | cons y ys ih =>
      by_cases h : le y x
      · simp only [sortedInsert, if_pos h]
        exact ((ih.cons y).trans (List.Perm.swap x y ys))
      · simp [sortedInsert, h]

theorem stableSort_perm {α : Type} (le : α → α → Bool) (l : List α) :
    List.Perm (stableSort le l) l := by
  suffices h : ∀ (l acc : List α),
      List.Perm (l.foldl (fun acc x => sortedInsert le x acc) acc) (acc ++ l) by
    simpa using h l []
  intro l
  induction l with
  | nil => simp
  | cons x xs ih =>
      intro acc
      have h1 : (x :: xs).foldl (fun acc x => sortedInsert le x acc) acc
          = xs.foldl (fun acc x => sortedInsert le x acc) (sortedInsert le x acc) := rfl
      rw [h1]
      refine (ih _).trans ?_
      refine ((sortedInsert_perm le x acc).append_right xs).trans ?_
      simpa using List.perm_middle.symm

theorem sortedInsert_pairwise {α : Type} (le : α → α → Bool)
    (htot : ∀ a b, le a b ∨ le b a) (htrans : ∀ a b c, le a b → le b c → le a c)
    (x : α) (l : List α) (h : l.Pairwise (fun a b => le a b)) :
    (sortedInsert le x l).Pairwise (fun a b => le a b) := by
  induction l with
  | nil => simp [sortedInsert]
  | cons y ys ih =>
      rcases List.pairwise_cons.1 h with ⟨hy, hys⟩
      by_cases hle : le y x
      · simp only [sortedInsert, if_pos hle]
        refine List.pairwise_cons.2 ⟨?_, ih hys⟩
        intro z hz
        have hz' : z ∈ x :: ys := (sortedInsert_perm le x ys).mem_iff.mp hz
        rcases List.mem_cons.1 hz' with rfl | hz''
        · exact hle
        · exact hy z hz''
      · have hxy : le x y := (htot x y).resolve_right (fun hc => hle hc)
        simp only [sortedInsert, if_neg hle]
        refine List.pairwise_cons.2 ⟨?_, h⟩
        intro z hz
        rcases List.mem_cons.1 hz with rfl | hz'
        · exact hxy
        · exact htrans x y z hxy (hy z hz')

theorem stableSort_pairwise {α : Type} (le : α → α → Bool)
    (htot : ∀ a b, le a b ∨ le b a) (htrans : ∀ a b c, le a b → le b c → le a c)
    (l : List α) : (stableSort le l).Pairwise (fun a b => le a b) := by
  suffices h : ∀ (l acc : List α), acc.Pairwise (fun a b => le a b) →
      (l.foldl (fun acc x => sortedInsert le x acc) acc).Pairwise (fun a b => le a b) by
    exact h l [] (by simp)
  intro l
  induction l with
  | nil => intro acc h; simpa using h
  | cons x xs ih =>
      intro acc h
      exact ih _ (sortedInsert_pairwise le htot htrans x acc h)

theorem filter_imp_length_le {α : Type} (p q : α → Bool)
    (h : ∀ a, p a → q a) : ∀ l : List α, (l.filter p).length ≤ (l.filter q).length := by
  intro l
  induction l with
  | nil => simp
  | cons a t ih =>
      by_cases hp : p a
      · have hq := h a hp
        simp [List.filter, hp, hq]
        omega
      · simp only [List.filter, Bool.not_eq_true] at hp ⊢
        rw [hp]
        by_cases hq : q a
        · rw [hq]; simp; omega
        · simp only [Bool.not_eq_true] at hq; rw [hq]; exact ih

theorem filter_path_lt (path : List String) (id : String) (hnot : id ∉ path) :
    ∀ l : List String, id ∈ l →
      (l.filter (fun k => decide (k ∉ path ++ [id]))).length <
        (l.filter (fun k => decide (k ∉ path))).length := by
  have himp : ∀ a : String, decide (a ∉ path ++ [id]) → decide (a ∉ path) := by
    intro a ha
    simp only [decide_eq_true_eq] at ha ⊢
    intro hc
    exact ha (List.mem_append_left _ hc)
  intro l
  induction l with
  | nil => intro h; cases h
  | cons a t ih =>
      intro hmem
      rcases List.mem_cons.1 hmem with rfl | hmem'
      · have h1 : (decide (id ∉ path ++ [id])) = false := by simp
        have h2 : (decide (id ∉ path)) = true := by simpa using hnot
        simp only [List.filter, h1, h2]
        have := filter_imp_length_le (fun k => decide (k ∉ path ++ [id]))
          (fun k => decide (k ∉ path)) himp t
        simpa using Nat.lt_succ_of_le this
      · by_cases h2 : a ∈ path
        · have e1 : (decide (a ∉ path ++ [id])) = false := by
            simp [List.mem_append_left _ h2]
          have e2 : (decide (a ∉ path)) = false := by simp [h2]
          simp only [List.filter, e1, e2]
          exact ih hmem'
        · have e2 : (decide (a ∉ path)) = true := by simpa using h2
          by_cases h1 : a ∈ path ++ [id]
          · have e1 : (decide (a ∉ path ++ [id])) = false := by simp_all
            simp only [List.filter, e1, e2]
            exact Nat.lt_succ_of_lt (ih hmem')
          · have e1 : (decide (a ∉ path ++ [id])) = true := by simpa using h1
            simp only [List.filter, e1, e2, List.length_cons]
            exact Nat.succ_lt_succ (ih hmem')

theorem remaining_lt (g : Graph) (path : List String) (id : String)
    (hmem : id ∈ g.nodes.map Prod.fst) (hnot : id ∉ path) :
    remaining g (path ++ [id]) < remaining g path :=
  filter_path_lt path id hnot _ hmem

theorem mem_keys_of_aget? {K V : Type} [DecidableEq K]
    {m : List (K × V)} {k : K} {v : V} (h : aget? m k = some v) :
    k ∈ m.map Prod.fst := by
  induction m with
  | nil => simp [aget?] at h
  | cons hd tl ih =>
      obtain ⟨k', v'⟩ := hd
      by_cases hk : k' = k
      · subst hk; simp
      · simp only [aget?, if_neg hk] at h
        simp [ih h]

/-- The head of a stable sort is a `le`-minimum of the input list. -/
theorem stableSort_head_min {α : Type} (le : α → α → Bool)
    (htot : ∀ a b, le a b ∨ le b a) (htrans : ∀ a b c, le a b → le b c → le a c)
    (l : List α) (x : α) (rest : List α) (hx : stableSort le l = x :: rest) :
    ∀ y ∈ l, le x y := by
  intro y hy
  have hmem : y ∈ x :: rest := hx ▸ (stableSort_perm le l).symm.subset hy
  rcases List.mem_cons.1 hmem with rfl | hy'
  · exact (htot y y).elim id id
  · have hp := stableSort_pairwise le htot htrans l
    rw [hx] at hp
    exact (List.pairwise_cons.1 hp).1 y hy'

/-! ### Claim theorems: concrete counterexamples and code-bug evaluations -/

/-- C1: `render_bpmn_bytes` is not deterministic: on a process with no
`name` and no bound participant, the title falls back to the stem of the
randomly named temporary file the bytes were spilled to, so two
invocations on the same `(bytes, filename)` can differ byte-wise. -/
theorem c1_render_bytes_nondeterministic :
    render_bpmn_bytes (some exDocNoName) "diagrama.bpmn" "tmpabc123" ≠
      render_bpmn_bytes (some exDocNoName) "diagrama.bpmn" "tmpxyz789" := by
  decide

/-- C9: the third branch of the title chain is the temporary file's stem,
not the stem of the filename the caller passed (`"diagrama"`). -/
theorem c9_title_fallback_uses_temp_stem :
    render_bpmn_bytes (some exDocNoName) "diagrama.bpmn" "tmpabc123" =
      .ok "Titulo: tmpabc123\n1. Evento de in?cio: (sem nome)" ∧
    ("tmpabc123" : String) ≠ "diagrama" := by
  constructor
  · decide
  · decide

/-- C2 counterexample: a parseable document with a process whose task has
no `id` attribute aborts rendering with `KeyError('id')` — neither the
no-process message nor a parse error, refuting "no other condition aborts
rendering". -/
theorem c2_counterexample :
    render_bpmn exDocC2 "arquivo" = .error (.keyError "id") ∧
    (findall exDocC2 nsBpmn "process").isEmpty = false := by
  constructor
  · decide
  · decide

/-- C3 counterexample: a document whose only process has no start event
renders nothing at all — no `Titulo:` header and an empty output — instead
of rendering its first process. -/
theorem c3_counterexample :
    render_bpmn exDocC3 "arquivo" = .ok "" ∧
    (linesOf exDocC3 "arquivo").filter (fun l => pyStartsWith l "Titulo: ") = [] := by
  constructor
  · decide
  · decide

/-- C4 counterexample: with two orphan catches `c1`, `c2` of link name `L`
and one throw whose first flow `f1` targeted `T`, the second splice
re-targets `f1` at `c2`; so after repair the edge that formerly targeted
`T` does not target the first-spliced catch `c1`, contradicting the
claim's postcondition for `c1`. -/
theorem c4_counterexample :
    aget? (linksOf exProcC4) "L" = some ⟨["c1", "c2"], ["thr"]⟩ ∧
    agetD (flowStateOf exProcC4).outgoing (some "thr") [] = ["f1"] ∧
    aget? (flowStateOf exProcC4).flows "f1" = some ⟨"", some "thr", some "T", false⟩ ∧
    agetD (flowStateOf exProcC4).incoming (some "c1") [] = [] ∧
    agetD (flowStateOf exProcC4).outgoing (some "c1") [] = [] ∧
    aget? (crOf exProcC4).flows "f1" = some ⟨"", some "thr", some "c2", false⟩ ∧
    (some "c2" : Option String) ≠ some "c1" := by
  refine ⟨by decide, by decide, by decide, by decide, by decide, by decide, by decide⟩

/-- C5 counterexample: a named link throw with no matching catch keeps an
empty outgoing list after graph repair, refuting "every link-throw event
in a process has at least one outgoing edge". -/
theorem c5_counterexample :
    aget? (crOf exProcC5).nodes "thr" =
      some ⟨"Evento intermedi?rio", "", "intermediateThrowEvent", "link", "L", ""⟩ ∧
    agetD (crOf exProcC5).outgoing (some "thr") [] = [] := by
  constructor
  · decide
  · decide

/-- C6 counterexample: a named link catch with no matching throw gets an
empty `catch_throw` field, yet its rendered description still carries the
`captura` marker, because `describe_node` derives the marker from the
element kind alone. -/
theorem c6_counterexample :
    (aget? (crOf exProcC6).nodes "c1").map (fun n => n.catch_throw) = some "" ∧
    (aget? (crOf exProcC6).nodes "c1").map describe_node =
      some "Evento intermediário (link, captura): Volta" ∧
    strContains "Evento intermediário (link, captura): Volta" "captura" = true := by
  refine ⟨by decide, by decide, by decide⟩

/-- C7 counterexample: in a single walk, the silently skipped converging
gateway `G` and its successor `T` are both assigned the dotted-decimal
number `2` (`parts = [2]`). -/
theorem c7_counterexample :
    aget? exWalk7.nmap "G" = some ⟨"2", [2]⟩ ∧
    aget? exWalk7.nmap "T" = some ⟨"2", [2]⟩ ∧
    ("G" : String) ≠ "T" ∧
    silent_convergence
      ⟨(crOf exProcC7).nodes, (crOf exProcC7).flows, (crOf exProcC7).outgoing,
        (crOf exProcC7).incoming, [], []⟩ "G" = true := by
  refine ⟨by decide, by decide, by decide, by decide⟩

/-- C10: traversal state is per start event: the per-process walk lines
are the concatenation of one `walk` per start event, each begun with empty
`path_set`, `number_map` and `branch_state`; concretely, a task reachable
from two start events is fully emitted under each with independent
numbering and without any cross-reference marker. -/
theorem c10_fresh_state_per_start :
    (∀ (g : Graph) (starts : List String),
      startWalkLines g starts =
        ((starts.enumFrom 1).map
          (fun si => (walk g (some si.2) [si.1] [] [] []).lines)).flatten) ∧
    (linesOf exDoc10 "s").count "2. Atividade: Comum" = 1 ∧
    (linesOf exDoc10 "s").count "3. Atividade: Comum" = 1 ∧
    (linesOf exDoc10 "s").filter (fun l =>
      strContains l "retorna para" || strContains l "avança para"
        || strContains l "referência") = [] := by
  refine ⟨fun g starts => rfl, by decide, by decide, by decide⟩

/-! ### C2: the error surface of `render_bpmn` -/

theorem exFoldlM_error {α β : Type} {P : PyErr → Prop}
    (f : β → α → Except PyErr β)
    (h : ∀ acc x e, f acc x = .error e → P e) :
    ∀ (l : List α) (init : β) (e : PyErr),
      exFoldlM f init l = .error e → P e := by
  intro l
  induction l with
  | nil => intro init e he; simp [exFoldlM] at he
  | cons x xs ih =>
      intro init e he
      simp only [exFoldlM] at he
      cases hf : f init x with
      | error e' =>
          rw [hf] at he
          cases he
          exact h init x _ hf
      | ok b' =>
          rw [hf] at he
          exact ih b' e he

theorem exMapM_error {α β : Type} {P : PyErr → Prop}
    (f : α → Except PyErr β)
    (h : ∀ x e, f x = .error e → P e) :
    ∀ (l : List α) (e : PyErr), exMapM f l = .error e → P e := by
  intro l
  induction l with
  | nil => intro e he; simp [exMapM] at he
  | cons x xs ih =>
      intro e he
      simp only [exMapM] at he
      cases hf : f x with
      | error e' =>
          rw [hf] at he
          cases he
          exact h x _ hf
      | ok y =>
          rw [hf] at he
          cases hm : exMapM f xs with
          | error e' =>
              rw [hm] at he
              cases he
              exact ih _ hm
          | ok ys => rw [hm] at he; cases he

theorem collectNodes_error (proc : XElem) (e : PyErr)
    (h : collectNodes proc = .error e) : e = .keyError "id" := by
  unfold collectNodes at h
  refine @exFoldlM_error _ _ (fun e => e = PyErr.keyError "id") _ ?_ tag_map ([], []) e h
  intro acc tk e' h'
  refine @exFoldlM_error _ _ (fun e => e = PyErr.keyError "id") _ ?_ _ acc e' h'
  intro acc' elem e'' h''
  cases hid : elem.aidx "id" with
  | none => rw [hid] at h''; cases h''; rfl
  | some i => rw [hid] at h''; simp at h''

theorem collectFlows_error (proc : XElem) (e : PyErr)
    (h : collectFlows proc = .error e) : e = .keyError "id" := by
  unfold collectFlows at h
  refine @exFoldlM_error _ _ (fun e => e = PyErr.keyError "id") _ ?_ _ ([], [], []) e h
  intro acc sf e' h'
  cases hid : sf.aidx "id" with
  | none => rw [hid] at h'; cases h'; rfl
  | some i => rw [hid] at h'; simp at h'

theorem collect_elements_error (proc : XElem) (e : PyErr)
    (h : collect_elements proc = .error e) : e = .keyError "id" := by
  unfold collect_elements at h
  cases hn : collectNodes proc with
  | error e' =>
      rw [hn] at h
      simp only [Bind.bind, Except.bind] at h
      cases h
      exact collectNodes_error proc _ hn
  | ok p =>
      rw [hn] at h
      simp only [Bind.bind, Except.bind] at h
      cases hf : collectFlows proc with
      | error e' =>
          rw [hf] at h
          simp only [Bind.bind, Except.bind] at h
          cases h
          exact collectFlows_error proc _ hf
      | ok t =>
          rw [hf] at h
          simp at h

theorem pyFloat_error (s : String) (e : PyErr) (h : pyFloat s = .error e) :
    e = .valueError (floatErrMsg s) := by
  unfold pyFloat at h
  cases hp : parseFloatCore s with
  | some q => rw [hp] at h; cases h
  | none => rw [hp] at h; cases h; rfl

theorem pyFloatAttr_error (el : XElem) (k : String) (e : PyErr)
    (h : pyFloatAttr el k = .error e) : ∃ s, e = .valueError (floatErrMsg s) := by
  unfold pyFloatAttr at h
  cases ha : el.aget? k with
  | none => rw [ha] at h; cases h
  | some s =>
      rw [ha] at h
      exact ⟨s, pyFloat_error s e h⟩

theorem collect_di_bounds_error (defs : XElem) (nids lids : List String) (e : PyErr)
    (h : collect_di_bounds defs nids lids = .error e) :
    ∃ s, e = .valueError (floatErrMsg s) := by
  unfold collect_di_bounds at h
  refine @exFoldlM_error _ _ (fun e => ∃ s, e = PyErr.valueError (floatErrMsg s)) _ ?_ _ ([], []) e h
  intro acc shape e' h'
  cases hb : shape.aget? "bpmnElement" with
  | none => rw [hb] at h'; simp at h'
  | some elem_id =>
      rw [hb] at h'
      cases hf : findFirst shape nsDc "Bounds" with
      | none => rw [hf] at h'; simp at h'
      | some bounds =>
          rw [hf] at h'
          by_cases hid : elem_id = ""
          · simp [hid] at h'
          · simp only [if_neg hid] at h'
            cases hx : pyFloatAttr bounds "x" with
            | error ex =>
                rw [hx] at h'
                simp only [Bind.bind, Except.bind] at h'
                cases h'
                exact pyFloatAttr_error _ _ _ hx
            | ok x =>
                rw [hx] at h'
                simp only [Bind.bind, Except.bind] at h'
                cases hy : pyFloatAttr bounds "y" with
                | error ey =>
                    rw [hy] at h'
                    simp only [Bind.bind, Except.bind] at h'
                    cases h'
                    exact pyFloatAttr_error _ _ _ hy
                | ok y =>
                    rw [hy] at h'
                    simp only [Bind.bind, Except.bind] at h'
                    cases hw : pyFloatAttr bounds "width" with
                    | error ew =>
                        rw [hw] at h'
                        simp only [Bind.bind, Except.bind] at h'
                        cases h'
                        exact pyFloatAttr_error _ _ _ hw
                    | ok w =>
                        rw [hw] at h'
                        simp only [Bind.bind, Except.bind] at h'
                        cases hh : pyFloatAttr bounds "height" with
                        | error eh =>
                            rw [hh] at h'
                            simp only [Bind.bind, Except.bind] at h'
                            cases h'
                            exact pyFloatAttr_error _ _ _ hh
                        | ok hv =>
                            rw [hh] at h'
                            simp at h'

theorem renderProcess_error (defs : XElem) (pbp : List (String × String))
    (ag : List (String × List Artifact)) (stem : String) (acc : RenderAcc)
    (proc : XElem) (cr : CollectResult) (e : PyErr)
    (h : renderProcess defs pbp ag stem acc proc cr = .error e) : BenignErr e := by
  unfold renderProcess at h
  simp only [] at h
  cases hd : collect_di_bounds defs (cr.nodes.map Prod.fst)
      ((collect_lanes proc).2.map Prod.fst) with
  | error ed =>
      rw [hd] at h
      simp only [Bind.bind, Except.bind] at h
      cases h
      exact Or.inr (collect_di_bounds_error _ _ _ _ hd)
  | ok bounds =>
      rw [hd] at h
      simp only [Bind.bind, Except.bind] at h
      cases hs : exMapM (fun e =>
          match e.aidx "id" with
          | some i => Except.ok i
          | none => Except.error (PyErr.keyError "id"))
          (findall proc nsBpmn "startEvent") with
      | error es =>
          rw [hs] at h
          simp only [Bind.bind, Except.bind] at h
          cases h
          refine Or.inl ?_
          refine @exMapM_error _ _ (fun e => e = PyErr.keyError "id") _ ?_ _ _ hs
          intro x e' h'
          cases hid : x.aidx "id" with
          | none => rw [hid] at h'; cases h'; rfl
          | some i => rw [hid] at h'; simp at h'
      | ok starts =>
          rw [hs] at h
          simp only [Bind.bind, Except.bind] at h
          by_cases hse : starts = []
          · simp [hse] at h
          · simp [hse] at h

theorem render_lines_error (defs : XElem) (stem : String) (e : PyErr)
    (hne : (findall defs nsBpmn "process").isEmpty = false)
    (h : render_lines defs stem = .error e) : BenignErr e := by
  unfold render_lines at h
  simp only [] at h
  rw [hne] at h
  simp only [Bool.false_eq_true, if_false] at h
  cases hp : exMapM (fun proc => collect_elements proc >>= fun cr => .ok (proc, cr))
      (findall defs nsBpmn "process") with
  | error ep =>
      rw [hp] at h
      simp only [Bind.bind, Except.bind] at h
      cases h
      refine Or.inl ?_
      refine @exMapM_error _ _ (fun e => e = PyErr.keyError "id") _ ?_ _ _ hp
      intro proc e' h'
      cases hc : collect_elements proc with
      | error ec =>
          rw [hc] at h'
          simp only [Bind.bind, Except.bind] at h'
          cases h'
          exact collect_elements_error proc _ hc
      | ok cr => rw [hc] at h'; simp [Bind.bind, Except.bind] at h'
  | ok proc_info =>
      rw [hp] at h
      simp only [Bind.bind, Except.bind] at h
      cases hf : exFoldlM (fun acc pi =>
          renderProcess defs (collectParticipants defs).1
            (adel (collect_artifacts defs
              (proc_info.foldl (fun acc pi => acc ++ pi.2.nodes.map Prod.fst) []))
              "_orphan_annotations_") stem acc pi.1 pi.2)
          (⟨[], [], []⟩ : RenderAcc) proc_info with
      | error ef =>
          rw [hf] at h
          simp only [Bind.bind, Except.bind] at h
          cases h
          refine @exFoldlM_error _ _ BenignErr _ ?_ _ _ _ hf
          intro acc pi e' h'
          exact renderProcess_error _ _ _ _ _ _ _ _ h'
      | ok acc =>
          rw [hf] at h
          simp at h

theorem floatErrMsg_ne_noProcess (s : String) : floatErrMsg s ≠ noProcessMsg := by
  intro h
  have hl := congrArg String.length h
  rw [floatErrMsg, noProcessMsg] at hl
  rw [String.length_append, String.length_append] at hl
  have h1 : ("could not convert string to float: '" : String).length = 36 := by decide
  have h2 : ("'" : String).length = 1 := by decide
  have h3 : ("Nenhum processo encontrado no BPMN." : String).length = 35 := by decide
  omega

/-- C2 (amended): `render_bpmn` aborts with the exact no-process message
iff the parsed document has no `process` child, and unparseable input
surfaces the parser's own error; other conditions (missing `id`
attributes, malformed DI numbers) abort with different exceptions. -/
theorem c2_error_surface :
    (∀ (p : Option XElem) (fn stem : String),
      render_bpmn_bytes p fn stem = .error .parseError ↔ p = none) ∧
    (∀ (defs : XElem) (stem : String),
      render_bpmn defs stem = .error (.valueError noProcessMsg) ↔
        (findall defs nsBpmn "process").isEmpty = true) := by
  constructor
  · intro p fn stem
    cases p with
    | none => simp [render_bpmn_bytes]
    | some defs =>
        simp only [render_bpmn_bytes]
        cases hr : render_bpmn defs stem with
        | ok s => simp
        | error e => simp
  · intro defs stem
    constructor
    · intro h
      by_contra hne
      have hne' : (findall defs nsBpmn "process").isEmpty = false := by
        cases hi : (findall defs nsBpmn "process").isEmpty
        · rfl
        · exact absurd hi hne
      unfold render_bpmn at h
      cases hl : render_lines defs stem with
      | ok L => rw [hl] at h; simp [Except.map] at h
      | error e =>
          rw [hl] at h
          simp only [Except.map] at h
          cases h
          rcases render_lines_error defs stem _ hne' hl with h1 | ⟨s, h2⟩
          · cases h1
          · exact floatErrMsg_ne_noProcess s (PyErr.valueError.inj h2.symm)
    · intro h
      simp [render_bpmn, render_lines, h, Except.map]

/-! ### C5: dead-throw wiring -/

theorem agetD_apush_self {K : Type} [DecidableEq K] {V : Type}
    (m : List (K × List V)) (k : K) (x : V) :
    agetD (apush m k x) k [] = agetD m k [] ++ [x] := by
  unfold apush agetD
  rw [aget?_aset_self]
  rfl

theorem agetD_apush_ne {K : Type} [DecidableEq K] {V : Type}
    (m : List (K × List V)) (k k' : K) (x : V) (h : k ≠ k') :
    agetD (apush m k x) k' [] = agetD m k' [] := by
  unfold apush agetD
  rw [aget?_aset_ne _ _ _ _ h]

theorem apush_keeps_nonempty {K : Type} [DecidableEq K] {V : Type}
    (m : List (K × List V)) (k k' : K) (x : V)
    (h : agetD m k' [] ≠ []) : agetD (apush m k x) k' [] ≠ [] := by
  by_cases hk : k = k'
  · subst hk
    rw [agetD_apush_self]
    simp
  · rw [agetD_apush_ne _ _ _ _ hk]
    exact h

theorem redirect_fold_outgoing (cid : String) (tgt : Option String)
    (snapshot : List String) :
    ∀ st : RState, (snapshot.foldl (redirectEdge cid tgt) st).outgoing = st.outgoing := by
  induction snapshot with
  | nil => intro st; rfl
  | cons x xs ih =>
      intro st
      rw [List.foldl_cons, ih]
      rfl

theorem spliceFinish_keeps_out_nonempty (nm cid : String) (tgt : Option String)
    (st : RState) (k : Option String) (h : agetD st.outgoing k [] ≠ []) :
    agetD (spliceFinish nm cid tgt st).outgoing k [] ≠ [] := by
  unfold spliceFinish
  by_cases hc : (agetD st.outgoing (some cid) []).any
      (fun fid => (agetD st.flows fid defaultFlow).target == tgt) = true
  · rw [if_pos hc]
    exact h
  · rw [if_neg hc]
    exact apush_keeps_nonempty _ _ _ _ h

theorem spliceDo_keeps_out_nonempty (nm cid : String) (tgt : Option String)
    (st : RState) (k : Option String) (h : agetD st.outgoing k [] ≠ []) :
    agetD (spliceDo nm cid tgt st).outgoing k [] ≠ [] := by
  unfold spliceDo
  refine spliceFinish_keeps_out_nonempty _ _ _ _ _ ?_
  rw [redirect_fold_outgoing]
  exact h

theorem spliceFirstThrow_keeps_out_nonempty (nm : String) (tids : List String)
    (cid : String) (st : RState) (k : Option String)
    (h : agetD st.outgoing k [] ≠ []) :
    agetD (spliceFirstThrow nm tids cid st).outgoing k [] ≠ [] := by
  induction tids with
  | nil => exact h
  | cons tid rest ih =>
      unfold spliceFirstThrow
      cases ho : agetD st.outgoing (some tid) [] with
      | nil => exact ih
      | cons f fs => exact spliceDo_keeps_out_nonempty _ _ _ _ _ h

theorem spliceCatch_keeps_out_nonempty (nm : String) (tids : List String)
    (cid : String) (st : RState) (k : Option String)
    (h : agetD st.outgoing k [] ≠ []) :
    agetD (spliceCatch nm tids cid st).outgoing k [] ≠ [] := by
  unfold spliceCatch
  by_cases h1 : agetD st.incoming (some cid) [] ≠ []
  · rw [if_pos h1]; exact h
  · rw [if_neg h1]
    by_cases h2 : agetD st.outgoing (some cid) [] ≠ []
    · rw [if_pos h2]; exact h
    · rw [if_neg h2]
      exact spliceFirstThrow_keeps_out_nonempty _ _ _ _ _ h

theorem addLinkFlow_keeps_out_nonempty (nm tid cid : String) (st : RState)
    (k : Option String) (h : agetD st.outgoing k [] ≠ []) :
    agetD (addLinkFlow nm tid cid st).outgoing k [] ≠ [] := by
  unfold addLinkFlow
  exact apush_keeps_nonempty _ _ _ _ h

theorem addLinkFlow_fold_keeps_out_nonempty (nm tid : String)
    (catches : List String) :
    ∀ (st : RState) (k : Option String), agetD st.outgoing k [] ≠ [] →
      agetD (catches.foldl (fun st cid => addLinkFlow nm tid cid st) st).outgoing k [] ≠ [] := by
  induction catches with
  | nil => intro st k h; exact h
  | cons c cs ih =>
      intro st k h
      rw [List.foldl_cons]
      exact ih _ _ (addLinkFlow_keeps_out_nonempty _ _ _ _ _ h)

theorem wireThrow_keeps_out_nonempty (nm : String) (catches : List String)
    (st : RState) (tid : String) (k : Option String)
    (h : agetD st.outgoing k [] ≠ []) :
    agetD (wireThrow nm catches st tid).outgoing k [] ≠ [] := by
  unfold wireThrow
  by_cases ho : agetD st.outgoing (some tid) [] ≠ []
  · rw [if_pos ho]; exact h
  · rw [if_neg ho]
    exact addLinkFlow_fold_keeps_out_nonempty _ _ _ _ _ h

theorem wireThrow_out_nonempty (nm tid : String) (catches : List String)
    (st : RState) (hc : catches ≠ []) :
    agetD (wireThrow nm catches st tid).outgoing (some tid) [] ≠ [] := by
  unfold wireThrow
  by_cases ho : agetD st.outgoing (some tid) [] ≠ []
  · rw [if_pos ho]
    exact ho
  · rw [if_neg ho]
    cases catches with
    | nil => exact absurd rfl hc
    | cons c cs =>
        rw [List.foldl_cons]
        refine addLinkFlow_fold_keeps_out_nonempty _ _ _ _ _ ?_
        unfold addLinkFlow
        rw [agetD_apush_self]
        simp

theorem wireThrow_fold_keeps_out_nonempty (nm : String) (catches : List String)
    (tids : List String) :
    ∀ (st : RState) (k : Option String), agetD st.outgoing k [] ≠ [] →
      agetD (tids.foldl (wireThrow nm catches) st).outgoing k [] ≠ [] := by
  induction tids with
  | nil => intro st k h; exact h
  | cons t ts ih =>
      intro st k h
      rw [List.foldl_cons]
      exact ih _ _ (wireThrow_keeps_out_nonempty _ _ _ _ _ h)

theorem wireThrow_fold_wires (nm : String) (catches : List String) (tid : String)
    (hc : catches ≠ []) :
    ∀ (tids : List String) (st : RState), tid ∈ tids →
      agetD (tids.foldl (wireThrow nm catches) st).outgoing (some tid) [] ≠ [] := by
  intro tids
  induction tids with
  | nil => intro st h; cases h
  | cons t ts ih =>
      intro st hmem
      rw [List.foldl_cons]
      rcases List.mem_cons.1 hmem with rfl | hmem'
      · exact wireThrow_fold_keeps_out_nonempty _ _ _ _ _
          (wireThrow_out_nonempty nm tid catches st hc)
      · exact ih _ hmem'

theorem repairThrowsGroup_keeps_out_nonempty (nmg : String × LinkGroup)
    (st : RState) (k : Option String) (h : agetD st.outgoing k [] ≠ []) :
    agetD (repairThrowsGroup st nmg).outgoing k [] ≠ [] := by
  unfold repairThrowsGroup
  by_cases hg : nmg.2.catches ≠ [] ∧ nmg.2.throws ≠ []
  · rw [if_pos hg]
    exact wireThrow_fold_keeps_out_nonempty _ _ _ _ _ h
  · rw [if_neg hg]
    exact h

theorem repairThrows_fold_keeps_out_nonempty (links : List (String × LinkGroup)) :
    ∀ (st : RState) (k : Option String), agetD st.outgoing k [] ≠ [] →
      agetD (links.foldl repairThrowsGroup st).outgoing k [] ≠ [] := by
  induction links with
  | nil => intro st k h; exact h
  | cons lg rest ih =>
      intro st k h
      rw [List.foldl_cons]
      exact ih _ _ (repairThrowsGroup_keeps_out_nonempty _ _ _ h)

theorem str_append_cancel_left (a b c : String) (h : a ++ b = a ++ c) : b = c := by
  have hd := congrArg String.data h
  rw [String.data_append, String.data_append] at hd
  have hbc := List.append_cancel_left hd
  cases b
  cases c
  exact congrArg String.mk hbc

/-- Stability of one throw's synthetic flow under the rest of its fold. -/
theorem addLinkFlow_fold_flows_stable (nm tid cid : String) :
    ∀ (catches : List String) (st : RState),
      aget? st.flows ("_link_" ++ tid ++ "_" ++ cid) =
        some ⟨linkLabel nm, some tid, some cid, true⟩ →
      aget? ((catches.foldl (fun st cid => addLinkFlow nm tid cid st) st)).flows
          ("_link_" ++ tid ++ "_" ++ cid) =
        some ⟨linkLabel nm, some tid, some cid, true⟩ := by
  intro catches
  induction catches with
  | nil => intro st h; exact h
  | cons c cs ih =>
      intro st h
      rw [List.foldl_cons]
      refine ih _ ?_
      unfold addLinkFlow
      by_cases hk : ("_link_" ++ tid ++ "_" ++ c : String) = "_link_" ++ tid ++ "_" ++ cid
      · have hcc : c = cid := by
          have h1 : ("_link_" ++ tid ++ "_") ++ c = ("_link_" ++ tid ++ "_") ++ cid := by
            simpa [String.append_assoc] using hk
          exact str_append_cancel_left _ _ _ h1
        subst hcc
        simp only
        rw [hk, aget?_aset_self]
      · simp only
        rw [aget?_aset_ne _ _ _ _ hk]
        exact h

/-- C5 (amended): after graph repair a link-throw whose non-empty name has
at least one matching catch has at least one outgoing edge; and the wiring
step gives a throw with empty outgoing one synthetic `"Link: <name>"` flow
per matching catch. -/
theorem c5_throw_wired (proc : XElem) (cr : CollectResult)
    (nm : String) (g : LinkGroup) (tid : String)
    (hmem : (nm, g) ∈ linksOf proc)
    (hc : g.catches ≠ []) (ht : tid ∈ g.throws)
    (hok : collect_elements proc = .ok cr) :
    agetD cr.outgoing (some tid) [] ≠ [] ∧
    (∀ (st : RState) (nm' tid' : String) (catches : List String) (cid : String),
      cid ∈ catches →
      aget? ((catches.foldl (fun st cid => addLinkFlow nm' tid' cid st) st)).flows
          ("_link_" ++ tid' ++ "_" ++ cid) =
        some ⟨linkLabel nm', some tid', some cid, true⟩) := by
  constructor
  · unfold collect_elements at hok
    cases hn : collectNodes proc with
    | error e => rw [hn] at hok; simp [Bind.bind, Except.bind] at hok
    | ok nl =>
        rw [hn] at hok
        simp only [Bind.bind, Except.bind] at hok
        cases hf : collectFlows proc with
        | error e => rw [hf] at hok; simp at hok
        | ok foi =>
            rw [hf] at hok
            simp only at hok
            cases hok
            have hl : nl.2 = linksOf proc := by
              unfold linksOf
              rw [hn]
            rw [← hl] at hmem
            obtain ⟨l1, l2, hsplit⟩ := List.append_of_mem hmem
            show agetD (repairThrows nl.2 _).outgoing (some tid) [] ≠ []
            unfold repairThrows
            rw [hsplit, List.foldl_append, List.foldl_cons]
            refine repairThrows_fold_keeps_out_nonempty l2 _ _ ?_
            have hg : (nm, g).2.catches ≠ [] ∧ (nm, g).2.throws ≠ [] :=
              ⟨hc, fun hnil => List.not_mem_nil tid (hnil ▸ ht)⟩
            show agetD (repairThrowsGroup _ (nm, g)).outgoing (some tid) [] ≠ []
            unfold repairThrowsGroup
            rw [if_pos hg]
            exact wireThrow_fold_wires nm g.catches tid hc g.throws _ ht
  · intro st nm' tid' catches cid hmem'
    obtain ⟨p1, p2, hsplit⟩ := List.append_of_mem hmem'
    rw [hsplit, List.foldl_append, List.foldl_cons]
    refine addLinkFlow_fold_flows_stable _ _ _ _ _ ?_
    unfold addLinkFlow
    simp only
    rw [aget?_aset_self]

theorem c5_throw_wired_witness :
    agetD (crOf exProcC5b).outgoing (some "thr") [] ≠ [] :=
  (c5_throw_wired exProcC5b (crOf exProcC5b) "L" ⟨["c1"], ["thr"]⟩ "thr"
    (by decide) (by decide) (by decide) (by decide)).1

/-! ### C6: one-sided named links -/

theorem exFoldlM_inv {α β : Type} {P : β → Prop} (f : β → α → Except PyErr β)
    (l : List α) (h : ∀ acc x b, x ∈ l → P acc → f acc x = .ok b → P b) :
    ∀ (init : β) (b : β), P init → exFoldlM f init l = .ok b → P b := by
  induction l with
  | nil =>
      intro init b hp hok
      simp only [exFoldlM] at hok
      cases hok
      exact hp
  | cons x xs ih =>
      intro init b hp hok
      simp only [exFoldlM] at hok
      cases hf : f init x with
      | error e => rw [hf] at hok; cases hok
      | ok b' =>
          rw [hf] at hok
          refine ih (fun acc y c hy => h acc y c (List.mem_cons_of_mem _ hy)) b' b
            (h init x b' (List.mem_cons_self _ _) hp hf) hok

theorem aset_mem_sub {K V : Type} [DecidableEq K]
    (m : List (K × V)) (k : K) (v : V) :
    ∀ x ∈ aset m k v, x ∈ m ∨ x = (k, v) := by
  induction m with
  | nil => intro x hx; simp [aset] at hx; simp [hx]
  | cons hd tl ih =>
      obtain ⟨k', v'⟩ := hd
      intro x hx
      by_cases hk : k' = k
      · subst hk
        simp only [aset, if_pos rfl] at hx
        rcases List.mem_cons.1 hx with rfl | hx'
        · right; rfl
        · left; exact List.mem_cons_of_mem _ hx'
      · simp only [aset, if_neg hk] at hx
        rcases List.mem_cons.1 hx with rfl | hx'
        · left; exact List.mem_cons_self _ _
        · rcases ih x hx' with h1 | h2
          · left; exact List.mem_cons_of_mem _ h1
          · right; exact h2

theorem aget?_some_mem {K V : Type} [DecidableEq K]
    {m : List (K × V)} {k : K} {v : V} (h : aget? m k = some v) : (k, v) ∈ m := by
  induction m with
  | nil => simp [aget?] at h
  | cons hd tl ih =>
      obtain ⟨k', v'⟩ := hd
      by_cases hk : k' = k
      · subst hk
        simp only [aget?, if_pos rfl] at h
        cases h
        exact List.mem_cons_self _ _
      · simp only [aget?, if_neg hk] at h
        exact List.mem_cons_of_mem _ (ih h)

theorem aset_keys_nodup {K V : Type} [DecidableEq K]
    (m : List (K × V)) (k : K) (v : V) (h : (m.map Prod.fst).Nodup) :
    ((aset m k v).map Prod.fst).Nodup := by
  induction m with
  | nil => simp [aset]
  | cons hd tl ih =>
      obtain ⟨k', v'⟩ := hd
      by_cases hk : k' = k
      · subst hk
        simpa [aset] using h
      · simp only [aset, if_neg hk, List.map_cons, List.nodup_cons] at h ⊢
        obtain ⟨hnot, htl⟩ := h
        refine ⟨?_, ih htl⟩
        intro hc
        rcases List.mem_map.1 hc with ⟨⟨k₀, v₀⟩, hm, hfst⟩
        rcases aset_mem_sub tl k v _ hm with h1 | h2
        · exact hnot (List.mem_map.2 ⟨_, h1, hfst⟩)
        · apply hk
          have := congrArg Prod.fst h2
          simp at this hfst
          rw [← hfst, this]

theorem nodup_keys_mem_unique {K V : Type} [DecidableEq K]
    {m : List (K × V)} (h : (m.map Prod.fst).Nodup) {k : K} {a b : V}
    (ha : (k, a) ∈ m) (hb : (k, b) ∈ m) : a = b := by
  induction m with
  | nil => cases ha
  | cons hd tl ih =>
      simp only [List.map_cons, List.nodup_cons] at h
      obtain ⟨hnot, htl⟩ := h
      rcases List.mem_cons.1 ha with rfl | ha'
      · rcases List.mem_cons.1 hb with hb0 | hb'
        · injection hb0 with h1 h2
          exact h2.symm
        · exact absurd (List.mem_map.2 ⟨_, hb', rfl⟩) hnot
      · rcases List.mem_cons.1 hb with rfl | hb'
        · exact absurd (List.mem_map.2 ⟨_, ha', rfl⟩) hnot
        · exact ih htl ha' hb'

/-- Invariant of `pushCatch`/`pushThrow`: distinct group keys. -/
theorem pushCatch_keys_nodup (m : List (String × LinkGroup)) (nm id : String)
    (h : (m.map Prod.fst).Nodup) : ((pushCatch m nm id).map Prod.fst).Nodup :=
  aset_keys_nodup _ _ _ h

theorem pushThrow_keys_nodup (m : List (String × LinkGroup)) (nm id : String)
    (h : (m.map Prod.fst).Nodup) : ((pushThrow m nm id).map Prod.fst).Nodup :=
  aset_keys_nodup _ _ _ h

/-- Every node `collectNodes` builds has an empty `catch_throw` and a
`(kind, type)` pair from `tag_map`; and the link-group keys are distinct. -/
theorem collectNodes_inv (proc : XElem)
    (nl : List (String × BNode) × List (String × LinkGroup))
    (hok : collectNodes proc = .ok nl) :
    (∀ p ∈ nl.1, (p : String × BNode).2.catch_throw = "" ∧
      ((p : String × BNode).2.kind, (p : String × BNode).2.type) ∈ tag_map) ∧
    ((nl.2.map Prod.fst).Nodup) := by
  unfold collectNodes at hok
  refine @exFoldlM_inv _ _
    (fun nl => (∀ p ∈ nl.1, (p : String × BNode).2.catch_throw = "" ∧
      ((p : String × BNode).2.kind, (p : String × BNode).2.type) ∈ tag_map) ∧
      ((nl.2.map Prod.fst).Nodup)) _ _ ?_ _ _ (by simp) hok
  intro acc tk b htk hp hstep
  refine @exFoldlM_inv _ _
    (fun nl => (∀ p ∈ nl.1, (p : String × BNode).2.catch_throw = "" ∧
      ((p : String × BNode).2.kind, (p : String × BNode).2.type) ∈ tag_map) ∧
      ((nl.2.map Prod.fst).Nodup)) _ _ ?_ _ _ hp hstep
  intro acc' elem b' helem hp' hstep'
  cases hid : elem.aidx "id" with
  | none => rw [hid] at hstep'; cases hstep'
  | some id =>
      rw [hid] at hstep'
      simp only at hstep'
      cases hstep'
      constructor
      · intro p hpmem
        rcases aset_mem_sub _ _ _ _ hpmem with h1 | h2
        · exact hp'.1 p h1
        · subst h2
          exact ⟨rfl, htk⟩
      · by_cases h1 : tk.1 = "intermediateCatchEvent" ∧
            (if strContains tk.1 "Event" then event_flavor elem else ("", "")).2 ≠ ""
        · by_cases h2 : tk.1 = "intermediateThrowEvent" ∧
              (if strContains tk.1 "Event" then event_flavor elem else ("", "")).2 ≠ ""
          · rw [if_pos h1, if_pos h2]
            exact pushThrow_keys_nodup _ _ _ (pushCatch_keys_nodup _ _ _ hp'.2)
          · rw [if_pos h1, if_neg h2]
            exact pushCatch_keys_nodup _ _ _ hp'.2
        · by_cases h2 : tk.1 = "intermediateThrowEvent" ∧
              (if strContains tk.1 "Event" then event_flavor elem else ("", "")).2 ≠ ""
          · rw [if_neg h1, if_pos h2]
            exact pushThrow_keys_nodup _ _ _ hp'.2
          · rw [if_neg h1, if_neg h2]
            exact hp'.2

theorem markNodes_preserves (marker : String) (cid : String) :
    ∀ (ids : List String) (ns : List (String × BNode)), cid ∉ ids →
      aget? (markNodes marker ids ns) cid = aget? ns cid := by
  intro ids
  induction ids with
  | nil => intro ns h; rfl
  | cons x xs ih =>
      intro ns h
      have hx : x ≠ cid := fun hc => h (hc ▸ List.mem_cons_self _ _)
      have hxs : cid ∉ xs := fun hc => h (List.mem_cons_of_mem _ hc)
      unfold markNodes
      rw [List.foldl_cons]
      show aget? (markNodes marker xs _) cid = _
      rw [ih _ hxs]
      cases hg : aget? ns x with
      | none => rfl
      | some n => exact aget?_aset_ne _ _ _ _ hx

theorem markCatchThrow_preserves (cid : String) :
    ∀ (links : List (String × LinkGroup)) (nodes : List (String × BNode)),
      (∀ nmg, nmg ∈ links → nmg.2.catches ≠ [] → nmg.2.throws ≠ [] →
        cid ∉ nmg.2.catches ∧ cid ∉ nmg.2.throws) →
      aget? (markCatchThrow nodes links) cid = aget? nodes cid := by
  intro links
  induction links with
  | nil => intro nodes h; rfl
  | cons lg rest ih =>
      intro nodes h
      unfold markCatchThrow
      rw [List.foldl_cons]
      show aget? (markCatchThrow (markGroup nodes lg) rest) cid = _
      rw [ih _ (fun nmg hm => h nmg (List.mem_cons_of_mem _ hm))]
      unfold markGroup
      by_cases hg : lg.2.catches ≠ [] ∧ lg.2.throws ≠ []
      · rw [if_pos hg]
        obtain ⟨hc, ht⟩ := h lg (List.mem_cons_self _ _) hg.1 hg.2
        rw [markNodes_preserves _ _ _ _ ht, markNodes_preserves _ _ _ _ hc]
      · rw [if_neg hg]

theorem redirectEdge_flowsP (links : List (String × LinkGroup))
    (cid : String) (tgt : Option String) (st : RState) (inc_id : String)
    (h : FlowsP links st) : FlowsP links (redirectEdge cid tgt st inc_id) := by
  intro p hp hl
  unfold redirectEdge at hp
  simp only at hp
  rcases aset_mem_sub _ _ _ _ hp with h1 | h2
  · exact h p h1 hl
  · subst h2
    simp only at hl ⊢
    cases hg : aget? st.flows inc_id with
    | none =>
        rw [show agetD st.flows inc_id defaultFlow = defaultFlow by
          unfold agetD; rw [hg]; rfl] at hl ⊢
        cases hl
    | some f0 =>
        rw [show agetD st.flows inc_id defaultFlow = f0 by
          unfold agetD; rw [hg]; rfl] at hl ⊢
        exact h (inc_id, f0) (aget?_some_mem hg) hl

theorem redirect_fold_flowsP (links : List (String × LinkGroup))
    (cid : String) (tgt : Option String) (snapshot : List String) :
    ∀ st : RState, FlowsP links st →
      FlowsP links (snapshot.foldl (redirectEdge cid tgt) st) := by
  induction snapshot with
  | nil => intro st h; exact h
  | cons x xs ih =>
      intro st h
      rw [List.foldl_cons]
      exact ih _ (redirectEdge_flowsP _ _ _ _ _ h)

theorem spliceFinish_flowsP (links : List (String × LinkGroup))
    (nm cid : String) (tgt : Option String) (st : RState)
    (hboth : ∃ g', (nm, g') ∈ links ∧ g'.catches ≠ [] ∧ g'.throws ≠ [])
    (h : FlowsP links st) : FlowsP links (spliceFinish nm cid tgt st) := by
  unfold spliceFinish
  by_cases hc : (agetD st.outgoing (some cid) []).any
      (fun fid => (agetD st.flows fid defaultFlow).target == tgt) = true
  · rw [if_pos hc]; exact h
  · rw [if_neg hc]
    intro p hp hl
    simp only at hp
    rcases aset_mem_sub _ _ _ _ hp with h1 | h2
    · exact h p h1 hl
    · subst h2
      obtain ⟨g', hg', hgc, hgt⟩ := hboth
      exact ⟨nm, g', hg', hgc, hgt, rfl⟩

theorem spliceDo_flowsP (links : List (String × LinkGroup))
    (nm cid : String) (tgt : Option String) (st : RState)
    (hboth : ∃ g', (nm, g') ∈ links ∧ g'.catches ≠ [] ∧ g'.throws ≠ [])
    (h : FlowsP links st) : FlowsP links (spliceDo nm cid tgt st) :=
  spliceFinish_flowsP _ _ _ _ _ hboth (redirect_fold_flowsP _ _ _ _ _ h)

theorem spliceFirstThrow_flowsP (links : List (String × LinkGroup))
    (nm : String) (tids : List String) (cid : String) (st : RState)
    (hboth : ∃ g', (nm, g') ∈ links ∧ g'.catches ≠ [] ∧ g'.throws ≠ [])
    (h : FlowsP links st) : FlowsP links (spliceFirstThrow nm tids cid st) := by
  induction tids with
  | nil => exact h
  | cons tid rest ih =>
      unfold spliceFirstThrow
      cases ho : agetD st.outgoing (some tid) [] with
      | nil => exact ih
      | cons f fs => exact spliceDo_flowsP _ _ _ _ _ hboth h

theorem spliceCatch_flowsP (links : List (String × LinkGroup))
    (nm : String) (tids : List String) (cid : String) (st : RState)
    (hboth : ∃ g', (nm, g') ∈ links ∧ g'.catches ≠ [] ∧ g'.throws ≠ [])
    (h : FlowsP links st) : FlowsP links (spliceCatch nm tids cid st) := by
  unfold spliceCatch
  by_cases h1 : agetD st.incoming (some cid) [] ≠ []
  · rw [if_pos h1]; exact h
  · rw [if_neg h1]
    by_cases h2 : agetD st.outgoing (some cid) [] ≠ []
    · rw [if_pos h2]; exact h
    · rw [if_neg h2]
      exact spliceFirstThrow_flowsP _ _ _ _ _ hboth h

theorem repairCatches_flowsP (links : List (String × LinkGroup)) :
    ∀ (sub : List (String × LinkGroup)) (st : RState),
      (∀ x ∈ sub, x ∈ links) → FlowsP links st →
      FlowsP links (sub.foldl repairCatchesGroup st) := by
  intro sub
  induction sub with
  | nil => intro st _ h; exact h
  | cons lg rest ih =>
      intro st hsub h
      rw [List.foldl_cons]
      refine ih _ (fun x hx => hsub x (List.mem_cons_of_mem _ hx)) ?_
      unfold repairCatchesGroup
      by_cases hg : lg.2.catches ≠ [] ∧ lg.2.throws ≠ []
      · rw [if_pos hg]
        have hboth : ∃ g', (lg.1, g') ∈ links ∧ g'.catches ≠ [] ∧ g'.throws ≠ [] :=
          ⟨lg.2, hsub lg (List.mem_cons_self _ _), hg.1, hg.2⟩
        clear ih hsub
        induction lg.2.catches generalizing st with
        | nil => exact h
        | cons c cs ihc =>
            rw [List.foldl_cons]
            exact ihc _ (spliceCatch_flowsP _ _ _ _ _ hboth h)
      · rw [if_neg hg]
        exact h

theorem addLinkFlow_flowsP (links : List (String × LinkGroup))
    (nm tid cid : String) (st : RState)
    (hboth : ∃ g', (nm, g') ∈ links ∧ g'.catches ≠ [] ∧ g'.throws ≠ [])
    (h : FlowsP links st) : FlowsP links (addLinkFlow nm tid cid st) := by
  intro p hp hl
  unfold addLinkFlow at hp
  simp only at hp
  rcases aset_mem_sub _ _ _ _ hp with h1 | h2
  · exact h p h1 hl
  · subst h2
    obtain ⟨g', hg', hgc, hgt⟩ := hboth
    exact ⟨nm, g', hg', hgc, hgt, rfl⟩

theorem wireThrow_flowsP (links : List (String × LinkGroup))
    (nm : String) (catches : List String) (st : RState) (tid : String)
    (hboth : ∃ g', (nm, g') ∈ links ∧ g'.catches ≠ [] ∧ g'.throws ≠ [])
    (h : FlowsP links st) : FlowsP links (wireThrow nm catches st tid) := by
  unfold wireThrow
  by_cases ho : agetD st.outgoing (some tid) [] ≠ []
  · rw [if_pos ho]; exact h
  · rw [if_neg ho]
    clear ho
    induction catches generalizing st with
    | nil => exact h
    | cons c cs ihc =>
        rw [List.foldl_cons]
        exact ihc _ (addLinkFlow_flowsP _ _ _ _ _ hboth h)

theorem repairThrows_flowsP (links : List (String × LinkGroup)) :
    ∀ (sub : List (String × LinkGroup)) (st : RState),
      (∀ x ∈ sub, x ∈ links) → FlowsP links st →
      FlowsP links (sub.foldl repairThrowsGroup st) := by
  intro sub
  induction sub with
  | nil => intro st _ h; exact h
  | cons lg rest ih =>
      intro st hsub h
      rw [List.foldl_cons]
      refine ih _ (fun x hx => hsub x (List.mem_cons_of_mem _ hx)) ?_
      unfold repairThrowsGroup
      by_cases hg : lg.2.catches ≠ [] ∧ lg.2.throws ≠ []
      · rw [if_pos hg]
        have hboth : ∃ g', (lg.1, g') ∈ links ∧ g'.catches ≠ [] ∧ g'.throws ≠ [] :=
          ⟨lg.2, hsub lg (List.mem_cons_self _ _), hg.1, hg.2⟩
        clear ih hsub
        induction lg.2.throws generalizing st with
        | nil => exact h
        | cons t ts iht =>
            rw [List.foldl_cons]
            exact iht _ (wireThrow_flowsP _ _ _ _ _ hboth h)
      · rw [if_neg hg]
        exact h

theorem collectFlows_no_link (proc : XElem)
    (foi : List (String × BFlow) ×
      List (Option String × List String) × List (Option String × List String))
    (hok : collectFlows proc = .ok foi) :
    ∀ p ∈ foi.1, (p : String × BFlow).2.is_link = false := by
  unfold collectFlows at hok
  refine @exFoldlM_inv _ _
    (fun foi => ∀ p ∈ foi.1, (p : String × BFlow).2.is_link = false)
    _ _ ?_ _ _ (by simp) hok
  intro acc sf b _ hp hstep
  cases hid : sf.aidx "id" with
  | none => rw [hid] at hstep; cases hstep
  | some fid =>
      rw [hid] at hstep
      simp only at hstep
      cases hstep
      intro p hpmem
      rcases aset_mem_sub _ _ _ _ hpmem with h1 | h2
      · exact hp p h1
      · subst h2; rfl

theorem linkLabel_inj (nm nm' : String) (hne : nm ≠ "")
    (h : linkLabel nm' = linkLabel nm) : nm' = nm := by
  unfold linkLabel at h
  rw [if_pos hne] at h
  by_cases h' : nm' ≠ ""
  · rw [if_pos h'] at h
    exact str_append_cancel_left _ _ _ h
  · rw [if_neg h'] at h
    have hl := congrArg String.length h
    rw [String.length_append] at hl
    have h1 : ("Link" : String).length = 4 := by decide
    have h2 : ("Link: " : String).length = 6 := by decide
    omega

theorem tag_map_catch_type :
    ∀ p ∈ tag_map, (p : String × String).1 = "intermediateCatchEvent" →
      p.2 = "Evento intermedi?rio" := by
  decide

theorem tag_map_throw_type :
    ∀ p ∈ tag_map, (p : String × String).1 = "intermediateThrowEvent" →
      p.2 = "Evento intermedi?rio" := by
  decide

theorem describe_node_link_catch (n : BNode)
    (hk : n.kind = "intermediateCatchEvent")
    (ht : n.type = "Evento intermedi?rio") (hf : n.event_flavor = "link") :
    describe_node n = "Evento intermediário (link, captura): "
      ++ (if n.name = "" then "(sem nome)" else n.name) := by
  unfold describe_node
  rw [hk, ht, hf]
  by_cases hn : n.name = "" <;> simp [hn, task_kinds, strContains, containsSubAux, listPrefix, pyStartsWith]

theorem describe_node_link_throw (n : BNode)
    (hk : n.kind = "intermediateThrowEvent")
    (ht : n.type = "Evento intermedi?rio") (hf : n.event_flavor = "link") :
    describe_node n = "Evento intermediário (link, disparo): "
      ++ (if n.name = "" then "(sem nome)" else n.name) := by
  unfold describe_node
  rw [hk, ht, hf]
  by_cases hn : n.name = "" <;> simp [hn, task_kinds, strContains, containsSubAux, listPrefix, pyStartsWith]

/-- C6 (amended): a named link event whose name lacks one side gets no
`catch_throw` marker and no synthetic flow with its label, but its
rendered description still shows `captura`/`disparo`, derived from the
element kind alone. -/
theorem c6_one_sided_link (proc : XElem)
    (nl : List (String × BNode) × List (String × LinkGroup))
    (cr : CollectResult) (nm : String) (g : LinkGroup) (cid : String)
    (node : BNode)
    (hnl : collectNodes proc = .ok nl)
    (hmem : (nm, g) ∈ nl.2)
    (hside : g.catches = [] ∨ g.throws = [])
    (hnm : nm ≠ "")
    (hcid : cid ∈ g.catches ∨ cid ∈ g.throws)
    (huniq : ∀ nmg ∈ nl.2, (cid ∈ (nmg : String × LinkGroup).2.catches ∨
      cid ∈ nmg.2.throws) → nmg.1 = nm)
    (hok : collect_elements proc = .ok cr)
    (hnode : aget? cr.nodes cid = some node) :
    node.catch_throw = "" ∧
    (∀ p ∈ cr.flows, (p : String × BFlow).2.is_link = true →
      p.2.name ≠ linkLabel nm) ∧
    (node.kind = "intermediateCatchEvent" → node.event_flavor = "link" →
      describe_node node = "Evento intermediário (link, captura): "
        ++ (if node.name = "" then "(sem nome)" else node.name)) ∧
    (node.kind = "intermediateThrowEvent" → node.event_flavor = "link" →
      describe_node node = "Evento intermediário (link, disparo): "
        ++ (if node.name = "" then "(sem nome)" else node.name)) := by
  obtain ⟨hvals, hnodup⟩ := collectNodes_inv proc nl hnl
  -- no both-sided group contains cid
  have hnoside : ∀ nmg ∈ nl.2, (nmg : String × LinkGroup).2.catches ≠ [] →
      nmg.2.throws ≠ [] → cid ∉ nmg.2.catches ∧ cid ∉ nmg.2.throws := by
    intro nmg hm hc ht
    constructor
    · intro hin
      have hkey := huniq nmg hm (Or.inl hin)
      have : nmg.2 = g := by
        obtain ⟨k, g'⟩ := nmg
        simp only at hkey
        subst hkey
        exact nodup_keys_mem_unique hnodup hm hmem
      rw [this] at hc ht
      rcases hside with h1 | h2
      · exact hc h1
      · exact ht h2
    · intro hin
      have hkey := huniq nmg hm (Or.inr hin)
      have : nmg.2 = g := by
        obtain ⟨k, g'⟩ := nmg
        simp only at hkey
        subst hkey
        exact nodup_keys_mem_unique hnodup hm hmem
      rw [this] at hc ht
      rcases hside with h1 | h2
      · exact hc h1
      · exact ht h2
  -- unfold collect_elements
  unfold collect_elements at hok
  rw [hnl] at hok
  simp only [Bind.bind, Except.bind] at hok
  cases hf : collectFlows proc with
  | error e => rw [hf] at hok; cases hok
  | ok foi =>
      rw [hf] at hok
      simp only at hok
      cases hok
      -- conjunct 1: the node survives marking untouched
      have hpres := markCatchThrow_preserves cid nl.2 nl.1 hnoside
      have hnode' : aget? nl.1 cid = some node := by
        rw [← hpres]
        exact hnode
      have hmemnode := aget?_some_mem hnode'
      have hval := hvals _ hmemnode
      refine ⟨hval.1, ?_, ?_, ?_⟩
      · -- conjunct 2: no is_link flow carries linkLabel nm
        intro p hp hl hname
        have hbase : FlowsP nl.2 ⟨foi.1, foi.2.1, foi.2.2⟩ := by
          intro q hq hql
          have := collectFlows_no_link proc foi hf q hq
          rw [this] at hql
          cases hql
        have hrep := repairThrows_flowsP nl.2 nl.2 _ (fun x hx => hx)
          (repairCatches_flowsP nl.2 nl.2 _ (fun x hx => hx) hbase)
        obtain ⟨nm', g', hg', hgc, hgt, hlabel⟩ :=
          hrep p (by exact hp) hl
        rw [hname] at hlabel
        have hnm' : nm' = nm := linkLabel_inj nm nm' hnm hlabel.symm
        subst hnm'
        have hgg : g' = g := nodup_keys_mem_unique hnodup hg' hmem
        rw [hgg] at hgc hgt
        rcases hside with h1 | h2
        · exact hgc h1
        · exact hgt h2
      · intro hk hflav
        refine describe_node_link_catch node hk ?_ hflav
        exact tag_map_catch_type _ (hk ▸ hval.2) rfl
      · intro hk hflav
        refine describe_node_link_throw node hk ?_ hflav
        exact tag_map_throw_type _ (hk ▸ hval.2) rfl

theorem c6_one_sided_link_witness :
    ((aget? (crOf exProcC6).nodes "c1").getD ⟨"", "", "", "", "", ""⟩).catch_throw = "" ∧
    describe_node ((aget? (crOf exProcC6).nodes "c1").getD ⟨"", "", "", "", "", ""⟩) =
      "Evento intermediário (link, captura): Volta" := by
  have h := c6_one_sided_link exProcC6
    (⟨[("c1", ⟨"Evento intermedi?rio", "Volta", "intermediateCatchEvent", "link", "L", ""⟩)],
      [("L", ⟨["c1"], []⟩)]⟩)
    (crOf exProcC6) "L" ⟨["c1"], []⟩ "c1"
    ⟨"Evento intermedi?rio", "Volta", "intermediateCatchEvent", "link", "L", ""⟩
    (by decide) (by decide) (Or.inr rfl) (by decide) (Or.inl (by decide))
    (by decide) (by decide) (by decide)
  have heq : (aget? (crOf exProcC6).nodes "c1").getD ⟨"", "", "", "", "", ""⟩ =
      (⟨"Evento intermedi?rio", "Volta", "intermediateCatchEvent", "link", "L", ""⟩ : BNode) := by
    decide
  refine ⟨heq ▸ h.1, ?_⟩
  have h3 := h.2.2.1 rfl rfl
  rw [heq, h3]
  decide

/-! ### C4: the orphan-catch splice, one step -/

theorem redirect_fold_flows_other (cid : String) (tgt : Option String)
    (fid : String) :
    ∀ (snapshot : List String) (st : RState), fid ∉ snapshot →
      aget? (snapshot.foldl (redirectEdge cid tgt) st).flows fid =
        aget? st.flows fid := by
  intro snapshot
  induction snapshot with
  | nil => intro st _; rfl
  | cons x xs ih =>
      intro st h
      have hx : x ≠ fid := fun hc => h (hc ▸ List.mem_cons_self _ _)
      have hxs : fid ∉ xs := fun hc => h (List.mem_cons_of_mem _ hc)
      rw [List.foldl_cons, ih _ hxs]
      unfold redirectEdge
      simp only
      exact aget?_aset_ne _ _ _ _ hx

theorem redirect_fold_target (cid : String) (tgt : Option String) :
    ∀ (snapshot : List String) (st : RState) (fid : String), fid ∈ snapshot →
      (agetD (snapshot.foldl (redirectEdge cid tgt) st).flows fid
        defaultFlow).target = some cid := by
  intro snapshot
  induction snapshot with
  | nil => intro st fid h; cases h
  | cons x xs ih =>
      intro st fid h
      rw [List.foldl_cons]
      by_cases hxs : fid ∈ xs
      · exact ih _ _ hxs
      · have hx : fid = x := by
          rcases List.mem_cons.1 h with h1 | h2
          · exact h1
          · exact absurd h2 hxs
        subst hx
        unfold agetD
        rw [redirect_fold_flows_other _ _ _ _ _ hxs]
        unfold redirectEdge
        simp only
        rw [aget?_aset_self]
        rfl

theorem spliceFirstThrow_skips (nm cid : String) (st : RState) :
    ∀ (pre l : List String), (∀ t ∈ pre, agetD st.outgoing (some t) [] = []) →
      spliceFirstThrow nm (pre ++ l) cid st = spliceFirstThrow nm l cid st := by
  intro pre
  induction pre with
  | nil => intro l _; rfl
  | cons t ts ih =>
      intro l h
      rw [List.cons_append]
      show (match agetD st.outgoing (some t) [] with
        | [] => spliceFirstThrow nm (ts ++ l) cid st
        | first_out :: _ =>
            spliceDo nm cid (agetD st.flows first_out defaultFlow).target st)
        = spliceFirstThrow nm l cid st
      rw [h t (List.mem_cons_self _ _)]
      exact ih _ (fun u hu => h u (List.mem_cons_of_mem _ hu))

/-- C4 (amended): the postcondition of one orphan-catch splice, holding
immediately after `spliceCatch` runs for that catch: every edge that then
targeted `T` targets the catch, the labelled synthetic `catch → T` flow
exists and is the catch's only outgoing flow, and all other flows are
untouched (one splice only). -/
theorem c4_splice_step (nm cid : String) (st : RState)
    (tids pre rest : List String) (tid : String)
    (T : Option String) (synth : String)
    (hin : agetD st.incoming (some cid) [] = [])
    (hout : agetD st.outgoing (some cid) [] = [])
    (hsplit : tids = pre ++ tid :: rest)
    (hpre : ∀ t ∈ pre, agetD st.outgoing (some t) [] = [])
    (htid : agetD st.outgoing (some tid) [] ≠ [])
    (hT : T = (agetD st.flows
      ((agetD st.outgoing (some tid) []).headD "") defaultFlow).target)
    (hsynth : synth = "_linkcatch_" ++ cid ++ "_" ++ optStr T)
    (hfresh : synth ∉ agetD st.incoming T []) :
    (∀ fid ∈ agetD st.incoming T [],
      (agetD (spliceCatch nm tids cid st).flows fid defaultFlow).target = some cid) ∧
    aget? (spliceCatch nm tids cid st).flows synth =
      some ⟨linkLabel nm, some cid, T, true⟩ ∧
    agetD (spliceCatch nm tids cid st).outgoing (some cid) [] = [synth] ∧
    (∀ fid, fid ∉ agetD st.incoming T [] → fid ≠ synth →
      aget? (spliceCatch nm tids cid st).flows fid = aget? st.flows fid) := by
  have hstep : spliceCatch nm tids cid st = spliceDo nm cid T st := by
    unfold spliceCatch
    rw [if_neg (fun hc => hc hin), if_neg (fun hc => hc hout), hsplit,
      spliceFirstThrow_skips nm cid st pre (tid :: rest) hpre]
    unfold spliceFirstThrow
    cases ho : agetD st.outgoing (some tid) [] with
    | nil => exact absurd ho htid
    | cons f fs =>
        rw [hT, ho]
        rfl
  have hfoldout := redirect_fold_outgoing cid T (agetD st.incoming T []) st
  have h1 : agetD ((agetD st.incoming T []).foldl (redirectEdge cid T) st).outgoing
      (some cid) [] = agetD st.outgoing (some cid) [] :=
    congrArg (fun m => agetD m (some cid) []) hfoldout
  have hguard : ¬ ((agetD ((agetD st.incoming T []).foldl (redirectEdge cid T) st).outgoing
      (some cid) []).any (fun fid =>
        (agetD ((agetD st.incoming T []).foldl (redirectEdge cid T) st).flows fid
          defaultFlow).target == T) = true) := by
    rw [h1, hout]
    simp
  rw [hstep]
  unfold spliceDo spliceFinish
  rw [if_neg hguard]
  simp only []
  refine ⟨?_, ?_, ?_, ?_⟩
  · intro fid hfid
    have hne : "_linkcatch_" ++ cid ++ "_" ++ optStr T ≠ fid := by
      intro hc
      exact hfresh (hsynth ▸ hc ▸ hfid)
    unfold agetD
    rw [aget?_aset_ne _ _ _ _ hne]
    exact redirect_fold_target cid T _ st fid hfid
  · rw [hsynth, aget?_aset_self]
  · show agetD (apush _ (some cid) _) (some cid) [] = [synth]
    rw [agetD_apush_self, h1, hout, hsynth]
    rfl
  · intro fid hnot hne
    show aget? (aset _ _ _) fid = aget? st.flows fid
    rw [aget?_aset_ne _ _ _ _ (fun hc => hne (hsynth ▸ hc.symm))]
    exact redirect_fold_flows_other _ _ _ _ _ hnot

theorem c4_splice_step_witness :
    (∀ fid ∈ agetD exState4.incoming (some "T") [],
      (agetD (spliceCatch "L" ["thr"] "c1" exState4).flows fid defaultFlow).target =
        some "c1") ∧
    aget? (spliceCatch "L" ["thr"] "c1" exState4).flows "_linkcatch_c1_T" =
      some ⟨linkLabel "L", some "c1", some "T", true⟩ ∧
    agetD (spliceCatch "L" ["thr"] "c1" exState4).outgoing (some "c1") [] =
      ["_linkcatch_c1_T"] ∧
    (∀ fid, fid ∉ agetD exState4.incoming (some "T") [] →
      fid ≠ "_linkcatch_c1_T" →
      aget? (spliceCatch "L" ["thr"] "c1" exState4).flows fid =
        aget? exState4.flows fid) :=
  c4_splice_step "L" "c1" exState4 ["thr"] [] [] "thr" (some "T") "_linkcatch_c1_T"
    (by decide) (by decide) rfl (by simp) (by decide) (by decide) (by decide)
    (by decide)

/-! ### C8: geometric lane inference -/

theorem overlapsOf_aux (rect : Rect) :
    ∀ (lbs : List (String × Rect)) (acc : List (ℚ × ℚ × String)),
      lbs.foldl (fun ov lb =>
        if rect_intersection_area rect lb.2 > 0 then ov ++ [overlapEntry rect lb]
        else ov) acc =
      acc ++ (lbs.filter (fun lb =>
        decide (rect_intersection_area rect lb.2 > 0))).map (overlapEntry rect) := by
  intro lbs
  induction lbs with
  | nil => intro acc; simp
  | cons x xs ih =>
      intro acc
      rw [List.foldl_cons]
      by_cases h : rect_intersection_area rect x.2 > 0
      · rw [if_pos h, ih]
        simp [List.filter_cons, h]
      · rw [if_neg h, ih]
        simp [List.filter_cons, h]

theorem overlapsOf_eq (rect : Rect) (lbs : List (String × Rect)) :
    overlapsOf rect lbs = (lbs.filter (fun lb =>
      decide (rect_intersection_area rect lb.2 > 0))).map (overlapEntry rect) := by
  unfold overlapsOf
  rw [overlapsOf_aux]
  rfl

theorem candidatesOf_aux (rect : Rect) :
    ∀ (lbs : List (String × Rect)) (acc : List (ℚ × String)),
      lbs.foldl (fun cs lb =>
        if rect_contains lb.2 (centreX rect) (centreY rect) then cs ++ [candEntry lb]
        else cs) acc =
      acc ++ (lbs.filter (fun lb =>
        rect_contains lb.2 (centreX rect) (centreY rect))).map candEntry := by
  intro lbs
  induction lbs with
  | nil => intro acc; simp
  | cons x xs ih =>
      intro acc
      rw [List.foldl_cons]
      by_cases h : rect_contains x.2 (centreX rect) (centreY rect) = true
      · rw [if_pos h, ih]
        simp [List.filter_cons, h]
      · rw [if_neg h, ih]
        simp [List.filter_cons, h]

theorem candidatesOf_eq (rect : Rect) (lbs : List (String × Rect)) :
    candidatesOf rect lbs = (lbs.filter (fun lb =>
      rect_contains lb.2 (centreX rect) (centreY rect))).map candEntry := by
  unfold candidatesOf
  rw [candidatesOf_aux]
  rfl

theorem overlapLe_total (a b : ℚ × ℚ × String) : overlapLe a b ∨ overlapLe b a := by
  unfold overlapLe
  rcases lt_trichotomy (-a.1) (-b.1) with h | h | h
  · exact Or.inl (decide_eq_true (Or.inl h))
  · rcases le_total a.2.1 b.2.1 with h2 | h2
    · exact Or.inl (decide_eq_true (Or.inr ⟨h, h2⟩))
    · exact Or.inr (decide_eq_true (Or.inr ⟨h.symm, h2⟩))
  · exact Or.inr (decide_eq_true (Or.inl h))

theorem overlapLe_trans (a b c : ℚ × ℚ × String) :
    overlapLe a b → overlapLe b c → overlapLe a c := by
  unfold overlapLe
  intro h1 h2
  have h1' := of_decide_eq_true h1
  have h2' := of_decide_eq_true h2
  apply decide_eq_true
  rcases h1' with h1' | ⟨he1, ha1⟩
  · rcases h2' with h2' | ⟨he2, ha2⟩
    · exact Or.inl (lt_trans h1' h2')
    · exact Or.inl (lt_of_lt_of_le h1' (le_of_eq he2))
  · rcases h2' with h2' | ⟨he2, ha2⟩
    · exact Or.inl (lt_of_le_of_lt (le_of_eq he1) h2')
    · exact Or.inr ⟨he1.trans he2, ha1.trans ha2⟩

theorem areaLe_total (a b : ℚ × String) : areaLe a b ∨ areaLe b a := by
  unfold areaLe
  rcases le_total a.1 b.1 with h | h
  · exact Or.inl (decide_eq_true h)
  · exact Or.inr (decide_eq_true h)

theorem areaLe_trans (a b c : ℚ × String) :
    areaLe a b → areaLe b c → areaLe a c := by
  unfold areaLe
  intro h1 h2
  exact decide_eq_true (le_trans (of_decide_eq_true h1) (of_decide_eq_true h2))

theorem inferStep_fold_preserves (lane_name : List (String × String))
    (lane_bounds : List (String × Rect)) (k v : String) :
    ∀ (nbs : List (String × Rect)) (result : List (String × String)),
      aget? result k = some v →
      aget? (nbs.foldl (inferStep lane_name lane_bounds) result) k = some v := by
  intro nbs
  induction nbs with
  | nil => intro result h; exact h
  | cons nb rest ih =>
      intro result h
      rw [List.foldl_cons]
      refine ih _ ?_
      unfold inferStep
      by_cases hs : (aget? result nb.1).isSome = true
      · rw [if_pos hs]; exact h
      · rw [if_neg hs]
        cases hio : inferOne lane_name lane_bounds nb.2 with
        | none => exact h
        | some name =>
            by_cases hk : nb.1 = k
            · subst hk
              exact absurd (by rw [h]; rfl : (aget? result nb.1).isSome = true) hs
            · rw [aget?_aset_ne _ _ _ _ hk]
              exact h

theorem inferStep_fold_other (lane_name : List (String × String))
    (lane_bounds : List (String × Rect)) (k : String) :
    ∀ (nbs : List (String × Rect)) (result : List (String × String)),
      k ∉ nbs.map Prod.fst →
      aget? (nbs.foldl (inferStep lane_name lane_bounds) result) k =
        aget? result k := by
  intro nbs
  induction nbs with
  | nil => intro result _; rfl
  | cons nb rest ih =>
      intro result hk
      have hk1 : nb.1 ≠ k := fun hc => hk (by rw [List.map_cons, hc]; exact List.mem_cons_self _ _)
      have hk2 : k ∉ rest.map Prod.fst := fun hc => hk (by rw [List.map_cons]; exact List.mem_cons_of_mem _ hc)
      rw [List.foldl_cons, ih _ hk2]
      unfold inferStep
      by_cases hs : (aget? result nb.1).isSome = true
      · rw [if_pos hs]
      · rw [if_neg hs]
        cases hio : inferOne lane_name lane_bounds nb.2 with
        | none => rfl
        | some name => exact aget?_aset_ne _ _ _ _ hk1

theorem overlapEntry_fst (rect : Rect) (lb : String × Rect) :
    (overlapEntry rect lb).1 = rect_intersection_area rect lb.2 := rfl

theorem overlapEntry_area (rect : Rect) (lb : String × Rect) :
    (overlapEntry rect lb).2.1 = lb.2.w * lb.2.h := rfl

theorem overlapEntry_id (rect : Rect) (lb : String × Rect) :
    (overlapEntry rect lb).2.2 = lb.1 := rfl

theorem overlapLe_elim (a b : ℚ × ℚ × String) (h : overlapLe a b) :
    -a.1 < -b.1 ∨ (-a.1 = -b.1 ∧ a.2.1 ≤ b.2.1) := of_decide_eq_true h

theorem areaLe_elim (a b : ℚ × String) (h : areaLe a b) : a.1 ≤ b.1 :=
  of_decide_eq_true h

theorem inferOne_intersection (lane_name : List (String × String))
    (lane_bounds : List (String × Rect)) (rect : Rect)
    (hpos : ∃ lb ∈ lane_bounds, rect_intersection_area rect lb.2 > 0) :
    ∃ lb ∈ lane_bounds,
      rect_intersection_area rect lb.2 > 0 ∧
      (∀ lb' ∈ lane_bounds,
        rect_intersection_area rect lb'.2 ≤ rect_intersection_area rect lb.2) ∧
      (∀ lb' ∈ lane_bounds,
        rect_intersection_area rect lb'.2 = rect_intersection_area rect lb.2 →
        lb.2.w * lb.2.h ≤ lb'.2.w * lb'.2.h) ∧
      inferOne lane_name lane_bounds rect =
        some (if lane_bounds.countP (fun lb' =>
            rect_intersection_area rect lb'.2 = rect_intersection_area rect lb.2) > 1
          then agetD lane_name lb.1 "(ator nao identificado)" ++ " (ambiguo)"
          else agetD lane_name lb.1 "(ator nao identificado)") := by
  obtain ⟨lb0, hlb0, hpos0⟩ := hpos
  have hmem0 : overlapEntry rect lb0 ∈ overlapsOf rect lane_bounds := by
    rw [overlapsOf_eq]
    exact List.mem_map_of_mem _ (List.mem_filter.2 ⟨hlb0, decide_eq_true hpos0⟩)
  cases hsort : stableSort overlapLe (overlapsOf rect lane_bounds) with
  | nil =>
      have hm : overlapEntry rect lb0 ∈ stableSort overlapLe (overlapsOf rect lane_bounds) :=
        (stableSort_perm overlapLe _).symm.mem_iff.1 hmem0
      rw [hsort] at hm
      exact absurd hm (List.not_mem_nil _)
  | cons o₀ osr =>
      have hperm := stableSort_perm overlapLe (overlapsOf rect lane_bounds)
      have ho₀mem : o₀ ∈ overlapsOf rect lane_bounds :=
        hperm.mem_iff.1 (by rw [hsort]; exact List.mem_cons_self _ _)
      rw [overlapsOf_eq] at ho₀mem
      obtain ⟨lb, hlbf, hlbe⟩ := List.mem_map.1 ho₀mem
      obtain ⟨hlbmem, hlbq⟩ := List.mem_filter.1 hlbf
      have hlbpos : rect_intersection_area rect lb.2 > 0 := of_decide_eq_true hlbq
      have hmin := stableSort_head_min overlapLe overlapLe_total overlapLe_trans
        (overlapsOf rect lane_bounds) o₀ osr hsort
      have ho1 : o₀.1 = rect_intersection_area rect lb.2 := by
        rw [← hlbe, overlapEntry_fst]
      have ho21 : o₀.2.1 = lb.2.w * lb.2.h := by
        rw [← hlbe, overlapEntry_area]
      have ho22 : o₀.2.2 = lb.1 := by
        rw [← hlbe, overlapEntry_id]
      have hmax : ∀ lb' ∈ lane_bounds,
          rect_intersection_area rect lb'.2 ≤ rect_intersection_area rect lb.2 := by
        intro lb' hlb'
        by_cases hp' : rect_intersection_area rect lb'.2 > 0
        · have hm' : overlapEntry rect lb' ∈ overlapsOf rect lane_bounds := by
            rw [overlapsOf_eq]
            exact List.mem_map_of_mem _ (List.mem_filter.2 ⟨hlb', decide_eq_true hp'⟩)
          rcases overlapLe_elim _ _ (hmin _ hm') with hlt | ⟨heq, _⟩
          · rw [ho1, overlapEntry_fst] at hlt
            exact le_of_lt (neg_lt_neg_iff.1 hlt)
          · rw [ho1, overlapEntry_fst] at heq
            exact le_of_eq (neg_inj.1 heq).symm
        · exact le_trans (le_of_not_lt hp') (le_of_lt hlbpos)
      refine ⟨lb, hlbmem, hlbpos, hmax, ?_, ?_⟩
      · intro lb' hlb' heq
        have hp' : rect_intersection_area rect lb'.2 > 0 := by
          rw [heq]; exact hlbpos
        have hm' : overlapEntry rect lb' ∈ overlapsOf rect lane_bounds := by
          rw [overlapsOf_eq]
          exact List.mem_map_of_mem _ (List.mem_filter.2 ⟨hlb', decide_eq_true hp'⟩)
        rcases overlapLe_elim _ _ (hmin _ hm') with hlt | ⟨_, hle⟩
        · rw [ho1, overlapEntry_fst, heq] at hlt
          exact absurd hlt (lt_irrefl _)
        · rw [← ho21]
          rw [overlapEntry_area] at hle
          exact hle
      · have hcnt : ((o₀ :: osr).filter (fun o => o.1 = o₀.1)).length =
            lane_bounds.countP (fun lb' =>
              rect_intersection_area rect lb'.2 = rect_intersection_area rect lb.2) := by
          rw [← List.countP_eq_length_filter, ← hsort,
            (stableSort_perm overlapLe _).countP_eq, overlapsOf_eq,
            List.countP_map, List.countP_filter]
          refine List.countP_congr ?_
          intro a _
          simp only [Function.comp, Bool.and_eq_true, decide_eq_true_eq,
            overlapEntry_fst, ho1]
          constructor
          · intro h'
            exact h'.1
          · intro h'
            exact ⟨h', by rw [h']; exact hlbpos⟩
        unfold inferOne
        rw [hsort]
        show some (if ((o₀ :: osr).filter (fun o => o.1 = o₀.1)).length > 1 then
            agetD lane_name o₀.2.2 "(ator nao identificado)" ++ " (ambiguo)"
          else agetD lane_name o₀.2.2 "(ator nao identificado)") = _
        rw [hcnt, ho22]

theorem candEntry_fst (lb : String × Rect) :
    (candEntry lb).1 = lb.2.w * lb.2.h := rfl

theorem candEntry_snd (lb : String × Rect) : (candEntry lb).2 = lb.1 := rfl

theorem overlapsOf_nil (rect : Rect) (lane_bounds : List (String × Rect))
    (hneg : ∀ lb ∈ lane_bounds, ¬ rect_intersection_area rect lb.2 > 0) :
    overlapsOf rect lane_bounds = [] := by
  rw [overlapsOf_eq, List.filter_eq_nil_iff.2 (fun a ha => by
    simpa using hneg a ha)]
  rfl

theorem inferOne_containment (lane_name : List (String × String))
    (lane_bounds : List (String × Rect)) (rect : Rect)
    (hneg : ∀ lb ∈ lane_bounds, ¬ rect_intersection_area rect lb.2 > 0)
    (hcont : ∃ lb ∈ lane_bounds,
      rect_contains lb.2 (centreX rect) (centreY rect) = true) :
    ∃ lb ∈ lane_bounds,
      rect_contains lb.2 (centreX rect) (centreY rect) = true ∧
      (∀ lb' ∈ lane_bounds,
        rect_contains lb'.2 (centreX rect) (centreY rect) = true →
        lb.2.w * lb.2.h ≤ lb'.2.w * lb'.2.h) ∧
      inferOne lane_name lane_bounds rect =
        some (if lane_bounds.countP (fun lb' =>
            rect_contains lb'.2 (centreX rect) (centreY rect)) > 1
          then agetD lane_name lb.1 "(ator nao identificado)" ++ " (ambiguo)"
          else agetD lane_name lb.1 "(ator nao identificado)") := by
  obtain ⟨lb0, hlb0, hc0⟩ := hcont
  have hov := overlapsOf_nil rect lane_bounds hneg
  have hmem0 : candEntry lb0 ∈ candidatesOf rect lane_bounds := by
    rw [candidatesOf_eq]
    exact List.mem_map_of_mem _ (List.mem_filter.2 ⟨hlb0, hc0⟩)
  cases hsort : stableSort areaLe (candidatesOf rect lane_bounds) with
  | nil =>
      have hm : candEntry lb0 ∈ stableSort areaLe (candidatesOf rect lane_bounds) :=
        (stableSort_perm areaLe _).symm.mem_iff.1 hmem0
      rw [hsort] at hm
      exact absurd hm (List.not_mem_nil _)
  | cons c₀ csr =>
      have hc₀mem : c₀ ∈ candidatesOf rect lane_bounds :=
        (stableSort_perm areaLe _).mem_iff.1 (by rw [hsort]; exact List.mem_cons_self _ _)
      rw [candidatesOf_eq] at hc₀mem
      obtain ⟨lb, hlbf, hlbe⟩ := List.mem_map.1 hc₀mem
      obtain ⟨hlbmem, hlbc⟩ := List.mem_filter.1 hlbf
      have hmin := stableSort_head_min areaLe areaLe_total areaLe_trans
        (candidatesOf rect lane_bounds) c₀ csr hsort
      have hc1 : c₀.1 = lb.2.w * lb.2.h := by rw [← hlbe, candEntry_fst]
      have hc2 : c₀.2 = lb.1 := by rw [← hlbe, candEntry_snd]
      refine ⟨lb, hlbmem, hlbc, ?_, ?_⟩
      · intro lb' hlb' hc'
        have hm' : candEntry lb' ∈ candidatesOf rect lane_bounds := by
          rw [candidatesOf_eq]
          exact List.mem_map_of_mem _ (List.mem_filter.2 ⟨hlb', hc'⟩)
        have hle := areaLe_elim _ _ (hmin _ hm')
        rw [hc1, candEntry_fst] at hle
        exact hle
      · have hlen : (c₀ :: csr).length =
            lane_bounds.countP (fun lb' =>
              rect_contains lb'.2 (centreX rect) (centreY rect)) := by
          rw [← hsort, (stableSort_perm areaLe _).length_eq, candidatesOf_eq,
            List.length_map, ← List.countP_eq_length_filter]
        unfold inferOne
        rw [hov, hsort]
        show some (if (c₀ :: csr).length > 1
            then agetD lane_name c₀.2 "(ator nao identificado)" ++ " (ambiguo)"
            else agetD lane_name c₀.2 "(ator nao identificado)") = _
        rw [hlen, hc2]

theorem inferOne_unassigned (lane_name : List (String × String))
    (lane_bounds : List (String × Rect)) (rect : Rect)
    (hneg : ∀ lb ∈ lane_bounds, ¬ rect_intersection_area rect lb.2 > 0)
    (hnc : ∀ lb ∈ lane_bounds,
      ¬ rect_contains lb.2 (centreX rect) (centreY rect) = true) :
    inferOne lane_name lane_bounds rect = none := by
  have hov := overlapsOf_nil rect lane_bounds hneg
  have hcand : candidatesOf rect lane_bounds = [] := by
    rw [candidatesOf_eq, List.filter_eq_nil_iff.2 (fun a ha => by
      simpa using hnc a ha)]
    rfl
  unfold inferOne
  rw [hov, hcand]
  rfl

theorem inferStep_none (lane_name : List (String × String))
    (lane_bounds : List (String × Rect)) (result : List (String × String))
    (nb : String × Rect) (h : aget? result nb.1 = none) :
    inferStep lane_name lane_bounds result nb =
      match inferOne lane_name lane_bounds nb.2 with
      | some name => aset result nb.1 name
      | none => result := by
  unfold inferStep
  rw [if_neg (by rw [h]; simp)]

theorem infer_lane_value (nodes : List (String × BNode))
    (node_lane lane_name : List (String × String))
    (node_bounds lane_bounds : List (String × Rect))
    (nid : String) (rect : Rect)
    (hnodup : (node_bounds.map Prod.fst).Nodup)
    (hmem : (nid, rect) ∈ node_bounds)
    (hnone : aget? node_lane nid = none) :
    aget? (infer_lane_by_di nodes node_lane lane_name node_bounds lane_bounds) nid =
      inferOne lane_name lane_bounds rect := by
  obtain ⟨l1, l2, hsplit⟩ := List.append_of_mem hmem
  subst hsplit
  have hmap : (l1.map Prod.fst ++ nid :: l2.map Prod.fst).Nodup := by
    simpa using hnodup
  have hnid1 : nid ∉ l1.map Prod.fst := fun hc =>
    (List.disjoint_of_nodup_append hmap) hc (List.mem_cons_self _ _)
  have hnid2 : nid ∉ l2.map Prod.fst :=
    (List.nodup_cons.1 (hmap.of_append_right)).1
  unfold infer_lane_by_di
  rw [List.foldl_append, List.foldl_cons]
  rw [inferStep_fold_other _ _ _ _ _ hnid2]
  have hmid : aget? (l1.foldl (inferStep lane_name lane_bounds) node_lane) nid = none := by
    rw [inferStep_fold_other _ _ _ _ _ hnid1]
    exact hnone
  rw [inferStep_none lane_name lane_bounds _ (nid, rect) hmid]
  show aget? (match inferOne lane_name lane_bounds rect with
    | some name => aset (l1.foldl (inferStep lane_name lane_bounds) node_lane) nid name
    | none => l1.foldl (inferStep lane_name lane_bounds) node_lane) nid =
      inferOne lane_name lane_bounds rect
  cases hio : inferOne lane_name lane_bounds rect with
  | none => exact hmid
  | some name => exact aget?_aset_self _ _ _

/-- C8: for every node without an explicit lane (`flowNodeRef`) but with a
known diagram rectangle: explicit assignments are never overwritten and the
node receives exactly the per-node inference result; if some lane rectangle
positively intersects the node's, a lane of maximal intersection area is
chosen, ties broken by smaller lane area, and the name is suffixed
" (ambiguo)" exactly when more than one lane attains the maximal
intersection; if no lane intersects, a smallest-area lane containing the
node's centre is chosen, suffixed " (ambiguo)" exactly when more than one
lane contains the centre; if no lane qualifies, none is assigned. -/
theorem c8_lane_inference (nodes : List (String × BNode))
    (node_lane lane_name : List (String × String))
    (node_bounds lane_bounds : List (String × Rect))
    (nid : String) (rect : Rect)
    (hnodup : (node_bounds.map Prod.fst).Nodup)
    (hmem : (nid, rect) ∈ node_bounds)
    (hnone : aget? node_lane nid = none) :
    (∀ k v, aget? node_lane k = some v →
      aget? (infer_lane_by_di nodes node_lane lane_name node_bounds lane_bounds) k =
        some v) ∧
    aget? (infer_lane_by_di nodes node_lane lane_name node_bounds lane_bounds) nid =
      inferOne lane_name lane_bounds rect ∧
    ((∃ lb ∈ lane_bounds, rect_intersection_area rect lb.2 > 0) →
      ∃ lb ∈ lane_bounds,
        rect_intersection_area rect lb.2 > 0 ∧
        (∀ lb' ∈ lane_bounds,
          rect_intersection_area rect lb'.2 ≤ rect_intersection_area rect lb.2) ∧
        (∀ lb' ∈ lane_bounds,
          rect_intersection_area rect lb'.2 = rect_intersection_area rect lb.2 →
          lb.2.w * lb.2.h ≤ lb'.2.w * lb'.2.h) ∧
        inferOne lane_name lane_bounds rect =
          some (if lane_bounds.countP (fun lb' =>
              rect_intersection_area rect lb'.2 = rect_intersection_area rect lb.2) > 1
            then agetD lane_name lb.1 "(ator nao identificado)" ++ " (ambiguo)"
            else agetD lane_name lb.1 "(ator nao identificado)")) ∧
    ((∀ lb ∈ lane_bounds, ¬ rect_intersection_area rect lb.2 > 0) →
      ((∃ lb ∈ lane_bounds, rect_contains lb.2 (centreX rect) (centreY rect) = true) →
        ∃ lb ∈ lane_bounds,
          rect_contains lb.2 (centreX rect) (centreY rect) = true ∧
          (∀ lb' ∈ lane_bounds,
            rect_contains lb'.2 (centreX rect) (centreY rect) = true →
            lb.2.w * lb.2.h ≤ lb'.2.w * lb'.2.h) ∧
          inferOne lane_name lane_bounds rect =
            some (if lane_bounds.countP (fun lb' =>
                rect_contains lb'.2 (centreX rect) (centreY rect)) > 1
              then agetD lane_name lb.1 "(ator nao identificado)" ++ " (ambiguo)"
              else agetD lane_name lb.1 "(ator nao identificado)")) ∧
      ((∀ lb ∈ lane_bounds,
          ¬ rect_contains lb.2 (centreX rect) (centreY rect) = true) →
        inferOne lane_name lane_bounds rect = none)) := by
  refine ⟨?_, infer_lane_value nodes node_lane lane_name node_bounds lane_bounds
      nid rect hnodup hmem hnone,
    fun hpos => inferOne_intersection lane_name lane_bounds rect hpos,
    fun hneg => ⟨fun hcont => inferOne_containment lane_name lane_bounds rect hneg hcont,
      fun hnc => inferOne_unassigned lane_name lane_bounds rect hneg hnc⟩⟩
  intro k v h
  unfold infer_lane_by_di
  exact inferStep_fold_preserves lane_name lane_bounds k v node_bounds node_lane h

theorem c8_lane_inference_witness :
    (∀ k v, aget? exNodeLane8 k = some v →
      aget? (infer_lane_by_di [] exNodeLane8 exLaneName8 exNodeBounds8 exLaneBounds8) k =
        some v) ∧
    aget? (infer_lane_by_di [] exNodeLane8 exLaneName8 exNodeBounds8 exLaneBounds8) "n1" =
      inferOne exLaneName8 exLaneBounds8 rect8 ∧
    ((∃ lb ∈ exLaneBounds8, rect_intersection_area rect8 lb.2 > 0) →
      ∃ lb ∈ exLaneBounds8,
        rect_intersection_area rect8 lb.2 > 0 ∧
        (∀ lb' ∈ exLaneBounds8,
          rect_intersection_area rect8 lb'.2 ≤ rect_intersection_area rect8 lb.2) ∧
        (∀ lb' ∈ exLaneBounds8,
          rect_intersection_area rect8 lb'.2 = rect_intersection_area rect8 lb.2 →
          lb.2.w * lb.2.h ≤ lb'.2.w * lb'.2.h) ∧
        inferOne exLaneName8 exLaneBounds8 rect8 =
          some (if exLaneBounds8.countP (fun lb' =>
              rect_intersection_area rect8 lb'.2 = rect_intersection_area rect8 lb.2) > 1
            then agetD exLaneName8 lb.1 "(ator nao identificado)" ++ " (ambiguo)"
            else agetD exLaneName8 lb.1 "(ator nao identificado)")) ∧
    ((∀ lb ∈ exLaneBounds8, ¬ rect_intersection_area rect8 lb.2 > 0) →
      ((∃ lb ∈ exLaneBounds8,
          rect_contains lb.2 (centreX rect8) (centreY rect8) = true) →
        ∃ lb ∈ exLaneBounds8,
          rect_contains lb.2 (centreX rect8) (centreY rect8) = true ∧
          (∀ lb' ∈ exLaneBounds8,
            rect_contains lb'.2 (centreX rect8) (centreY rect8) = true →
            lb.2.w * lb.2.h ≤ lb'.2.w * lb'.2.h) ∧
          inferOne exLaneName8 exLaneBounds8 rect8 =
            some (if exLaneBounds8.countP (fun lb' =>
                rect_contains lb'.2 (centreX rect8) (centreY rect8)) > 1
              then agetD exLaneName8 lb.1 "(ator nao identificado)" ++ " (ambiguo)"
              else agetD exLaneName8 lb.1 "(ator nao identificado)")) ∧
      ((∀ lb ∈ exLaneBounds8,
          ¬ rect_contains lb.2 (centreX rect8) (centreY rect8) = true) →
        inferOne exLaneName8 exLaneBounds8 rect8 = none)) :=
  c8_lane_inference [] exNodeLane8 exLaneName8 exNodeBounds8 exLaneBounds8
    "n1" rect8 (by decide) (by decide) (by decide)

theorem dropLast_append_getLastD :
    ∀ v : List Nat, v ≠ [] → v.dropLast ++ [v.getLastD 0] = v
  | [], h => absurd rfl h
  | [_], _ => rfl
  | a :: b :: t, _ => by
      have ih := dropLast_append_getLastD (b :: t) (by simp)
      show a :: ((b :: t).dropLast ++ [(b :: t).getLastD 0]) = a :: b :: t
      rw [ih]

theorem inRegion_self (v : List Nat) (hv : v ≠ []) : inRegion v v :=
  ⟨0, [], by rw [Nat.add_zero]; exact (dropLast_append_getLastD v hv).symm⟩

theorem nextNumber_ne_nil (v : List Nat) : nextNumber v ≠ [] := by
  unfold nextNumber
  simp

theorem nextNumber_dropLast (v : List Nat) :
    (nextNumber v).dropLast = v.dropLast := by
  unfold nextNumber
  rw [List.dropLast_concat]

theorem nextNumber_getLastD (v : List Nat) :
    (nextNumber v).getLastD 0 = v.getLastD 0 + 1 := by
  unfold nextNumber
  rw [List.getLastD_concat]

theorem inRegion_next_sub (v w : List Nat) (h : inRegion (nextNumber v) w) :
    inRegion v w := by
  obtain ⟨k, rest, hw⟩ := h
  rw [nextNumber_dropLast, nextNumber_getLastD] at hw
  exact ⟨1 + k, rest, by rw [hw, Nat.add_assoc]⟩

theorem not_inRegion_next_self (v : List Nat) : ¬ inRegion (nextNumber v) v := by
  intro h
  obtain ⟨k, rest, hw⟩ := h
  rw [nextNumber_dropLast, nextNumber_getLastD] at hw
  by_cases hv : v = []
  · subst hv
    exact absurd hw (by simp)
  · have hsplit := dropLast_append_getLastD v hv
    have hw' : v.dropLast ++ [v.getLastD 0] =
        v.dropLast ++ (v.getLastD 0 + 1 + k) :: rest := hsplit.trans hw
    have h2 := List.append_cancel_left hw'
    injection h2 with h0 _
    omega

theorem inRegion_child_branch (v : List Nat) (c k : Nat) (w : List Nat)
    (h : inRegion (v ++ [c, 1]) w) : branchRegion v c w := by
  obtain ⟨k', rest, hw⟩ := h
  have h1 : (v ++ [c, 1]).dropLast = v ++ [c] := by
    rw [show v ++ [c, 1] = (v ++ [c]) ++ [1] by simp, List.dropLast_concat]
  have h2 : (v ++ [c, 1]).getLastD 0 = 1 := by
    rw [show v ++ [c, 1] = (v ++ [c]) ++ [1] by simp, List.getLastD_concat]
  rw [h1, h2] at hw
  exact ⟨c, (1 + k') :: rest, le_refl _, by simp, by rw [hw]; simp⟩

theorem branchRegion_sub_inRegion (v : List Nat) (hv : v ≠ []) (c0 : Nat)
    (w : List Nat) (h : branchRegion v c0 w) : inRegion v w := by
  obtain ⟨c, rest, _, _, hw⟩ := h
  refine ⟨0, c :: rest, ?_⟩
  rw [Nat.add_zero, hw, ← dropLast_append_getLastD v hv]
  simp

theorem branchRegion_mono (v : List Nat) (c1 c2 : Nat) (h : c1 ≤ c2)
    (w : List Nat) (hw : branchRegion v c2 w) : branchRegion v c1 w := by
  obtain ⟨c, rest, hc, hr, he⟩ := hw
  exact ⟨c, rest, le_trans h hc, hr, he⟩

theorem not_branchRegion_self (v : List Nat) (c0 : Nat) :
    ¬ branchRegion v c0 v := by
  intro h
  obtain ⟨c, rest, _, _, hw⟩ := h
  have := congrArg List.length hw
  simp at this

theorem branch_regions_disjoint (v : List Nat) (c c' : Nat) (h : c < c')
    (w w' : List Nat) (h1 : inRegion (v ++ [c, 1]) w)
    (h2 : branchRegion v c' w') : w ≠ w' := by
  intro he
  obtain ⟨k, rest, hw1⟩ := h1
  have hd : (v ++ [c, 1]).dropLast = v ++ [c] := by
    rw [show v ++ [c, 1] = (v ++ [c]) ++ [1] by simp, List.dropLast_concat]
  have hg : (v ++ [c, 1]).getLastD 0 = 1 := by
    rw [show v ++ [c, 1] = (v ++ [c]) ++ [1] by simp, List.getLastD_concat]
  rw [hd, hg] at hw1
  obtain ⟨c2, rest2, hc2, _, hw2⟩ := h2
  rw [he, hw2] at hw1
  rw [List.append_assoc] at hw1
  have h3 : c2 :: rest2 = c :: (1 + k) :: rest := by
    simpa using List.append_cancel_left hw1
  injection h3 with hcc _
  omega

theorem not_inRegion_of_ne_region {v w : List Nat}
    (hme : inRegion (nextNumber v) w) : w ≠ v := by
  intro he
  exact not_inRegion_next_self v (he ▸ hme)

theorem not_mem_keys_of_aget?_none {K V : Type} [DecidableEq K]
    {m : List (K × V)} {k : K} (h : aget? m k = none) :
    k ∉ m.map Prod.fst := by
  intro hc
  obtain ⟨⟨k', v⟩, hmem, hfst⟩ := List.mem_map.1 hc
  exact (aget?_eq_none_iff m k).1 h v (show (k, v) ∈ m from hfst ▸ hmem)

theorem silentCond_silent (g : Graph) (id : String) (node : BNode)
    (hn : aget? g.nodes id = some node) (h : silentCond g id node = true) :
    silent_convergence g id = true := by
  unfold silentCond is_par_conv at h
  unfold silent_convergence
  rw [hn]
  simp only [Bool.and_eq_true] at h
  obtain ⟨⟨hconv, _⟩, h3⟩ := h
  have hconv' := hconv
  unfold is_conv is_div outsOf at hconv'
  simp only [Bool.and_eq_true] at hconv'
  obtain ⟨⟨⟨hgw, hinc⟩, hlen1⟩, _⟩ := hconv'
  have hp : decide (node.kind = "parallelGateway") = false := by
    have h3' : is_conv g id node = false ∨ ¬ node.kind = "parallelGateway" := by
      simpa using h3
    rcases h3' with hc | hp'
    · exact absurd (hconv.symm.trans hc) (by decide)
    · exact decide_eq_false hp'
  show (pyStartsWith node.type "Gateway"
    && decide ((agetD g.incoming (some id) []).length > 1)
    && decide ((agetD g.outgoing (some id) []).length = 1)
    && !(decide (node.kind = "parallelGateway"))) = true
  rw [hgw, hinc, hlen1, hp]
  rfl

theorem divBstate_other (bstate : List (String × Nat)) (id k : String)
    (h : id ≠ k) : aget? (divBstate bstate id) k = aget? bstate k := by
  unfold divBstate
  by_cases hs : (aget? bstate id).isSome = true
  · rw [if_pos hs]
  · rw [if_neg hs]
    exact aget?_aset_ne _ _ _ _ h

theorem branchBstate2_gw_ge (gwId : String) (numbering : List Nat)
    (res : WalkRes) (c : Nat) (h : aget? res.bstate gwId = some c) :
    c ≤ agetD (branchBstate2 gwId numbering res) gwId 1 := by
  unfold branchBstate2
  by_cases hlen : numbering.length < res.last.length
  · rw [if_pos hlen]
    unfold agetD
    rw [aget?_aset_self]
    simp only [Option.getD_some]
    rw [h]
    simp only [Option.getD_some]
    exact le_max_left _ _
  · rw [if_neg hlen]
    unfold agetD
    rw [h]
    simp only [Option.getD_some]
    exact le_refl _

theorem branchBstate2_other (gwId : String) (numbering : List Nat)
    (res : WalkRes) (k : String) (h : gwId ≠ k) :
    aget? (branchBstate2 gwId numbering res) k = aget? res.bstate k := by
  unfold branchBstate2
  by_cases hlen : numbering.length < res.last.length
  · rw [if_pos hlen]
    exact aget?_aset_ne _ _ _ _ h
  · rw [if_neg hlen]

theorem walkBranches_nil
    (wchild : Option String → List Nat → List (String × NumEntry) →
      List (String × Nat) → WalkRes)
    (g : Graph) (gwId : String) (node : BNode) (numbering : List Nat)
    (indent : String) (bidx : Nat) (nmap : List (String × NumEntry))
    (bstate : List (String × Nat)) (lastUsed : List Nat) :
    walkBranches wchild g gwId node numbering indent [] bidx nmap bstate lastUsed =
      ⟨[], lastUsed, nmap, bstate⟩ := rfl

theorem walkBranches_cons_nmap
    (wchild : Option String → List Nat → List (String × NumEntry) →
      List (String × Nat) → WalkRes)
    (g : Graph) (gwId : String) (node : BNode) (numbering : List Nat)
    (indent : String) (flow_id : String) (rest : List String) (bidx : Nat)
    (nmap : List (String × NumEntry)) (bstate : List (String × Nat))
    (lastUsed : List Nat) :
    (walkBranches wchild g gwId node numbering indent (flow_id :: rest) bidx
        nmap bstate lastUsed).nmap =
      (walkBranches wchild g gwId node numbering indent rest (bidx + 1)
        (wchild (agetD g.flows flow_id defaultFlow).target
          (numbering ++ [agetD bstate gwId 1, 1]) nmap
          (aset bstate gwId (agetD bstate gwId 1 + 1))).nmap
        (branchBstate2 gwId numbering
          (wchild (agetD g.flows flow_id defaultFlow).target
            (numbering ++ [agetD bstate gwId 1, 1]) nmap
            (aset bstate gwId (agetD bstate gwId 1 + 1))))
        (wchild (agetD g.flows flow_id defaultFlow).target
          (numbering ++ [agetD bstate gwId 1, 1]) nmap
          (aset bstate gwId (agetD bstate gwId 1 + 1))).last).nmap := rfl

theorem walkBranches_cons_bstate
    (wchild : Option String → List Nat → List (String × NumEntry) →
      List (String × Nat) → WalkRes)
    (g : Graph) (gwId : String) (node : BNode) (numbering : List Nat)
    (indent : String) (flow_id : String) (rest : List String) (bidx : Nat)
    (nmap : List (String × NumEntry)) (bstate : List (String × Nat))
    (lastUsed : List Nat) :
    (walkBranches wchild g gwId node numbering indent (flow_id :: rest) bidx
        nmap bstate lastUsed).bstate =
      (walkBranches wchild g gwId node numbering indent rest (bidx + 1)
        (wchild (agetD g.flows flow_id defaultFlow).target
          (numbering ++ [agetD bstate gwId 1, 1]) nmap
          (aset bstate gwId (agetD bstate gwId 1 + 1))).nmap
        (branchBstate2 gwId numbering
          (wchild (agetD g.flows flow_id defaultFlow).target
            (numbering ++ [agetD bstate gwId 1, 1]) nmap
            (aset bstate gwId (agetD bstate gwId 1 + 1))))
        (wchild (agetD g.flows flow_id defaultFlow).target
          (numbering ++ [agetD bstate gwId 1, 1]) nmap
          (aset bstate gwId (agetD bstate gwId 1 + 1))).last).bstate := rfl

/-- The sequential-step numbering strictly increases lexicographically. -/
theorem compare_parts_next : ∀ v : List Nat, compare_parts v (nextNumber v) < 0
  | [] => by decide
  | [a] => by
      show compare_parts [a] ([] ++ [a + 1]) < 0
      show compare_parts [a] [a + 1] < 0
      unfold compare_parts
      rw [if_pos (Nat.lt_succ_self a)]
      decide
  | a :: b :: t => by
      have ih := compare_parts_next (b :: t)
      show compare_parts (a :: b :: t) (a :: nextNumber (b :: t)) < 0
      unfold compare_parts
      rw [if_neg (lt_irrefl a), if_neg (lt_irrefl a)]
      exact ih

theorem walkBranches_inv (g : Graph) (gwId : String) (node : BNode)
    (v : List Nat) (indent : String)
    (wchild : Option String → List Nat → List (String × NumEntry) →
      List (String × Nat) → WalkRes)
    (hchild : ∀ nid' v' nmap' bstate', v' ≠ [] → (nmap'.map Prod.fst).Nodup →
      WalkNew g v' nmap' (wchild nid' v' nmap' bstate') bstate')
    (hv : v ≠ []) :
    ∀ (outs : List String) (bidx : Nat) (nmap : List (String × NumEntry))
      (bstate : List (String × Nat)) (lastUsed : List Nat),
      gwId ∈ nmap.map Prod.fst → (nmap.map Prod.fst).Nodup →
      ∃ new,
        (walkBranches wchild g gwId node v indent outs bidx nmap bstate
          lastUsed).nmap = nmap ++ new ∧
        (∀ e ∈ new, branchRegion v (agetD bstate gwId 1) e.2.parts ∧
          e.1 ∉ nmap.map Prod.fst) ∧
        List.Pairwise (goodPair g) new ∧
        ((nmap ++ new).map Prod.fst).Nodup ∧
        (∀ k ∈ nmap.map Prod.fst, k ≠ gwId →
          aget? (walkBranches wchild g gwId node v indent outs bidx nmap bstate
            lastUsed).bstate k = aget? bstate k) := by
  intro outs
  induction outs with
  | nil =>
      intro bidx nmap bstate lastUsed hgw hnodup
      refine ⟨[], ?_, ?_, ?_, ?_, ?_⟩
      · rw [walkBranches_nil]
        simp
      · intro e he
        cases he
      · exact List.Pairwise.nil
      · simpa using hnodup
      · intro k _ _
        rw [walkBranches_nil]
  | cons flow_id rest ih =>
      intro bidx nmap bstate lastUsed hgw hnodup
      rw [walkBranches_cons_nmap, walkBranches_cons_bstate]
      obtain ⟨cNew, hCn, hCe, hCp, hCd, hCb⟩ :=
        hchild ((agetD g.flows flow_id defaultFlow).target)
          (v ++ [agetD bstate gwId 1, 1]) nmap
          (aset bstate gwId (agetD bstate gwId 1 + 1)) (by simp) hnodup
      set R := wchild ((agetD g.flows flow_id defaultFlow).target)
        (v ++ [agetD bstate gwId 1, 1]) nmap
        (aset bstate gwId (agetD bstate gwId 1 + 1)) with hRdef
      have hgw' : gwId ∈ R.nmap.map Prod.fst := by
        rw [hCn, List.map_append]
        exact List.mem_append_left _ hgw
      have hnodup' : (R.nmap.map Prod.fst).Nodup := by
        rw [hCn]
        exact hCd
      obtain ⟨rNew, hRn, hRe, hRp, hRd, hRb⟩ :=
        ih (bidx + 1) R.nmap (branchBstate2 gwId v R) R.last hgw' hnodup'
      have hcg : aget? R.bstate gwId = some (agetD bstate gwId 1 + 1) := by
        rw [hCb gwId hgw]
        exact aget?_aset_self _ _ _
      have hge : agetD bstate gwId 1 + 1 ≤ agetD (branchBstate2 gwId v R) gwId 1 :=
        branchBstate2_gw_ge gwId v R _ hcg
      refine ⟨cNew ++ rNew, ?_, ?_, ?_, ?_, ?_⟩
      · rw [hRn, hCn, List.append_assoc]
      · intro e he
        rcases List.mem_append.1 he with hc | hr
        · obtain ⟨hreg, hfresh⟩ := hCe e hc
          exact ⟨inRegion_child_branch v _ 0 _ hreg, hfresh⟩
        · obtain ⟨hreg, hfresh⟩ := hRe e hr
          refine ⟨branchRegion_mono v _ _ (le_trans (Nat.le_succ _) hge) _ hreg, ?_⟩
          intro hc
          exact hfresh (by
            rw [hCn, List.map_append]
            exact List.mem_append_left _ hc)
      · rw [List.pairwise_append]
        refine ⟨hCp, hRp, ?_⟩
        intro a ha b hb
        refine ⟨?_, fun _ _ => ?_⟩
        · intro hceq
          exact (hRe b hb).2 (by
            rw [hCn, List.map_append]
            exact List.mem_append_right _
              (hceq ▸ List.mem_map_of_mem Prod.fst ha))
        · exact branch_regions_disjoint v (agetD bstate gwId 1)
            (agetD bstate gwId 1 + 1) (Nat.lt_succ_self _) _ _ (hCe a ha).1
            (branchRegion_mono v _ _ hge _ (hRe b hb).1)
      · rw [← List.append_assoc, ← hCn]
        exact hRd
      · intro k hk hkgw
        rw [hRb k (by
          rw [hCn, List.map_append]
          exact List.mem_append_left _ hk) hkgw]
        rw [branchBstate2_other gwId v R k (fun hc => hkgw hc.symm)]
        rw [hCb k hk]
        exact aget?_aset_ne _ _ _ _ (fun hc => hkgw hc.symm)

theorem walkCommit_inv (g : Graph) (id : String) (node : BNode)
    (v : List Nat) (nmap : List (String × NumEntry))
    (bstate : List (String × Nat))
    (wchild : Option String → List Nat → List (String × NumEntry) →
      List (String × Nat) → WalkRes)
    (hchild : ∀ nid' v' nmap' bstate', v' ≠ [] → (nmap'.map Prod.fst).Nodup →
      WalkNew g v' nmap' (wchild nid' v' nmap' bstate') bstate')
    (hv : v ≠ []) (hnodup : (nmap.map Prod.fst).Nodup)
    (hnode : aget? g.nodes id = some node)
    (hfresh : aget? nmap id = none) :
    WalkNew g v nmap (walkCommit wchild g id node v nmap bstate) bstate := by
  have hfreshk : id ∉ nmap.map Prod.fst := not_mem_keys_of_aget?_none hfresh
  have hset : aset nmap id ⟨format_number v, v⟩ =
      nmap ++ [(id, (⟨format_number v, v⟩ : NumEntry))] :=
    aset_fresh_append _ _ _ hfresh
  have hnodup' : ((aset nmap id ⟨format_number v, v⟩).map Prod.fst).Nodup :=
    aset_keys_nodup _ _ _ hnodup
  have hmemid : id ∈ (aset nmap id ⟨format_number v, v⟩).map Prod.fst := by
    rw [hset]
    simp
  unfold walkCommit
  by_cases hsil : silentCond g id node = true
  · rw [if_pos hsil]
    have hsilc := silentCond_silent g id node hnode hsil
    obtain ⟨cNew, hCn, hCe, hCp, hCd, hCb⟩ :=
      hchild (seqNext g id) v (aset nmap id ⟨format_number v, v⟩) bstate hv hnodup'
    refine ⟨(id, ⟨format_number v, v⟩) :: cNew, ?_, ?_, ?_, ?_, ?_⟩
    · rw [hCn, hset, List.append_assoc]
      rfl
    · intro e he
      rcases List.mem_cons.1 he with rfl | hc
      · exact ⟨inRegion_self v hv, hfreshk⟩
      · obtain ⟨hreg, hf⟩ := hCe e hc
        refine ⟨hreg, fun hmem => hf ?_⟩
        rw [hset, List.map_append]
        exact List.mem_append_left _ hmem
    · refine List.pairwise_cons.2 ⟨?_, hCp⟩
      intro b hb
      refine ⟨?_, fun hf _ => absurd (hsilc.symm.trans hf) (by decide)⟩
      intro hceq
      exact (hCe b hb).2 (hceq ▸ hmemid)
    · rw [show nmap ++ ((id, (⟨format_number v, v⟩ : NumEntry)) :: cNew) =
        (nmap ++ [(id, (⟨format_number v, v⟩ : NumEntry))]) ++ cNew by simp,
        ← hset]
      exact hCd
    · intro k hk
      refine hCb k ?_
      rw [hset, List.map_append]
      exact List.mem_append_left _ hk
  · rw [if_neg hsil]
    by_cases hdiv : is_div g id node = true
    · rw [if_pos hdiv]
      simp only []
      obtain ⟨lNew, hLn, hLe, hLp, hLd, hLb⟩ :=
        walkBranches_inv g id node v (spaces4 (v.length - 1)) wchild hchild hv
          (outsOf g id) 1 (aset nmap id ⟨format_number v, v⟩)
          (divBstate bstate id) v hmemid hnodup'
      refine ⟨(id, ⟨format_number v, v⟩) :: lNew, ?_, ?_, ?_, ?_, ?_⟩
      · show (walkBranches wchild g id node v (spaces4 (v.length - 1))
            (outsOf g id) 1 (aset nmap id ⟨format_number v, v⟩)
            (divBstate bstate id) v).nmap = _
        rw [hLn, hset, List.append_assoc]
        rfl
      · intro e he
        rcases List.mem_cons.1 he with rfl | hc
        · exact ⟨inRegion_self v hv, hfreshk⟩
        · obtain ⟨hreg, hf⟩ := hLe e hc
          refine ⟨branchRegion_sub_inRegion v hv _ _ hreg, fun hmem => hf ?_⟩
          rw [hset, List.map_append]
          exact List.mem_append_left _ hmem
      · refine List.pairwise_cons.2 ⟨?_, hLp⟩
        intro b hb
        refine ⟨?_, fun _ _ => ?_⟩
        · intro hceq
          exact (hLe b hb).2 (hceq ▸ hmemid)
        · intro heq
          have hbre := (hLe b hb).1
          rw [← heq] at hbre
          exact not_branchRegion_self v _ hbre
      · rw [show nmap ++ ((id, (⟨format_number v, v⟩ : NumEntry)) :: lNew) =
          (nmap ++ [(id, (⟨format_number v, v⟩ : NumEntry))]) ++ lNew by simp,
          ← hset]
        exact hLd
      · intro k hk
        show aget? (walkBranches wchild g id node v (spaces4 (v.length - 1))
            (outsOf g id) 1 (aset nmap id ⟨format_number v, v⟩)
            (divBstate bstate id) v).bstate k = aget? bstate k
        have hkne : k ≠ id := fun hc => hfreshk (hc ▸ hk)
        rw [hLb k (by
          rw [hset, List.map_append]
          exact List.mem_append_left _ hk) hkne]
        exact divBstate_other bstate id k (fun hc => hkne hc.symm)
    · rw [if_neg hdiv]
      by_cases hlen : (outsOf g id).length = 1
      · rw [if_pos hlen]
        simp only []
        obtain ⟨cNew, hCn, hCe, hCp, hCd, hCb⟩ :=
          hchild (seqNext g id) (nextNumber v)
            (aset nmap id ⟨format_number v, v⟩) bstate
            (nextNumber_ne_nil v) hnodup'
        refine ⟨(id, ⟨format_number v, v⟩) :: cNew, ?_, ?_, ?_, ?_, ?_⟩
        · show (wchild (seqNext g id) (nextNumber v)
              (aset nmap id ⟨format_number v, v⟩) bstate).nmap = _
          rw [hCn, hset, List.append_assoc]
          rfl
        · intro e he
          rcases List.mem_cons.1 he with rfl | hc
          · exact ⟨inRegion_self v hv, hfreshk⟩
          · obtain ⟨hreg, hf⟩ := hCe e hc
            refine ⟨inRegion_next_sub v _ hreg, fun hmem => hf ?_⟩
            rw [hset, List.map_append]
            exact List.mem_append_left _ hmem
        · refine List.pairwise_cons.2 ⟨?_, hCp⟩
          intro b hb
          refine ⟨?_, fun _ _ => ?_⟩
          · intro hceq
            exact (hCe b hb).2 (hceq ▸ hmemid)
          · exact (not_inRegion_of_ne_region (hCe b hb).1).symm
        · rw [show nmap ++ ((id, (⟨format_number v, v⟩ : NumEntry)) :: cNew) =
            (nmap ++ [(id, (⟨format_number v, v⟩ : NumEntry))]) ++ cNew by simp,
            ← hset]
          exact hCd
        · intro k hk
          show aget? (wchild (seqNext g id) (nextNumber v)
              (aset nmap id ⟨format_number v, v⟩) bstate).bstate k = aget? bstate k
          refine hCb k ?_
          rw [hset, List.map_append]
          exact List.mem_append_left _ hk
      · rw [if_neg hlen]
        refine ⟨[(id, ⟨format_number v, v⟩)], ?_, ?_, ?_, ?_, ?_⟩
        · show aset nmap id ⟨format_number v, v⟩ = _
          exact hset
        · intro e he
          rcases List.mem_cons.1 he with rfl | hc
          · exact ⟨inRegion_self v hv, hfreshk⟩
          · cases hc
        · exact List.pairwise_cons.2 ⟨fun b hb => absurd hb (List.not_mem_nil b),
            List.Pairwise.nil⟩
        · rw [← hset]
          exact hnodup'
        · intro k _
          rfl

theorem WalkNew_refl (g : Graph) (v : List Nat)
    (nmap : List (String × NumEntry)) (bstate : List (String × Nat))
    (lines : List String) (last : List Nat)
    (hnodup : (nmap.map Prod.fst).Nodup) :
    WalkNew g v nmap ⟨lines, last, nmap, bstate⟩ bstate :=
  ⟨[], by simp, fun e he => absurd he (List.not_mem_nil e), List.Pairwise.nil,
    by simpa using hnodup, fun k _ => rfl⟩

theorem walkF_succ_some (fuel : Nat) (g : Graph) (id : String) (v : List Nat)
    (path : List String) (nmap : List (String × NumEntry))
    (bstate : List (String × Nat)) :
    walkF (fuel + 1) g (some id) v path nmap bstate =
      match aget? g.nodes id with
      | none => ⟨[], v, nmap, bstate⟩
      | some node =>
        if node.type = "Elemento" then ⟨[], v, nmap, bstate⟩
        else
          match aget? nmap id with
          | some prev =>
              ⟨[spaces4 (v.length - 1) ++ "(" ++
                  (if compare_parts prev.parts v < 0 then "retorna para"
                   else if compare_parts prev.parts v > 0 then "avança para"
                   else "referência") ++ " " ++ prev.num_str ++ ")"],
                v, nmap, bstate⟩
          | none =>
            if id ∈ path then
              ⟨[spaces4 (v.length - 1) ++ "(loop em " ++ format_number v ++ ")"],
                v, nmap, bstate⟩
            else
              walkCommit (fun c n m b => walkF fuel g c n (path ++ [id]) m b)
                g id node v nmap bstate := rfl

/-- The walker's invariant, by induction on the recursion budget: every
walk only appends fresh, in-region, pairwise-distinct `number_map` entries
and leaves already-numbered branch state alone. -/
theorem walkF_inv (g : Graph) :
    ∀ (fuel : Nat) (nid : Option String) (v : List Nat) (path : List String)
      (nmap : List (String × NumEntry)) (bstate : List (String × Nat)),
      v ≠ [] → (nmap.map Prod.fst).Nodup →
      WalkNew g v nmap (walkF fuel g nid v path nmap bstate) bstate := by
  intro fuel
  induction fuel with
  | zero =>
      intro nid v path nmap bstate hv hnodup
      exact WalkNew_refl g v nmap bstate [] v hnodup
  | succ fuel ih =>
      intro nid v path nmap bstate hv hnodup
      cases nid with
      | none => exact WalkNew_refl g v nmap bstate [] v hnodup
      | some id =>
          rw [walkF_succ_some]
          split
          · exact WalkNew_refl g v nmap bstate [] v hnodup
          · rename_i node hn
            split
            · exact WalkNew_refl g v nmap bstate [] v hnodup
            · split
              · rename_i prev hprev
                exact WalkNew_refl g v nmap bstate _ v hnodup
              · rename_i hfresh
                split
                · exact WalkNew_refl g v nmap bstate _ v hnodup
                · exact walkCommit_inv g id node v nmap bstate
                    (fun c n m b => walkF fuel g c n (path ++ [id]) m b)
                    (fun nid' v' nmap' bstate' hv' hn' =>
                      ih nid' v' (path ++ [id]) nmap' bstate' hv' hn')
                    hv hnodup hn hfresh

/-- C7 (amended): within a single traversal no two nodes record the same
dotted-decimal number — `number_map` entries are pairwise distinct — except
that a silently skipped converging gateway (more than one incoming, exactly
one outgoing, not parallel) may share its recorded number with the node its
walk continues into; and the numbering handed to a sequential successor
strictly increases lexicographically. -/
theorem c7_numbering_unique (g : Graph) (s : String) (i : Nat) :
    List.Pairwise (goodPair g) (walk g (some s) [i] [] [] []).nmap ∧
    ∀ v : List Nat, compare_parts v (nextNumber v) < 0 := by
  constructor
  · obtain ⟨new, hn, _, hp, _, _⟩ :=
      walkF_inv g (fuelFor g []) (some s) [i] [] [] [] (by simp) (by simp)
    show List.Pairwise (goodPair g)
      (walkF (fuelFor g []) g (some s) [i] [] [] []).nmap
    rw [hn]
    simpa using hp
  · exact compare_parts_next

theorem fcnT_empty : firstCharNotT "" := by
  intro c hc
  simp at hc

theorem fcnT_of_head (s : String) (c0 : Char) (h : s.data.head? = some c0)
    (hne : c0 ≠ 'T') : firstCharNotT s := by
  intro c hc
  rw [h] at hc
  injection hc with h2
  subst h2
  exact hne

theorem all_chars_fcnT (s : String) (h : ∀ c ∈ s.data, c ≠ 'T') :
    firstCharNotT s := by
  intro c hc
  exact h c (List.mem_of_mem_head? hc)

theorem noTitulo_of_fcnT (s : String) (h : firstCharNotT s) :
    pyStartsWith s "Titulo: " = false := by
  unfold pyStartsWith
  cases hd : s.data with
  | nil => rfl
  | cons c cs =>
      have hne : c ≠ 'T' := h c (by rw [hd]; rfl)
      show (('T' == c) && listPrefix "itulo: ".data cs) = false
      rw [show ('T' == c) = false from beq_eq_false_iff_ne.2 (fun hc => hne hc.symm)]
      rfl

theorem fcnT_append (a b : String) (ha : firstCharNotT a) (hb : firstCharNotT b) :
    firstCharNotT (a ++ b) := by
  intro c hc
  have hc' : (a.data ++ b.data).head? = some c := hc
  cases had : a.data with
  | nil =>
      rw [had] at hc'
      exact hb c (by simpa using hc')
  | cons x xs =>
      rw [had] at hc'
      simp only [List.cons_append, List.head?_cons] at hc'
      injection hc' with h2
      exact h2 ▸ ha x (by rw [had]; rfl)

theorem fcnT_append_left (a b : String) (ha : a.data ≠ [])
    (h : firstCharNotT a) : firstCharNotT (a ++ b) := by
  intro c hc
  have hc' : (a.data ++ b.data).head? = some c := hc
  cases had : a.data with
  | nil => exact absurd had ha
  | cons x xs =>
      rw [had] at hc'
      simp only [List.cons_append, List.head?_cons] at hc'
      injection hc' with h2
      exact h2 ▸ h x (by rw [had]; rfl)

theorem spaces4_all_spaces (k : Nat) : ∀ c ∈ (spaces4 k).data, c = ' ' := by
  unfold spaces4 String.join
  suffices haux : ∀ (l : List String) (acc : String),
      (∀ s ∈ l, ∀ c ∈ s.data, c = ' ') → (∀ c ∈ acc.data, c = ' ') →
      ∀ c ∈ (l.foldl (fun r s => r ++ s) acc).data, c = ' ' by
    refine haux _ "" ?_ (by intro c hc; simp at hc)
    intro s hs
    rw [List.eq_of_mem_replicate hs]
    decide
  intro l
  induction l with
  | nil => intro acc _ hacc; exact hacc
  | cons x xs ih =>
      intro acc hl hacc
      rw [List.foldl_cons]
      refine ih _ (fun s hs => hl s (List.mem_cons_of_mem _ hs)) ?_
      intro c hc
      rcases List.mem_append.1 hc with h1 | h2
      · exact hacc c h1
      · exact hl x (List.mem_cons_self _ _) c h2

theorem fcnT_spaces4 (k : Nat) : firstCharNotT (spaces4 k) :=
  all_chars_fcnT _ (fun c hc => by rw [spaces4_all_spaces k c hc]; decide)

theorem digitChar_ne_T : ∀ m : Nat, Nat.digitChar m ≠ 'T'
  | 0 | 1 | 2 | 3 | 4 | 5 | 6 | 7 | 8 | 9 | 10 | 11 | 12 | 13 | 14 | 15 => by
      decide
  | n + 16 => by
      have hne : ∀ k, k < 16 → ¬ n + 16 = k := by omega
      unfold Nat.digitChar
      rw [if_neg (hne 0 (by decide)), if_neg (hne 1 (by decide)),
        if_neg (hne 2 (by decide)), if_neg (hne 3 (by decide)),
        if_neg (hne 4 (by decide)), if_neg (hne 5 (by decide)),
        if_neg (hne 6 (by decide)), if_neg (hne 7 (by decide)),
        if_neg (hne 8 (by decide)), if_neg (hne 9 (by decide)),
        if_neg (hne 10 (by decide)), if_neg (hne 11 (by decide)),
        if_neg (hne 12 (by decide)), if_neg (hne 13 (by decide)),
        if_neg (hne 14 (by decide)), if_neg (hne 15 (by decide))]
      decide

theorem toDigitsCore_ne_T :
    ∀ (fuel n : Nat) (ds : List Char), (∀ c ∈ ds, c ≠ 'T') →
      ∀ c ∈ Nat.toDigitsCore 10 fuel n ds, c ≠ 'T' := by
  intro fuel
  induction fuel with
  | zero => intro n ds hds; exact hds
  | succ fuel ih =>
      intro n ds hds c hc
      unfold Nat.toDigitsCore at hc
      have hcons : ∀ c' ∈ Nat.digitChar (n % 10) :: ds, c' ≠ 'T' := by
        intro c' hc'
        rcases List.mem_cons.1 hc' with rfl | hm
        · exact digitChar_ne_T _
        · exact hds c' hm
      by_cases hz : n / 10 = 0
      · rw [if_pos hz] at hc
        exact hcons c hc
      · rw [if_neg hz] at hc
        exact ih _ _ hcons c hc

theorem toString_nat_ne_T (n : Nat) : ∀ c ∈ (toString n).data, c ≠ 'T' := by
  show ∀ c ∈ (Nat.toDigits 10 n), c ≠ 'T'
  exact toDigitsCore_ne_T _ _ [] (fun c hc => absurd hc (List.not_mem_nil c))

theorem fcnT_toString_nat (n : Nat) : firstCharNotT (toString n) :=
  all_chars_fcnT _ (toString_nat_ne_T n)

theorem fcnT_pyJoin (sep : String) (l : List String)
    (hsep : firstCharNotT sep) (hl : ∀ s ∈ l, firstCharNotT s) :
    firstCharNotT (pyJoin sep l) := by
  cases l with
  | nil => exact fcnT_empty
  | cons x xs =>
      show firstCharNotT (xs.foldl (fun acc y => acc ++ sep ++ y) x)
      have haux : ∀ (ys : List String) (acc : String), firstCharNotT acc →
          (∀ s ∈ ys, firstCharNotT s) →
          firstCharNotT (ys.foldl (fun acc y => acc ++ sep ++ y) acc) := by
        intro ys
        induction ys with
        | nil => intro acc hacc _; exact hacc
        | cons y ys ih =>
            intro acc hacc hys
            rw [List.foldl_cons]
            refine ih _ ?_ (fun s hs => hys s (List.mem_cons_of_mem _ hs))
            exact fcnT_append _ _ (fcnT_append _ _ hacc hsep)
              (hys y (List.mem_cons_self _ _))
      exact haux xs x (hl x (List.mem_cons_self _ _))
        (fun s hs => hl s (List.mem_cons_of_mem _ hs))

theorem fcnT_format_number (v : List Nat) : firstCharNotT (format_number v) := by
  unfold format_number
  refine fcnT_pyJoin _ _ (fcnT_of_head _ '.' rfl (by decide)) ?_
  intro s hs
  obtain ⟨n, _, rfl⟩ := List.mem_map.1 hs
  exact fcnT_toString_nat n

theorem append_data_ne_nil_right (a b : String) (hb : b.data ≠ []) :
    (a ++ b).data ≠ [] := by
  show a.data ++ b.data ≠ []
  intro h
  exact hb (List.append_eq_nil.1 h).2

theorem append_data_ne_nil_left (a b : String) (ha : a.data ≠ []) :
    (a ++ b).data ≠ [] := by
  show a.data ++ b.data ≠ []
  intro h
  exact ha (List.append_eq_nil.1 h).1

theorem fcnT_detail (k : Nat) : firstCharNotT (spaces4 k ++ "    ") :=
  fcnT_append _ _ (fcnT_spaces4 k) (fcnT_of_head _ ' ' rfl (by decide))

theorem detail_data_ne_nil (k : Nat) :
    ((spaces4 k ++ "    ") : String).data ≠ [] :=
  append_data_ne_nil_right _ _ (by decide)

theorem fcnT_detail_pre (k : Nat) (s : String) :
    firstCharNotT ((spaces4 k ++ "    ") ++ s) :=
  fcnT_append_left _ _ (detail_data_ne_nil k) (fcnT_detail k)

theorem detail_prefix_ne_nil (k : Nat) (s : String) :
    (((spaces4 k ++ "    ") ++ s) : String).data ≠ [] :=
  append_data_ne_nil_left _ _ (detail_data_ne_nil k)

/-- No line a committed node emits can start with `"Titulo: "`: each starts
with indentation, a dotted number, or a fixed marker. -/
theorem nodeLines_fcnT (g : Graph) (id : String) (node : BNode)
    (numbering : List Nat) (ipc : Bool) :
    ∀ l ∈ nodeLines g id node numbering ipc, firstCharNotT l := by
  intro l hl
  unfold nodeLines at hl
  simp only [] at hl
  rcases List.mem_append.1 hl with h123 | h4
  · rcases List.mem_append.1 h123 with h12 | h3
    · rcases List.mem_append.1 h12 with h1 | h2
      · rw [List.mem_singleton] at h1
        subst h1
        exact fcnT_append_left _ _ (append_data_ne_nil_right _ _ (by decide))
          (fcnT_append _ _
            (fcnT_append _ _ (fcnT_spaces4 _) (fcnT_format_number _))
            (fcnT_of_head _ '.' rfl (by decide)))
      · split at h2
        · rw [List.mem_singleton] at h2
          subst h2
          exact fcnT_append_left _ _
            (append_data_ne_nil_left _ _
              (append_data_ne_nil_left _ _ (detail_prefix_ne_nil _ _)))
            (fcnT_append_left _ _
              (append_data_ne_nil_left _ _ (detail_prefix_ne_nil _ _))
              (fcnT_append_left _ _ (detail_prefix_ne_nil _ _)
                (fcnT_detail_pre _ _)))
        · split at h2
          · rw [List.mem_singleton] at h2
            subst h2
            exact fcnT_append_left _ _ (detail_prefix_ne_nil _ _)
              (fcnT_detail_pre _ _)
          · exact absurd h2 (List.not_mem_nil l)
    · split at h3
      · rw [List.mem_singleton] at h3
        subst h3
        exact fcnT_detail_pre _ _
      · exact absurd h3 (List.not_mem_nil l)
  · obtain ⟨t, _, rfl⟩ := List.mem_map.1 h4
    exact fcnT_append_left _ _
      (append_data_ne_nil_left _ _ (detail_prefix_ne_nil _ _))
      (fcnT_append_left _ _ (detail_prefix_ne_nil _ _) (fcnT_detail_pre _ _))

theorem walkBranches_cons_lines
    (wchild : Option String → List Nat → List (String × NumEntry) →
      List (String × Nat) → WalkRes)
    (g : Graph) (gwId : String) (node : BNode) (numbering : List Nat)
    (indent : String) (flow_id : String) (rest : List String) (bidx : Nat)
    (nmap : List (String × NumEntry)) (bstate : List (String × Nat))
    (lastUsed : List Nat) :
    (walkBranches wchild g gwId node numbering indent (flow_id :: rest) bidx
        nmap bstate lastUsed).lines =
      (indent ++ "    " ++ "Caso " ++
        (if (agetD g.flows flow_id defaultFlow).name = "" ∧
            node.kind = "parallelGateway" then "Caminho " ++ pad2 bidx
         else if (agetD g.flows flow_id defaultFlow).name ≠ "" then
            (agetD g.flows flow_id defaultFlow).name
         else "Caminho " ++ toString (agetD bstate gwId 1)) ++ ":") ::
      (wchild (agetD g.flows flow_id defaultFlow).target
        (numbering ++ [agetD bstate gwId 1, 1]) nmap
        (aset bstate gwId (agetD bstate gwId 1 + 1))).lines ++
      (walkBranches wchild g gwId node numbering indent rest (bidx + 1)
        (wchild (agetD g.flows flow_id defaultFlow).target
          (numbering ++ [agetD bstate gwId 1, 1]) nmap
          (aset bstate gwId (agetD bstate gwId 1 + 1))).nmap
        (branchBstate2 gwId numbering
          (wchild (agetD g.flows flow_id defaultFlow).target
            (numbering ++ [agetD bstate gwId 1, 1]) nmap
            (aset bstate gwId (agetD bstate gwId 1 + 1))))
        (wchild (agetD g.flows flow_id defaultFlow).target
          (numbering ++ [agetD bstate gwId 1, 1]) nmap
          (aset bstate gwId (agetD bstate gwId 1 + 1))).last).lines := rfl

theorem walkBranches_lines_fcnT (g : Graph) (gwId : String) (node : BNode)
    (v : List Nat) (indent : String)
    (wchild : Option String → List Nat → List (String × NumEntry) →
      List (String × Nat) → WalkRes)
    (hchild : ∀ n v' m b, ∀ l ∈ (wchild n v' m b).lines, firstCharNotT l)
    (hind : firstCharNotT indent) :
    ∀ (outs : List String) (bidx : Nat) (nmap : List (String × NumEntry))
      (bstate : List (String × Nat)) (lastUsed : List Nat),
      ∀ l ∈ (walkBranches wchild g gwId node v indent outs bidx nmap bstate
        lastUsed).lines, firstCharNotT l := by
  intro outs
  induction outs with
  | nil =>
      intro bidx nmap bstate lastUsed l hl
      rw [walkBranches_nil] at hl
      exact absurd hl (List.not_mem_nil l)
  | cons flow_id rest ih =>
      intro bidx nmap bstate lastUsed l hl
      rw [walkBranches_cons_lines] at hl
      rcases List.mem_cons.1 hl with rfl | hl2
      · exact fcnT_append_left _ _
          (append_data_ne_nil_left _ _
            (append_data_ne_nil_left _ _ (append_data_ne_nil_right _ _ (by decide))))
          (fcnT_append_left _ _
            (append_data_ne_nil_left _ _ (append_data_ne_nil_right _ _ (by decide)))
            (fcnT_append_left _ _ (append_data_ne_nil_right _ _ (by decide))
              (fcnT_append _ _ hind (fcnT_of_head _ ' ' rfl (by decide)))))
      · rcases List.mem_append.1 hl2 with hc | hr
        · exact hchild _ _ _ _ l hc
        · exact ih (bidx + 1) _ _ _ l hr

theorem walkCommit_lines_fcnT (g : Graph) (id : String) (node : BNode)
    (v : List Nat) (nmap : List (String × NumEntry))
    (bstate : List (String × Nat))
    (wchild : Option String → List Nat → List (String × NumEntry) →
      List (String × Nat) → WalkRes)
    (hchild : ∀ n v' m b, ∀ l ∈ (wchild n v' m b).lines, firstCharNotT l) :
    ∀ l ∈ (walkCommit wchild g id node v nmap bstate).lines, firstCharNotT l := by
  intro l hl
  unfold walkCommit at hl
  split at hl
  · exact hchild _ _ _ _ l hl
  · split at hl
    · simp only [] at hl
      rcases List.mem_append.1 hl with hh | hr
      · exact nodeLines_fcnT g id node v _ l hh
      · exact walkBranches_lines_fcnT g id node v _ wchild hchild
          (fcnT_spaces4 _) _ _ _ _ _ l hr
    · split at hl
      · simp only [] at hl
        rcases List.mem_append.1 hl with hh | hr
        · exact nodeLines_fcnT g id node v _ l hh
        · exact hchild _ _ _ _ l hr
      · exact nodeLines_fcnT g id node v _ l hl

/-- No walker line starts with `"Titulo: "`. -/
theorem walkF_lines_fcnT (g : Graph) :
    ∀ (fuel : Nat) (nid : Option String) (v : List Nat) (path : List String)
      (nmap : List (String × NumEntry)) (bstate : List (String × Nat)),
      ∀ l ∈ (walkF fuel g nid v path nmap bstate).lines, firstCharNotT l := by
  intro fuel
  induction fuel with
  | zero =>
      intro nid v path nmap bstate l hl
      exact absurd hl (List.not_mem_nil l)
  | succ fuel ih =>
      intro nid v path nmap bstate l hl
      cases nid with
      | none => exact absurd hl (List.not_mem_nil l)
      | some id =>
          rw [walkF_succ_some] at hl
          split at hl
          · exact absurd hl (List.not_mem_nil l)
          · split at hl
            · exact absurd hl (List.not_mem_nil l)
            · split at hl
              · rw [List.mem_singleton] at hl
                subst hl
                exact fcnT_append_left _ _
                  (append_data_ne_nil_left _ _ (append_data_ne_nil_left _ _
                    (append_data_ne_nil_left _ _
                      (append_data_ne_nil_right _ _ (by decide)))))
                  (fcnT_append_left _ _
                    (append_data_ne_nil_left _ _ (append_data_ne_nil_left _ _
                      (append_data_ne_nil_right _ _ (by decide))))
                    (fcnT_append_left _ _
                      (append_data_ne_nil_left _ _
                        (append_data_ne_nil_right _ _ (by decide)))
                      (fcnT_append_left _ _
                        (append_data_ne_nil_right _ _ (by decide))
                        (fcnT_append _ _ (fcnT_spaces4 _)
                          (fcnT_of_head _ '(' rfl (by decide))))))
              · split at hl
                · rw [List.mem_singleton] at hl
                  subst hl
                  exact fcnT_append_left _ _
                    (append_data_ne_nil_left _ _
                      (append_data_ne_nil_right _ _ (by decide)))
                    (fcnT_append_left _ _
                      (append_data_ne_nil_right _ _ (by decide))
                      (fcnT_append _ _ (fcnT_spaces4 _)
                        (fcnT_of_head _ '(' rfl (by decide))))
                · exact walkCommit_lines_fcnT g id _ v nmap bstate _
                    (fun n v' m b => ih n v' (path ++ [id]) m b) l hl

theorem startWalkLines_fcnT (g : Graph) (ses : List String) :
    ∀ l ∈ startWalkLines g ses, pyStartsWith l "Titulo: " = false := by
  intro l hl
  unfold startWalkLines at hl
  obtain ⟨ls, hls, hl⟩ := List.mem_flatten.1 hl
  obtain ⟨si, _, rfl⟩ := List.mem_map.1 hls
  exact noTitulo_of_fcnT l
    (walkF_lines_fcnT g (fuelFor g []) (some si.2) [si.1] [] [] [] l hl)

theorem listPrefix_append_self :
    ∀ p rest : List Char, listPrefix p (p ++ rest) = true := by
  intro p
  induction p with
  | nil => intro rest; rfl
  | cons c cs ih =>
      intro rest
      show (c == c && listPrefix cs (cs ++ rest)) = true
      rw [ih]
      simp

theorem titulo_prefix_true (t : String) :
    pyStartsWith ("Titulo: " ++ t) "Titulo: " = true := by
  show listPrefix "Titulo: ".data ("Titulo: ".data ++ t.data) = true
  exact listPrefix_append_self _ _

theorem exMapM_ok_length {α β : Type} (f : α → Except PyErr β) :
    ∀ (l : List α) (ys : List β), exMapM f l = .ok ys → ys.length = l.length := by
  intro l
  induction l with
  | nil =>
      intro ys h
      injection h with h2
      rw [← h2]
      rfl
  | cons x xs ih =>
      intro ys h
      unfold exMapM at h
      split at h
      · exact Except.noConfusion h
      · split at h
        · exact Except.noConfusion h
        · rename_i ys' hys'
          injection h with h2
          rw [← h2, List.length_cons, List.length_cons, ih ys' hys']

theorem exMapM_fst {α β : Type} (f : α → Except PyErr β) (pr : β → α)
    (hf : ∀ x y, f x = .ok y → pr y = x) :
    ∀ (l : List α) (ys : List β), exMapM f l = .ok ys → ys.map pr = l := by
  intro l
  induction l with
  | nil =>
      intro ys h
      injection h with h2
      rw [← h2]
      rfl
  | cons x xs ih =>
      intro ys h
      unfold exMapM at h
      split at h
      · exact Except.noConfusion h
      · rename_i y hy
        split at h
        · exact Except.noConfusion h
        · rename_i ys' hys'
          injection h with h2
          rw [← h2, List.map_cons, hf x y hy, ih ys' hys']

theorem filter_titulo_block (A : List String) (t : String) (swl : List String)
    (hswl : ∀ l ∈ swl, pyStartsWith l "Titulo: " = false) :
    ((A ++ (("Titulo: " ++ t) :: swl)) ++ [""]).filter
      (fun l => pyStartsWith l "Titulo: ") =
    A.filter (fun l => pyStartsWith l "Titulo: ") ++ ["Titulo: " ++ t] := by
  rw [List.filter_append, List.filter_append,
    show List.filter (fun l => pyStartsWith l "Titulo: ") [""] = [] by decide,
    List.filter_cons, titulo_prefix_true,
    List.filter_eq_nil_iff.2 (fun l hl hc =>
      Bool.false_ne_true ((hswl l hl).symm.trans hc))]
  simp

theorem renderProcess_lines (defs : XElem) (parts : List (String × String))
    (arts : List (String × List Artifact)) (stem : String)
    (acc : RenderAcc) (proc : XElem) (cr : CollectResult) (res : RenderAcc)
    (h : renderProcess defs parts arts stem acc proc cr = .ok res) :
    (res.all_lines.filter (fun l => pyStartsWith l "Titulo: ") =
      acc.all_lines.filter (fun l => pyStartsWith l "Titulo: ") ++
      (if (findall proc nsBpmn "startEvent").isEmpty then []
       else ["Titulo: " ++ titleOf parts stem proc])) ∧
    ((findall proc nsBpmn "startEvent").isEmpty = true →
      res.all_lines = acc.all_lines) := by
  unfold renderProcess at h
  simp only [Bind.bind, Except.bind] at h
  split at h
  · exact Except.noConfusion h
  · split at h
    · exact Except.noConfusion h
    · rename_i sevs hsevs
      split at h
      · rename_i hse
        injection h with h2
        subst h2
        have hempty : (findall proc nsBpmn "startEvent").isEmpty = true := by
          rw [List.isEmpty_iff, ← List.length_eq_zero,
            ← exMapM_ok_length _ _ _ hsevs, hse]
          rfl
        constructor
        · rw [if_pos hempty]
          simp
        · intro _
          rfl
      · rename_i hse
        injection h with h2
        subst h2
        have hnempty : (findall proc nsBpmn "startEvent").isEmpty = false := by
          have hlen := exMapM_ok_length _ _ _ hsevs
          rcases hfe : findall proc nsBpmn "startEvent" with _ | ⟨x, xs⟩
          · exfalso
            rw [hfe] at hlen
            simp only [List.length_nil] at hlen
            exact hse (List.length_eq_zero.1 hlen)
          · rfl
        constructor
        · rw [if_neg (fun hc => Bool.false_ne_true (hnempty ▸ hc))]
          exact filter_titulo_block acc.all_lines (titleOf parts stem proc) _
            (startWalkLines_fcnT _ _)
        · intro hempty
          exact absurd (hnempty.symm.trans hempty) (by decide)

theorem renderFold_lines (defs : XElem) (parts : List (String × String))
    (arts : List (String × List Artifact)) (stem : String) :
    ∀ (pis : List (XElem × CollectResult)) (acc res : RenderAcc),
      exFoldlM (fun acc pi => renderProcess defs parts arts stem acc pi.1 pi.2)
        acc pis = .ok res →
      res.all_lines.filter (fun l => pyStartsWith l "Titulo: ") =
        acc.all_lines.filter (fun l => pyStartsWith l "Titulo: ") ++
        ((pis.map Prod.fst).filter (fun proc =>
          !(findall proc nsBpmn "startEvent").isEmpty)).map
          (fun proc => "Titulo: " ++ titleOf parts stem proc) := by
  intro pis
  induction pis with
  | nil =>
      intro acc res h
      injection h with h2
      subst h2
      simp
  | cons pi pis ih =>
      intro acc res h
      unfold exFoldlM at h
      split at h
      · exact Except.noConfusion h
      · rename_i mid hmid
        obtain ⟨hfilter, _⟩ :=
          renderProcess_lines defs parts arts stem acc pi.1 pi.2 mid hmid
        rw [ih mid res h, hfilter, List.map_cons]
        by_cases he : (findall pi.1 nsBpmn "startEvent").isEmpty = true
        · rw [if_pos he, List.filter_cons_of_neg]
          · simp
          · rw [he]
            decide
        · have he' : (findall pi.1 nsBpmn "startEvent").isEmpty = false :=
            Bool.not_eq_true _ ▸ he
          rw [if_neg (fun hc => Bool.false_ne_true (he' ▸ hc)),
            List.filter_cons_of_pos]
          · simp
          · rw [he']
            decide

theorem fcnT_ne_append (a : String) (h : firstCharNotT a ∧ a.data ≠ [])
    (b : String) :
    firstCharNotT (a ++ b) ∧ ((a ++ b) : String).data ≠ [] :=
  ⟨fcnT_append_left _ _ h.2 h.1, append_data_ne_nil_left _ _ h.2⟩

theorem fcnT_dash : firstCharNotT ("- " : String) ∧ ("- " : String).data ≠ [] :=
  ⟨fcnT_of_head _ '-' rfl (by decide), by decide⟩

theorem msg_map_filter_nil (ms : List (String × String × String × String × String)) :
    (ms.map (fun e => "- " ++ e.1 ++ " / " ++ e.2.1 ++ " | " ++ e.2.2.1 ++ " / "
      ++ e.2.2.2.1 ++ " | " ++ e.2.2.2.2)).filter
      (fun l => pyStartsWith l "Titulo: ") = [] := by
  refine List.filter_eq_nil_iff.2 ?_
  intro l hl hc
  obtain ⟨e, _, rfl⟩ := List.mem_map.1 hl
  refine Bool.false_ne_true (Eq.trans ?_ hc).symm.symm
  exact (noTitulo_of_fcnT _
    (fcnT_ne_append _ (fcnT_ne_append _ (fcnT_ne_append _ (fcnT_ne_append _
      (fcnT_ne_append _ (fcnT_ne_append _ (fcnT_ne_append _ (fcnT_ne_append _
        fcnT_dash e.1) " / ") e.2.1) " | ") e.2.2.1) " / ") e.2.2.2.1) " | ").1).symm

theorem orphan_fold_filter_nil (notes : List Artifact) :
    ∀ acc : List String, (∀ l ∈ acc, pyStartsWith l "Titulo: " = false) →
      (notes.foldl (fun (acc : List String) a =>
        if cleanNote (optStr a.2) ≠ "" ∧
            ("- \"" ++ cleanNote (optStr a.2) ++ "\"") ∉ acc then
          acc ++ ["- \"" ++ cleanNote (optStr a.2) ++ "\""]
        else acc) acc).filter (fun l => pyStartsWith l "Titulo: ") = [] := by
  induction notes with
  | nil =>
      intro acc hacc
      refine List.filter_eq_nil_iff.2 ?_
      intro l hl hc
      exact Bool.false_ne_true ((hacc l hl).symm.trans hc)
  | cons a notes ih =>
      intro acc hacc
      rw [List.foldl_cons]
      by_cases hcnd : cleanNote (optStr a.2) ≠ "" ∧
          ("- \"" ++ cleanNote (optStr a.2) ++ "\"") ∉ acc
      · rw [if_pos hcnd]
        refine ih _ ?_
        intro l hl
        rcases List.mem_append.1 hl with h1 | h2
        · exact hacc l h1
        · rw [List.mem_singleton] at h2
          subst h2
          exact noTitulo_of_fcnT _
            (fcnT_ne_append _ (fcnT_ne_append "- \""
              ⟨fcnT_of_head "- \"" '-' rfl (by decide), by decide⟩ _) _).1
      · rw [if_neg hcnd]
        exact ih _ hacc

/-- C3 (amended): the `"Titulo: "` headers of a successful render are
exactly one per process having at least one `startEvent`, in document
order, carrying that process's title; a process without a start event is
skipped entirely — its render-loop iteration leaves the output lines
untouched. -/
theorem c3_titles (defs : XElem) (stem : String) (L : List String)
    (h : render_lines defs stem = .ok L) :
    L.filter (fun l => pyStartsWith l "Titulo: ") =
      ((findall defs nsBpmn "process").filter (fun proc =>
        !(findall proc nsBpmn "startEvent").isEmpty)).map
        (fun proc => "Titulo: " ++ titleOf (collectParticipants defs).1 stem proc) ∧
    (∀ (parts : List (String × String)) (arts : List (String × List Artifact))
        (acc : RenderAcc) (proc : XElem) (cr : CollectResult) (res : RenderAcc),
      findall proc nsBpmn "startEvent" = [] →
      renderProcess defs parts arts stem acc proc cr = .ok res →
      res.all_lines = acc.all_lines) := by
  constructor
  · unfold render_lines at h
    simp only [Bind.bind, Except.bind] at h
    split at h
    · exact Except.noConfusion h
    · split at h
      · exact Except.noConfusion h
      · rename_i proc_info hpi
        split at h
        · exact Except.noConfusion h
        · rename_i acc hacc
          injection h with h2
          subst h2
          have hfold := renderFold_lines defs (collectParticipants defs).1 _ stem
            proc_info ⟨[], [], []⟩ acc hacc
          have hfst : proc_info.map Prod.fst = findall defs nsBpmn "process" := by
            refine exMapM_fst _ Prod.fst ?_ _ _ hpi
            intro x y hxy
            simp only [Bind.bind, Except.bind] at hxy
            split at hxy
            · exact Except.noConfusion hxy
            · injection hxy with h3
              rw [← h3]
          have hcore : acc.all_lines.filter (fun l => pyStartsWith l "Titulo: ") =
              ((findall defs nsBpmn "process").filter (fun proc =>
                !(findall proc nsBpmn "startEvent").isEmpty)).map
                (fun proc => "Titulo: " ++
                  titleOf (collectParticipants defs).1 stem proc) := by
            rw [hfold, hfst]
            rfl
          split
          · split
            · simp only [List.filter_append, msg_map_filter_nil,
                orphan_fold_filter_nil _ [] (fun l hl =>
                  absurd hl (List.not_mem_nil l)),
                show List.filter (fun l => pyStartsWith l "Titulo: ")
                  ["Interações entre processos (message flows):",
                   "- Origem (Processo / Elemento) | Destino (Processo / Elemento) | Mensagem"]
                  = [] by decide,
                show List.filter (fun l => pyStartsWith l "Titulo: ")
                  ["", "Anotações não ligadas a elementos:"] = [] by decide,
                List.append_nil, List.nil_append]
              exact hcore
            · simp only [List.filter_append,
                orphan_fold_filter_nil _ [] (fun l hl =>
                  absurd hl (List.not_mem_nil l)),
                show List.filter (fun l => pyStartsWith l "Titulo: ")
                  ["", "Anotações não ligadas a elementos:"] = [] by decide,
                List.append_nil, List.nil_append]
              exact hcore
          · split
            · simp only [List.filter_append, msg_map_filter_nil,
                show List.filter (fun l => pyStartsWith l "Titulo: ")
                  ["Interações entre processos (message flows):",
                   "- Origem (Processo / Elemento) | Destino (Processo / Elemento) | Mensagem"]
                  = [] by decide,
                List.append_nil, List.nil_append]
              exact hcore
            · exact hcore
  · intro parts arts acc proc cr res hempty hrp
    exact (renderProcess_lines defs parts arts stem acc proc cr res hrp).2
      (by rw [hempty]; rfl)

theorem c3_titles_witness :
    c3L.filter (fun l => pyStartsWith l "Titulo: ") =
      ((findall exDocC3b nsBpmn "process").filter (fun proc =>
        !(findall proc nsBpmn "startEvent").isEmpty)).map
        (fun proc => "Titulo: " ++
          titleOf (collectParticipants exDocC3b).1 "diagrama" proc) ∧
    (∀ (parts : List (String × String)) (arts : List (String × List Artifact))
        (acc : RenderAcc) (proc : XElem) (cr : CollectResult) (res : RenderAcc),
      findall proc nsBpmn "startEvent" = [] →
      renderProcess exDocC3b parts arts "diagrama" acc proc cr = .ok res →
      res.all_lines = acc.all_lines) :=
  c3_titles exDocC3b "diagrama" c3L (by decide)

end Bpmn2Text
